import Mathlib

/-!
# ProjectorRays: the movie archive reader of `src/movie.cpp`

A shallow embedding of `Movie` (directory, tag index, the two caches, the
lazily materialised chunks) and of the functions of `movie.cpp`:
`read`, `readMemoryMap`, `readAfterburnerMap`, `readKeyTable`, `readConfig`,
`readCasts`, `getFirstChunkInfo`, `getChunk`, `readChunk`, `makeChunk`.

Conventions of the embedding.

* Unsigned 32-bit values are `Nat`; where the source can wrap, the model
  reduces modulo `2 ^ 32` explicitly. `size_t` is taken to be 64 bits wide.
* `std::map<K, V>` is a function `Nat → Option V`; a key is present when the
  function is not `none` there. `operator[]` on an absent key inserts the
  value-initialised element, as in C++. Resource ids are naturals.
* `std::shared_ptr<Chunk>` is an index into `Movie.heap`, the list of chunk
  objects allocated so far; two pointers are the same object when they are
  the same index.
* A function that can throw returns `Except MovieError α × Movie`: the state
  component is the state at the moment of the `throw`.
* `stream.h`, `chunk.h`, `movie.h`, `util.h` and zlib are not part of the
  sources at hand. The stream primitives are modelled from the specification;
  the chunk payload parsers, `uncompress` and `humanVersion` are parameters
  (`Env`). A payload parser is a function of the tag, the movie's `version`
  and `capitalX` and the payload stream: it does not call back into the movie.
  The default of the `len` argument of `readChunk` is `UINT32_MAX`.
-/

namespace ProjectorRays

/-! ## Four-character tags and errors -/

/-- The largest `uint32_t`. -/
def UINT32_MAX : Nat := 4294967295

/-- Modelled from the spec: the `FOURCC` macro of `util.h`, a 32-bit identifier
formed from four ASCII bytes, the first one most significant (so that the bytes
`RIFX` read as a big-endian `u32` equal `FOURCC('R','I','F','X')`). -/
def FOURCC (a b c d : Char) : Nat :=
  a.toNat * 16777216 + b.toNat * 65536 + c.toNat * 256 + d.toNat

/-- The ways in which the functions of `movie.cpp` stop abnormally. The first
six are the `std::runtime_error`s thrown in `movie.cpp` itself; `pastEnd` is a
stream read beyond the end of its buffer, `payload` a failure inside a chunk
payload parser, and `badPointer` stands for undefined behaviour (a null
pointer dereference or a `static_pointer_cast` to a variant the object is not). -/
inductive MovieError where
  | codecUnsupported (codec : Nat)
  | chunkNotFound (id : Nat)
  | tagMismatch (id expected actual : Nat)
  | uncompressFailed (id : Nat)
  | uncompressedLength (id expected actual : Nat)
  | framing (offset fourCC len validFourCC validLen : Nat)
  | pastEnd
  | payload
  | badPointer
  deriving DecidableEq, Repr

instance instDecidableEqExcept {ε α : Type} [DecidableEq ε] [DecidableEq α] :
    DecidableEq (Except ε α)
  | .ok a, .ok b => if h : a = b then isTrue (by rw [h]) else isFalse (by intro h2; cases h2; exact h rfl)
  | .error a, .error b =>
    if h : a = b then isTrue (by rw [h]) else isFalse (by intro h2; cases h2; exact h rfl)
  | .ok _, .error _ => isFalse (by intro h; cases h)
  | .error _, .ok _ => isFalse (by intro h; cases h)

/-! ## The byte stream (`stream.h`, modelled from the specification) -/

/-- Byte order selector of a stream. -/
inductive Endianness where
  | kBigEndian
  | kLittleEndian
  deriving DecidableEq, Repr

/-- Modelled from the spec: `ReadStream` of `stream.h`, a seekable reader over
a byte buffer with a runtime endianness selector. Bytes are naturals, read
modulo 256. -/
structure ReadStream where
  data : List Nat
  pos : Nat
  endianness : Endianness
  deriving DecidableEq, Repr

namespace ReadStream

/-- Modelled from the spec: `eof()`, the position is at or past the end. -/
def eof (s : ReadStream) : Bool := decide (s.data.length ≤ s.pos)

/-- Modelled from the spec: `seek(pos)`. -/
def seek (s : ReadStream) (p : Nat) : ReadStream := { s with pos := p }

/-- Modelled from the spec: `skip(n)`. -/
def skip (s : ReadStream) (n : Nat) : ReadStream := { s with pos := s.pos + n }

/-- The byte at index `i` of the buffer, zero past the end. -/
def byteAt (s : ReadStream) (i : Nat) : Nat := (s.data.getD i 0) % 256

/-- Modelled from the spec: `read_u32`, endianness-aware; the position advances
by four and the read fails (`Truncated`) when it runs past the end. -/
def readUint32 (s : ReadStream) : Except MovieError Nat × ReadStream :=
  let p := s.pos
  let s1 := { s with pos := p + 4 }
  if s.data.length < p + 4 then (.error .pastEnd, s1)
  else
    match s.endianness with
    | .kBigEndian =>
      (.ok (s.byteAt p * 16777216 + s.byteAt (p + 1) * 65536 + s.byteAt (p + 2) * 256
        + s.byteAt (p + 3)), s1)
    | .kLittleEndian =>
      (.ok (s.byteAt (p + 3) * 16777216 + s.byteAt (p + 2) * 65536 + s.byteAt (p + 1) * 256
        + s.byteAt p), s1)

/-- The signed reading of a 32-bit pattern. -/
def toInt32 (n : Nat) : Int := if n % 4294967296 < 2147483648 then (n % 4294967296 : Nat)
  else ((n % 4294967296 : Nat) : Int) - 4294967296

/-- Modelled from the spec: `read_i32`, as `read_u32` read as a signed value. -/
def readInt32 (s : ReadStream) : Except MovieError Int × ReadStream :=
  match s.readUint32 with
  | (.ok v, s1) => (.ok (toInt32 v), s1)
  | (.error e, s1) => (.error e, s1)

/-- The varint loop over the bytes that remain: each byte contributes its 7 low
bits, least significant group first; the high bit signals that another byte
follows. Returns the value and the number of bytes consumed, or `none` when
the bytes end before a byte without the continuation bit. -/
def varIntAux : List Nat → Nat → Nat → Nat → Option (Nat × Nat)
  | [], _, _, _ => none
  | b :: rest, shift, acc, k =>
    if 128 ≤ b % 256 then varIntAux rest (shift + 7) (acc + (b % 128) * 2 ^ shift) (k + 1)
    else some (acc + (b % 128) * 2 ^ shift, k + 1)

/-- Modelled from the spec: `read_varint` (7-bit little-endian continuation,
MSB = continuation), truncated to the `uint32_t` the callers store it in. A
varint cut off by the end of the buffer fails (`Truncated`) with the position
past the end. -/
def readVarInt (s : ReadStream) : Except MovieError Nat × ReadStream :=
  match varIntAux (s.data.drop s.pos) 0 0 0 with
  | some (v, k) => (.ok (v % 4294967296), { s with pos := s.pos + k })
  | none => (.error .pastEnd, { s with pos := s.pos + (s.data.drop s.pos).length + 1 })

/-- Modelled from the spec: `read_bytes(n)`, a sub-stream over a copy of the
next `n` bytes, inheriting the endianness; the position advances by `n` and
the read fails (`Truncated`) when fewer than `n` bytes remain. -/
def readBytes (s : ReadStream) (n : Nat) : Except MovieError ReadStream × ReadStream :=
  let s1 := { s with pos := s.pos + n }
  if s.data.length < s.pos + n then (.error .pastEnd, s1)
  else (.ok { data := (s.data.drop s.pos).take n, pos := 0, endianness := s.endianness }, s1)

/-- Modelled from the spec: `copy_bytes(n)`, a copy of the next `n` bytes, or
null (`none`) when fewer than `n` bytes remain; the position advances by `n`
either way. -/
def copyBytes (s : ReadStream) (n : Nat) : Option (List Nat) × ReadStream :=
  let s1 := { s with pos := s.pos + n }
  if s.data.length < s.pos + n then (none, s1)
  else (some ((s.data.drop s.pos).take n), s1)

/-- Modelled from the spec: `read_zlib(n, expected_uncompressed_len)`. It
consumes exactly `n` bytes and inflates them with zlib's `uncompress`, which is
the parameter `unz` (input bytes and the expected length, which `uncompress`
takes as the capacity of its output buffer). The result is `none` (a null
stream) on inflate failure, otherwise a fresh stream over the inflated bytes
inheriting the endianness. The second component is the observed length
written back through the pointer argument: the length of the inflated bytes,
or the expected length untouched on failure. Fewer than `n` remaining bytes
fail as `Truncated`. -/
def readZlibBytes (unz : List Nat → Nat → Option (List Nat)) (s : ReadStream) (n : Nat)
    (expected : Nat) : Except MovieError (Option ReadStream × Nat) × ReadStream :=
  let s1 := { s with pos := s.pos + n }
  if s.data.length < s.pos + n then (.error .pastEnd, s1)
  else
    match unz ((s.data.drop s.pos).take n) expected with
    | none => (.ok (none, expected), s1)
    | some out =>
      (.ok (some { data := out, pos := 0, endianness := s.endianness }, out.length), s1)

end ReadStream

/-! ## Chunks (`chunk.h`, `subchunk.h`) -/

/-- One entry of the `mmap` array: `(tag, len, offset)`, all `u32`. -/
structure MemoryMapEntry where
  fourCC : Nat
  len : Nat
  offset : Nat
  deriving DecidableEq, Repr

/-- One row of the key table. -/
structure KeyTableEntry where
  sectionID : Int
  castID : Int
  fourCC : Nat
  deriving DecidableEq, Repr

/-- One entry of the cast list (`MCsL`). -/
structure CastListEntry where
  name : String
  id : Int
  minMember : Nat
  deriving DecidableEq, Repr

/-- The name, id and `min_member` that `CastChunk::populate` sets on a cast. -/
structure CastInfo where
  name : String
  id : Int
  minMember : Nat
  deriving DecidableEq, Repr

/-- The chunk variants `makeChunk` constructs, each with the fields `movie.cpp`
reads from it; the payload of the other variants is the opaque product `body`
of its parser. -/
inductive Chunk where
  | initialMap (memoryMapOffset : Nat)
  | memoryMap (mapArray : List MemoryMapEntry)
  | cast (body : List Nat) (info : Option CastInfo)
  | castMember (body : List Nat)
  | keyTable (entries : List KeyTableEntry)
  | scriptContext (body : List Nat)
  | scriptNames (body : List Nat)
  | script (body : List Nat)
  | config (directorVersion : Nat) (minMember : Nat)
  | castList (entries : List CastListEntry)
  | generic (body : List Nat)
  deriving DecidableEq, Repr

/-- The collaborators of `movie.cpp` whose code is not at hand, taken as
parameters: the payload parsers `Chunk::read` of each variant (`none` when the
parser throws; the opaque ones may look at the tag, the movie's `version` and
`capitalX`), zlib's `uncompress` (input, capacity of the output buffer) and
`humanVersion` of `util.h`. -/
structure Env where
  readInitialMap : ReadStream → Option Nat
  readMemoryMapArray : ReadStream → Option (List MemoryMapEntry)
  readKeyTableEntries : ReadStream → Option (List KeyTableEntry)
  readConfigFields : ReadStream → Option (Nat × Nat)
  readCastListEntries : ReadStream → Option (List CastListEntry)
  readBody : Nat → Nat → Bool → ReadStream → Option (List Nat)
  uncompress : List Nat → Nat → Option (List Nat)
  humanVersion : Nat → Nat

/-- The directory entry of one resource. `offset` holds the 32-bit pattern of
the `int32_t` field. -/
structure ChunkInfo where
  id : Nat
  fourCC : Nat
  len : Nat
  uncompressedLen : Nat
  offset : Nat
  compressionType : Nat
  deriving DecidableEq, Repr

/-- The value-initialised `ChunkInfo` that `operator[]` inserts. -/
def ChunkInfo.zero : ChunkInfo :=
  { id := 0, fourCC := 0, len := 0, uncompressedLen := 0, offset := 0, compressionType := 0 }

/-! ## The movie -/

/-- The state of a `Movie`. `chunkInfo` is the directory, `chunkIDsByFourCC`
the tag index, `deserializedChunks` the materialised-chunk cache,
`cachedChunkData` the raw cache of the initial load segment (`_cachedChunkData`),
`ilsBodyOffset` is `_ilsBodyOffset`; `heap` lists the chunk objects allocated
so far, and `keyTable`, `config`, `casts` and the cache hold indices into it. -/
structure Movie where
  stream : ReadStream
  codec : Nat
  afterburned : Bool
  version : Nat
  capitalX : Bool
  chunkInfo : Nat → Option ChunkInfo
  chunkIDsByFourCC : Nat → Option (List Nat)
  keyTable : Option Nat
  config : Option Nat
  casts : List Nat
  deserializedChunks : Nat → Option Nat
  cachedChunkData : Nat → Option (List Nat)
  ilsBodyOffset : Nat
  heap : List Chunk

/-- A freshly constructed movie over the stream `s`: nothing parsed yet. -/
def Movie.fresh (s : ReadStream) : Movie :=
  { stream := s, codec := 0, afterburned := false, version := 0, capitalX := false,
    chunkInfo := fun _ => none, chunkIDsByFourCC := fun _ => none,
    keyTable := none, config := none, casts := [],
    deserializedChunks := fun _ => none, cachedChunkData := fun _ => none,
    ilsBodyOffset := 0, heap := [] }

/-- Assignment `m[k] = v` on a `std::map`. -/
def mapSet {α : Type} (m : Nat → Option α) (k : Nat) (v : α) : Nat → Option α :=
  fun j => if j = k then some v else m j

/-- The vector `chunkIDsByFourCC[tag]` as `operator[]` reads it: empty when
the key is absent. -/
def Movie.idsOf (m : Movie) (tag : Nat) : List Nat := (m.chunkIDsByFourCC tag).getD []

/-- The construction of the chunk object for `fourCC` and the run of its
payload parser (`res->read(stream)`): the `switch` of `makeChunk`. -/
def parseChunk (E : Env) (fourCC : Nat) (capitalX : Bool) (version : Nat) (cs : ReadStream) :
    Option Chunk :=
  if fourCC = FOURCC 'i' 'm' 'a' 'p' then (E.readInitialMap cs).map Chunk.initialMap
  else if fourCC = FOURCC 'm' 'm' 'a' 'p' then (E.readMemoryMapArray cs).map Chunk.memoryMap
  else if fourCC = FOURCC 'C' 'A' 'S' '*' then
    (E.readBody fourCC version capitalX cs).map (fun b => Chunk.cast b none)
  else if fourCC = FOURCC 'C' 'A' 'S' 't' then
    (E.readBody fourCC version capitalX cs).map Chunk.castMember
  else if fourCC = FOURCC 'K' 'E' 'Y' '*' then (E.readKeyTableEntries cs).map Chunk.keyTable
  else if fourCC = FOURCC 'L' 'c' 't' 'X' then
    (E.readBody fourCC version capitalX cs).map Chunk.scriptContext
  else if fourCC = FOURCC 'L' 'c' 't' 'x' then
    (E.readBody fourCC version capitalX cs).map Chunk.scriptContext
  else if fourCC = FOURCC 'L' 'n' 'a' 'm' then
    (E.readBody fourCC version capitalX cs).map Chunk.scriptNames
  else if fourCC = FOURCC 'L' 's' 'c' 'r' then
    (E.readBody fourCC version capitalX cs).map Chunk.script
  else if fourCC = FOURCC 'V' 'W' 'C' 'F' then
    (E.readConfigFields cs).map (fun p => Chunk.config p.1 p.2)
  else if fourCC = FOURCC 'D' 'R' 'C' 'F' then
    (E.readConfigFields cs).map (fun p => Chunk.config p.1 p.2)
  else if fourCC = FOURCC 'M' 'C' 's' 'L' then (E.readCastListEntries cs).map Chunk.castList
  else (E.readBody fourCC version capitalX cs).map Chunk.generic

/-- `Movie::makeChunk`: sets `capitalX` on `LctX`, constructs the variant for
the tag, runs its parser on the payload stream and returns the new object. A
parser that throws leaves no object behind. -/
def makeChunk (E : Env) (fourCC : Nat) (cs : ReadStream) (m : Movie) :
    Except MovieError Nat × Movie :=
  let m1 := if fourCC = FOURCC 'L' 'c' 't' 'X' then { m with capitalX := true } else m
  match parseChunk E fourCC m1.capitalX m1.version cs with
  | none => (.error .payload, m1)
  | some c => (.ok m1.heap.length, { m1 with heap := m1.heap ++ [c] })

/-- `Movie::readChunk`: reads the 8-byte framing at the current position,
validates it against the expected tag and length (`len = UINT32_MAX` trusts
the framing's length), and hands the next `len` bytes to `makeChunk`. -/
def readChunk (E : Env) (fourCC len : Nat) (m : Movie) : Except MovieError Nat × Movie :=
  let offset := m.stream.pos
  match m.stream.readUint32 with
  | (.error e, s1) => (.error e, { m with stream := s1 })
  | (.ok validFourCC, s1) =>
    match s1.readUint32 with
    | (.error e, s2) => (.error e, { m with stream := s2 })
    | (.ok validLen, s2) =>
      let len1 := if len = UINT32_MAX then validLen else len
      if fourCC ≠ validFourCC ∨ len1 ≠ validLen then
        (.error (.framing offset fourCC len1 validFourCC validLen), { m with stream := s2 })
      else
        match s2.readBytes len1 with
        | (.error e, s3) => (.error e, { m with stream := s3 })
        | (.ok cs, s3) => makeChunk E fourCC cs { m with stream := s3 }

/-- `Movie::getFirstChunkInfo`: the directory entry of the first id the tag
index lists for `fourCC`, or null. Both `operator[]`s insert when the key is
absent. -/
def getFirstChunkInfo (fourCC : Nat) (m : Movie) : Option ChunkInfo × Movie :=
  let chunkIDs := m.idsOf fourCC
  let m1 := { m with chunkIDsByFourCC := mapSet m.chunkIDsByFourCC fourCC chunkIDs }
  match chunkIDs with
  | [] => (none, m1)
  | i :: _ =>
    match m1.chunkInfo i with
    | some info => (some info, m1)
    | none => (some ChunkInfo.zero, { m1 with chunkInfo := mapSet m1.chunkInfo i ChunkInfo.zero })

/-- The `size_t` a (sign-extended) `int32_t` offset converts to in `seek`. -/
def seekTarget (offset : Nat) : Nat :=
  if offset % 4294967296 < 2147483648 then offset % 4294967296
  else 18446744073709551616 - 4294967296 + offset % 4294967296

/-- `Movie::getChunk`: the cached object when `id` is in the materialised-chunk
cache; otherwise the directory lookup, the tag check, the payload from the raw
cache, from an inflate at `offset + _ilsBodyOffset` (afterburned) or from
`readChunk` at `offset`, and the entry into the cache unless the tag is `imap`
or `mmap`. -/
def getChunk (E : Env) (fourCC id : Nat) (m : Movie) : Except MovieError Nat × Movie :=
  match m.deserializedChunks id with
  | some p => (.ok p, m)
  | none =>
    match m.chunkInfo id with
    | none => (.error (.chunkNotFound id), m)
    | some info =>
      if fourCC ≠ info.fourCC then (.error (.tagMismatch id fourCC info.fourCC), m)
      else
        let made : Except MovieError Nat × Movie :=
          match m.cachedChunkData id with
          | some data =>
            makeChunk E fourCC { data := data, pos := 0, endianness := m.stream.endianness } m
          | none =>
            if m.afterburned then
              let s0 := m.stream.seek ((info.offset + m.ilsBodyOffset) % 4294967296)
              match s0.readZlibBytes E.uncompress info.len info.uncompressedLen with
              | (.error e, s1) => (.error e, { m with stream := s1 })
              | (.ok (none, _), s1) => (.error (.uncompressFailed id), { m with stream := s1 })
              | (.ok (some cs, actualUncompLength), s1) =>
                if info.uncompressedLen ≠ actualUncompLength then
                  (.error (.uncompressedLength id info.uncompressedLen actualUncompLength),
                    { m with stream := s1 })
                else makeChunk E fourCC cs { m with stream := s1 }
            else readChunk E fourCC info.len { m with stream := m.stream.seek (seekTarget info.offset) }
        match made with
        | (.error e, m1) => (.error e, m1)
        | (.ok p, m1) =>
          if fourCC ≠ FOURCC 'i' 'm' 'a' 'p' ∧ fourCC ≠ FOURCC 'm' 'm' 'a' 'p' then
            (.ok p, { m1 with deserializedChunks := mapSet m1.deserializedChunks id p })
          else (.ok p, m1)

/-! ## Map parsing: the memory-map dialect -/

/-- The body of the loop of `readMemoryMap` for the entry at index `i`. -/
def addMapEntry (i : Nat) (mapEntry : MemoryMapEntry) (m : Movie) : Movie :=
  if mapEntry.fourCC = FOURCC 'f' 'r' 'e' 'e' ∨ mapEntry.fourCC = FOURCC 'j' 'u' 'n' 'k' then m
  else
    let info : ChunkInfo :=
      { id := i, fourCC := mapEntry.fourCC, len := mapEntry.len, uncompressedLen := mapEntry.len,
        offset := mapEntry.offset, compressionType := 0 }
    { m with
      chunkInfo := mapSet m.chunkInfo i info
      chunkIDsByFourCC :=
        mapSet m.chunkIDsByFourCC mapEntry.fourCC (m.idsOf mapEntry.fourCC ++ [i]) }

/-- The loop of `readMemoryMap` over the entries from index `i` on. The index
is a `uint32_t` in the source; the array is taken to have fewer than `2 ^ 32`
entries. -/
def readMemoryMapLoop : List MemoryMapEntry → Nat → Movie → Movie
  | [], _, m => m
  | mapEntry :: rest, i, m => readMemoryMapLoop rest (i + 1) (addMapEntry i mapEntry m)

/-- `Movie::readMemoryMap`: reads the `imap` chunk at the current position,
seeks to its `memoryMapOffset`, reads the `mmap` chunk there and records its
entries. -/
def readMemoryMap (E : Env) (m : Movie) : Except MovieError Unit × Movie :=
  match readChunk E (FOURCC 'i' 'm' 'a' 'p') UINT32_MAX m with
  | (.error e, m1) => (.error e, m1)
  | (.ok p, m1) =>
    match m1.heap[p]? with
    | some (.initialMap memoryMapOffset) =>
      match readChunk E (FOURCC 'm' 'm' 'a' 'p') UINT32_MAX
          { m1 with stream := m1.stream.seek memoryMapOffset } with
      | (.error e, m2) => (.error e, m2)
      | (.ok q, m2) =>
        match m2.heap[q]? with
        | some (.memoryMap mapArray) => (.ok (), readMemoryMapLoop mapArray 0 m2)
        | _ => (.error .badPointer, m2)
    | _ => (.error .badPointer, m1)

/-! ## Map parsing: the afterburner dialect -/

/-- One resource record of the inflated `ABMP` map. -/
structure AbmpRecord where
  resId : Nat
  offset : Nat
  compSize : Nat
  uncompSize : Nat
  compressionType : Nat
  tag : Nat
  deriving DecidableEq, Repr

/-- The six reads at the head of the body of the `ABMP` loop. -/
def readAbmpRecord (s : ReadStream) : Except MovieError AbmpRecord × ReadStream :=
  match s.readVarInt with
  | (.error e, s1) => (.error e, s1)
  | (.ok resId, s1) =>
    match s1.readVarInt with
    | (.error e, s2) => (.error e, s2)
    | (.ok offset, s2) =>
      match s2.readVarInt with
      | (.error e, s3) => (.error e, s3)
      | (.ok compSize, s3) =>
        match s3.readVarInt with
        | (.error e, s4) => (.error e, s4)
        | (.ok uncompSize, s4) =>
          match s4.readVarInt with
          | (.error e, s5) => (.error e, s5)
          | (.ok compressionType, s5) =>
            match s5.readUint32 with
            | (.error e, s6) => (.error e, s6)
            | (.ok tag, s6) =>
              (.ok { resId := resId, offset := offset, compSize := compSize,
                     uncompSize := uncompSize, compressionType := compressionType, tag := tag },
                s6)

/-- The rest of the body of the `ABMP` loop: the record enters the directory
under `resId` and `resId` is appended to the tag index of its tag. -/
def addResource (r : AbmpRecord) (m : Movie) : Movie :=
  let info : ChunkInfo :=
    { id := r.resId, fourCC := r.tag, len := r.compSize, uncompressedLen := r.uncompSize,
      offset := r.offset, compressionType := r.compressionType }
  { m with
    chunkInfo := mapSet m.chunkInfo r.resId info
    chunkIDsByFourCC := mapSet m.chunkIDsByFourCC r.tag (m.idsOf r.tag ++ [r.resId]) }

/-- The `ABMP` loop: `resCount` records are read from the inflated map stream
and entered one by one; a read past the end of the stream throws. -/
def abmpLoop : Nat → ReadStream → Movie → Except MovieError Unit × Movie
  | 0, _, m => (.ok (), m)
  | n + 1, s, m =>
    match readAbmpRecord s with
    | (.error e, _) => (.error e, m)
    | (.ok r, s1) => abmpLoop n s1 (addResource r m)

/-- The body of the initial-load-segment loop after `resId` has been read:
`chunkInfo[resId]` (inserting the zero entry when absent), `copyBytes(info.len)`
and, when that returned data, `_cachedChunkData[resId] = data`. -/
def ilsStep (resId : Nat) (s : ReadStream) (m : Movie) : ReadStream × Movie :=
  let info := (m.chunkInfo resId).getD ChunkInfo.zero
  let m1 := { m with chunkInfo := mapSet m.chunkInfo resId info }
  match s.copyBytes info.len with
  | (some data, s1) => (s1, { m1 with cachedChunkData := mapSet m1.cachedChunkData resId data })
  | (none, s1) => (s1, m1)

/-- The initial-load-segment loop `while (!ilsStream->eof())`. Every iteration
consumes at least one byte, so `fuel` equal to the number of bytes left is
enough (`ilsLoop_fuel`). -/
def ilsLoop : Nat → ReadStream → Movie → Except MovieError Unit × Movie
  | 0, _, m => (.ok (), m)
  | fuel + 1, s, m =>
    if s.eof then (.ok (), m)
    else
      match s.readVarInt with
      | (.error e, _) => (.error e, m)
      | (.ok resId, s1) => ilsLoop fuel (ilsStep resId s1 m).1 (ilsStep resId s1 m).2

/-- The part of `readAfterburnerMap` from the lookup of resource 2 on
(lines 156-196): the `FGEI` marker, the inflate of the initial load segment
and its loop. -/
def readInitialLoadSegment (E : Env) (m : Movie) : Except MovieError Bool × Movie :=
  match m.chunkInfo 2 with
  | none => (.ok false, m)
  | some ilsInfo =>
    match m.stream.readUint32 with
    | (.error e, s1) => (.error e, { m with stream := s1 })
    | (.ok fgei, s1) =>
      if fgei ≠ FOURCC 'F' 'G' 'E' 'I' then (.ok false, { m with stream := s1 })
      else
        match s1.readVarInt with
        | (.error e, s2) => (.error e, { m with stream := s2 })
        | (.ok _, s2) =>
          let m2 := { m with stream := s2, ilsBodyOffset := s2.pos % 4294967296 }
          match s2.readZlibBytes E.uncompress ilsInfo.len ilsInfo.uncompressedLen with
          | (.error e, s3) => (.error e, { m2 with stream := s3 })
          | (.ok (none, _), s3) => (.ok false, { m2 with stream := s3 })
          | (.ok (some ilsStream, _), s3) =>
            match ilsLoop (ilsStream.data.length - ilsStream.pos) ilsStream
                { m2 with stream := s3 } with
            | (.error e, m3) => (.error e, m3)
            | (.ok _, m3) => (.ok true, m3)

/-- The part of `readAfterburnerMap` from the `ABMP` marker on (lines 104-196). -/
def readAbmp (E : Env) (m : Movie) : Except MovieError Bool × Movie :=
  match m.stream.readUint32 with
  | (.error e, s1) => (.error e, { m with stream := s1 })
  | (.ok abmp, s1) =>
    if abmp ≠ FOURCC 'A' 'B' 'M' 'P' then (.ok false, { m with stream := s1 })
    else
      match s1.readVarInt with
      | (.error e, s2) => (.error e, { m with stream := s2 })
      | (.ok abmpLength, s2) =>
        let abmpEnd := (s2.pos + abmpLength) % 4294967296
        match s2.readVarInt with
        | (.error e, s3) => (.error e, { m with stream := s3 })
        | (.ok _, s3) =>
          match s3.readVarInt with
          | (.error e, s4) => (.error e, { m with stream := s4 })
          | (.ok abmpUncompLength, s4) =>
            match s4.readZlibBytes E.uncompress
                ((abmpEnd + 18446744073709551616 - s4.pos % 18446744073709551616)
                  % 18446744073709551616) abmpUncompLength with
            | (.error e, s5) => (.error e, { m with stream := s5 })
            | (.ok (none, _), s5) => (.ok false, { m with stream := s5 })
            | (.ok (some abmpStream, _), s5) =>
              match abmpStream.readVarInt with
              | (.error e, _) => (.error e, { m with stream := s5 })
              | (.ok _, a1) =>
                match a1.readVarInt with
                | (.error e, _) => (.error e, { m with stream := s5 })
                | (.ok _, a2) =>
                  match a2.readVarInt with
                  | (.error e, _) => (.error e, { m with stream := s5 })
                  | (.ok resCount, a3) =>
                    match abmpLoop resCount a3 { m with stream := s5 } with
                    | (.error e, m1) => (.error e, m1)
                    | (.ok _, m1) => readInitialLoadSegment E m1

/-- `Movie::readAfterburnerMap`: the `Fver` and `Fcdr` blocks (lines 75-102),
then `readAbmp`. Positions are held in `uint32_t` locals, hence the reductions
modulo `2 ^ 32`. -/
def readAfterburnerMap (E : Env) (m : Movie) : Except MovieError Bool × Movie :=
  match m.stream.readUint32 with
  | (.error e, s1) => (.error e, { m with stream := s1 })
  | (.ok fver, s1) =>
    if fver ≠ FOURCC 'F' 'v' 'e' 'r' then (.ok false, { m with stream := s1 })
    else
      match s1.readVarInt with
      | (.error e, s2) => (.error e, { m with stream := s2 })
      | (.ok fverLength, s2) =>
        let start := s2.pos % 4294967296
        match s2.readVarInt with
        | (.error e, s3) => (.error e, { m with stream := s3 })
        | (.ok _, s3) =>
          let end1 := s3.pos % 4294967296
          let s4 :=
            if (end1 + 4294967296 - start) % 4294967296 ≠ fverLength then
              s3.seek ((start + fverLength) % 4294967296)
            else s3
          match s4.readUint32 with
          | (.error e, s5) => (.error e, { m with stream := s5 })
          | (.ok fcdr, s5) =>
            if fcdr ≠ FOURCC 'F' 'c' 'd' 'r' then (.ok false, { m with stream := s5 })
            else
              match s5.readVarInt with
              | (.error e, s6) => (.error e, { m with stream := s6 })
              | (.ok fcdrLength, s6) => readAbmp E { m with stream := s6.skip fcdrLength }

/-! ## Key table, config, casts -/

/-- `Movie::readKeyTable`. The `static_pointer_cast` stores the pointer as it is. -/
def readKeyTable (E : Env) (m : Movie) : Except MovieError Bool × Movie :=
  match getFirstChunkInfo (FOURCC 'K' 'E' 'Y' '*') m with
  | (some info, m1) =>
    match getChunk E info.fourCC info.id m1 with
    | (.error e, m2) => (.error e, m2)
    | (.ok p, m2) => (.ok true, { m2 with keyTable := some p })
  | (none, m1) => (.ok false, m1)

/-- `Movie::readConfig`. Reading `config->directorVersion` through a pointer
that is not a `ConfigChunk` is undefined behaviour (`badPointer`). -/
def readConfig (E : Env) (m : Movie) : Except MovieError Bool × Movie :=
  let first : Option ChunkInfo × Movie :=
    match getFirstChunkInfo (FOURCC 'V' 'W' 'C' 'F') m with
    | (some info, m1) => (some info, m1)
    | (none, m1) => getFirstChunkInfo (FOURCC 'D' 'R' 'C' 'F') m1
  match first with
  | (some info, m1) =>
    match getChunk E info.fourCC info.id m1 with
    | (.error e, m2) => (.error e, m2)
    | (.ok p, m2) =>
      let m3 := { m2 with config := some p }
      match (m3.heap[p]? : Option Chunk) with
      | some (.config directorVersion _) =>
        (.ok true, { m3 with version := E.humanVersion directorVersion })
      | _ => (.error .badPointer, m3)
  | (none, m1) => (.ok false, m1)

/-- The inner loop of `readCasts`: the `sectionID` of the first key-table row
with the cast's id and tag `CAS*`, or `-1`. -/
def findSectionID (entries : List KeyTableEntry) (castID : Int) : Int :=
  match entries.find? (fun keyEntry =>
      decide (keyEntry.castID = castID ∧ keyEntry.fourCC = FOURCC 'C' 'A' 'S' '*')) with
  | some keyEntry => keyEntry.sectionID
  | none => -1

/-- Modelled from the spec: `CastChunk::populate` of `chunk.cpp`, which
annotates the cast object at `p` post-hoc with the name, id and `min_member`
of its directory entry. Calling it through a pointer that is not a `CastChunk`
is undefined behaviour (`none`). -/
def populate (p : Nat) (name : String) (id : Int) (minMember : Nat) (m : Movie) : Option Movie :=
  match m.heap[p]? with
  | some (.cast body _) =>
    some { m with heap := m.heap.set p (.cast body (some
      { name := name, id := id, minMember := minMember })) }
  | _ => none

/-- The outer loop of `readCasts` for human version 500 and later, over the
entries of the cast list. -/
def readCastsLoop (E : Env) : List CastListEntry → Movie → Except MovieError Unit × Movie
  | [], m => (.ok (), m)
  | castEntry :: rest, m =>
    match m.keyTable.bind (fun p => m.heap[p]?) with
    | some (.keyTable entries) =>
      let sectionID := findSectionID entries castEntry.id
      if 0 < sectionID then
        match getChunk E (FOURCC 'C' 'A' 'S' '*') sectionID.toNat m with
        | (.error e, m1) => (.error e, m1)
        | (.ok cast, m1) =>
          match populate cast castEntry.name castEntry.id castEntry.minMember m1 with
          | none => (.error .badPointer, m1)
          | some m2 => readCastsLoop E rest { m2 with casts := m2.casts ++ [cast] }
      else readCastsLoop E rest m
    | _ => (.error .badPointer, m)

/-- `Movie::readCasts`: for human version 500 and later the cast list `MCsL`
joined with the key table; below 500 the first `CAS*` chunk, as the cast
"Internal" with id 1024. -/
def readCasts (E : Env) (m : Movie) : Except MovieError Bool × Movie :=
  if 500 ≤ m.version then
    match getFirstChunkInfo (FOURCC 'M' 'C' 's' 'L') m with
    | (some info, m1) =>
      match getChunk E info.fourCC info.id m1 with
      | (.error e, m2) => (.error e, m2)
      | (.ok castList, m2) =>
        match m2.heap[castList]? with
        | some (.castList entries) =>
          match readCastsLoop E entries m2 with
          | (.error e, m3) => (.error e, m3)
          | (.ok _, m3) => (.ok true, m3)
        | _ => (.error .badPointer, m2)
    | (none, m1) => (.ok false, m1)
  else
    match getFirstChunkInfo (FOURCC 'C' 'A' 'S' '*') m with
    | (some info, m1) =>
      match getChunk E info.fourCC info.id m1 with
      | (.error e, m2) => (.error e, m2)
      | (.ok cast, m2) =>
        match m2.config.bind (fun p => m2.heap[p]?) with
        | some (.config _ minMember) =>
          match populate cast "Internal" 1024 minMember m2 with
          | none => (.error .badPointer, m2)
          | some m3 => (.ok true, { m3 with casts := m3.casts ++ [cast] })
        | _ => (.error .badPointer, m2)
    | (none, m1) => (.ok false, m1)

/-! ## Opening a movie -/

/-- The tail of `Movie::read` (lines 39-44): key table, config, casts, each
only when the one before reported success. The function is `void`; the
booleans of the three readers are dropped. -/
def readTables (E : Env) (m : Movie) : Except MovieError Unit × Movie :=
  match readKeyTable E m with
  | (.error e, m1) => (.error e, m1)
  | (.ok false, m1) => (.ok (), m1)
  | (.ok true, m1) =>
    match readConfig E m1 with
    | (.error e, m2) => (.error e, m2)
    | (.ok false, m2) => (.ok (), m2)
    | (.ok true, m2) =>
      match readCasts E m2 with
      | (.error e, m3) => (.error e, m3)
      | (.ok _, m3) => (.ok (), m3)

/-- `Movie::read`: endianness detection on the first four bytes, the meta
length, the codec tag, the map parser of the codec and the table readers. -/
def read (E : Env) (s : ReadStream) (m : Movie) : Except MovieError Unit × Movie :=
  let s0 := { s with endianness := Endianness.kBigEndian }
  match s0.readUint32 with
  | (.error e, s1) => (.error e, { m with stream := s1 })
  | (.ok metaFourCC, s1) =>
    let s2 :=
      if metaFourCC = FOURCC 'X' 'F' 'I' 'R' then { s1 with endianness := Endianness.kLittleEndian }
      else s1
    match s2.readInt32 with
    | (.error e, s3) => (.error e, { m with stream := s3 })
    | (.ok _, s3) =>
      match s3.readUint32 with
      | (.error e, s4) => (.error e, { m with stream := s4 })
      | (.ok codec, s4) =>
        let m1 := { m with stream := s4, codec := codec }
        if codec = FOURCC 'M' 'V' '9' '3' then
          match readMemoryMap E m1 with
          | (.error e, m2) => (.error e, m2)
          | (.ok _, m2) => readTables E m2
        else if codec = FOURCC 'F' 'G' 'D' 'M' then
          match readAfterburnerMap E { m1 with afterburned := true } with
          | (.error e, m2) => (.error e, m2)
          | (.ok false, m2) => (.ok (), m2)
          | (.ok true, m2) => readTables E m2
        else (.error (.codecUnsupported codec), m1)

/-! ## A sample environment and sample archives

Simple stand-ins for the collaborators, used to run the model on concrete
archives. -/

/-- The `u32` triples of a stream, read until fewer than twelve bytes remain. -/
def sampleTriples : Nat → ReadStream → List (Nat × Nat × Nat)
  | 0, _ => []
  | fuel + 1, s =>
    match s.readUint32 with
    | (.ok a, s1) =>
      match s1.readUint32 with
      | (.ok b, s2) =>
        match s2.readUint32 with
        | (.ok c, s3) => (a, b, c) :: sampleTriples fuel s3
        | (.error _, _) => []
      | (.error _, _) => []
    | (.error _, _) => []

/-- A sample environment: `imap` holds its `memoryMapOffset` as one `u32`; the
`mmap` array, the key table and the cast list are arrays of `u32` triples
(`tag, len, offset`; `sectionID, castID, tag`; `id, minMember, name selector`);
the config holds `directorVersion` and `minMember` as two `u32`; opaque bodies
are the remaining bytes; `uncompress` is the identity within the capacity;
`humanVersion` maps raw versions from `0x45C` on to 500 and the others to 400. -/
def sampleEnv : Env where
  readInitialMap := fun s =>
    match s.readUint32 with
    | (.ok v, _) => some v
    | (.error _, _) => none
  readMemoryMapArray := fun s =>
    some ((sampleTriples s.data.length s).map
      (fun t => { fourCC := t.1, len := t.2.1, offset := t.2.2 }))
  readKeyTableEntries := fun s =>
    some ((sampleTriples s.data.length s).map
      (fun t => { sectionID := t.1, castID := t.2.1, fourCC := t.2.2 }))
  readConfigFields := fun s =>
    match s.readUint32 with
    | (.ok v, s1) =>
      match s1.readUint32 with
      | (.ok w, _) => some (v, w)
      | (.error _, _) => none
    | (.error _, _) => none
  readCastListEntries := fun s =>
    some ((sampleTriples s.data.length s).map
      (fun t => { name := if t.2.2 = 0 then "Main" else "Shared", id := t.1, minMember := t.2.1 }))
  readBody := fun _ _ _ s => some (s.data.drop s.pos)
  uncompress := fun input capacity => if input.length ≤ capacity then some input else none
  humanVersion := fun raw => if 1116 ≤ raw then 500 else 400

/-- The four bytes of a `u32`, most significant first. -/
def u32be (n : Nat) : List Nat := [n / 16777216 % 256, n / 65536 % 256, n / 256 % 256, n % 256]

/-- A sample `MV93` archive (big-endian): `imap` at 12, `mmap` at 24 with seven
entries (`RIFX`, `imap`, `mmap`, `KEY*`, `free`, `VWCF`, `CAS*`), the key table
at 116 with the row `(6, 1024, CAS*)`, the config at 136 with raw version
`rawVersion` and `minMember` 1, and the cast at 152, whose framing gives the
length 4 while its `mmap` entry gives the length `casLen` (4 in a well-formed
archive). -/
def sampleMV93 (rawVersion casLen : Nat) : List Nat :=
  u32be (FOURCC 'R' 'I' 'F' 'X') ++ u32be 156 ++ u32be (FOURCC 'M' 'V' '9' '3')
  ++ u32be (FOURCC 'i' 'm' 'a' 'p') ++ u32be 4 ++ u32be 24
  ++ u32be (FOURCC 'm' 'm' 'a' 'p') ++ u32be 84
  ++ u32be (FOURCC 'R' 'I' 'F' 'X') ++ u32be 156 ++ u32be 0
  ++ u32be (FOURCC 'i' 'm' 'a' 'p') ++ u32be 4 ++ u32be 12
  ++ u32be (FOURCC 'm' 'm' 'a' 'p') ++ u32be 84 ++ u32be 24
  ++ u32be (FOURCC 'K' 'E' 'Y' '*') ++ u32be 12 ++ u32be 116
  ++ u32be (FOURCC 'f' 'r' 'e' 'e') ++ u32be 0 ++ u32be 0
  ++ u32be (FOURCC 'V' 'W' 'C' 'F') ++ u32be 8 ++ u32be 136
  ++ u32be (FOURCC 'C' 'A' 'S' '*') ++ u32be casLen ++ u32be 152
  ++ u32be (FOURCC 'K' 'E' 'Y' '*') ++ u32be 12
  ++ u32be 6 ++ u32be 1024 ++ u32be (FOURCC 'C' 'A' 'S' '*')
  ++ u32be (FOURCC 'V' 'W' 'C' 'F') ++ u32be 8 ++ u32be rawVersion ++ u32be 1
  ++ u32be (FOURCC 'C' 'A' 'S' '*') ++ u32be 4 ++ [1, 2, 3, 4]

/-- A stream over `bytes`, at its start. -/
def streamOf (bytes : List Nat) : ReadStream :=
  { data := bytes, pos := 0, endianness := Endianness.kBigEndian }

/-- The movie obtained by opening the sample archive. -/
def sampleMovie (rawVersion : Nat) : Movie :=
  (read sampleEnv (streamOf (sampleMV93 rawVersion 4)) (Movie.fresh (streamOf []))).2

/-! ## Predicates and sample inputs of the properties -/

/-- Whether the `mmap` entry is recorded: its tag is neither `free` nor `junk`. -/
def MemoryMapEntry.kept (e : MemoryMapEntry) : Bool :=
  !(decide (e.fourCC = FOURCC 'f' 'r' 'e' 'e') || decide (e.fourCC = FOURCC 'j' 'u' 'n' 'k'))

/-- Whether index `i` of the `mmap` array holds a recorded entry with tag `tag`. -/
def hasTagAt (arr : List MemoryMapEntry) (tag : Nat) (i : Nat) : Bool :=
  match arr[i]? with
  | some e => e.kept && decide (e.fourCC = tag)
  | none => false

/-- What materialising chunks leaves alone: everything but the stream, the
`capitalX` flag, the list of objects (which only grows) and the
materialised-chunk cache (which only gains entries). -/
structure Movie.Extends (m m' : Movie) : Prop where
  codec : m'.codec = m.codec
  afterburned : m'.afterburned = m.afterburned
  version : m'.version = m.version
  chunkInfo : m'.chunkInfo = m.chunkInfo
  chunkIDsByFourCC : m'.chunkIDsByFourCC = m.chunkIDsByFourCC
  keyTable : m'.keyTable = m.keyTable
  config : m'.config = m.config
  casts : m'.casts = m.casts
  cachedChunkData : m'.cachedChunkData = m.cachedChunkData
  ilsBodyOffset : m'.ilsBodyOffset = m.ilsBodyOffset
  heap : ∃ l, m'.heap = m.heap ++ l
  cache : ∀ id p, m.deserializedChunks id = some p → m'.deserializedChunks id = some p

/-- First-by-tag lookup returns the lowest id: for every tag, `getFirstChunkInfo`
returns the directory entry of the numerically lowest id among the ids whose
entry has that tag, and null exactly when no entry has that tag. -/
def FirstIsLowest (m : Movie) : Prop :=
  ∀ tag,
    match (getFirstChunkInfo tag m).1 with
    | some info =>
      ∃ i, m.chunkInfo i = some info ∧ info.fourCC = tag
        ∧ ∀ j info', m.chunkInfo j = some info' → info'.fourCC = tag → i ≤ j
    | none => ∀ j info', m.chunkInfo j = some info' → info'.fourCC ≠ tag

/-- The records the `ABMP` loop reads and enters: `resCount` of them, or those
before the first read past the end of the stream. -/
def abmpRecords : Nat → ReadStream → List AbmpRecord
  | 0, _ => []
  | n + 1, s =>
    match readAbmpRecord s with
    | (.error _, _) => []
    | (.ok r, s1) => r :: abmpRecords n s1

/-- The bytes of a sample inflated `ABMP` resource list: resource 5 and then
resource 3, both with tag `CAS*`. -/
def sampleAbmpRecords : List Nat :=
  [5, 0, 0, 0, 0] ++ u32be (FOURCC 'C' 'A' 'S' '*') ++ [3, 0, 0, 0, 0] ++ u32be (FOURCC 'C' 'A' 'S' '*')

/-- The directory entry the sample resource list gives resource `id`. -/
def sampleCasInfo (id : Nat) : ChunkInfo :=
  { id := id, fourCC := FOURCC 'C' 'A' 'S' '*', len := 0, uncompressedLen := 0, offset := 0,
    compressionType := 0 }

/-- The raw-cache invariant: every id in `_cachedChunkData` has a directory
entry, and the cached buffer is exactly as long as the entry's stored length. -/
def RawCacheInv (m : Movie) : Prop :=
  ∀ id data, m.cachedChunkData id = some data →
    ∃ info, m.chunkInfo id = some info ∧ data.length = info.len
/-- A sample `FGDM` archive (big-endian) for the sample environment, whose
`uncompress` is the identity: `Fver` (one-byte version), an empty `Fcdr`, an
`ABMP` listing resource 2 (the initial load segment, 13 bytes), 3 (`KEY*`, in
the segment), 5 (`VWCF`, 8 bytes at offset 13) and 6 (`CAS*`, 4 bytes at offset
21), then `FGEI` with the segment (the key-table row `(6, 1024, CAS*)` under
the resource id `ilsResId`, which is 3 in a well-formed archive), the config
(`rawVersion`, `minMember` 1) and the cast. -/
def sampleFGDM (rawVersion ilsResId : Nat) : List Nat :=
  u32be (FOURCC 'R' 'I' 'F' 'X') ++ u32be 0 ++ u32be (FOURCC 'F' 'G' 'D' 'M')
  ++ u32be (FOURCC 'F' 'v' 'e' 'r') ++ [1, 5]
  ++ u32be (FOURCC 'F' 'c' 'd' 'r') ++ [0]
  ++ u32be (FOURCC 'A' 'B' 'M' 'P') ++ [41, 0, 39]
  ++ [0, 0, 4]
  ++ [2, 0, 13, 13, 0] ++ u32be (FOURCC 'I' 'L' 'S' ' ')
  ++ [3, 0, 12, 12, 0] ++ u32be (FOURCC 'K' 'E' 'Y' '*')
  ++ [5, 13, 8, 8, 0] ++ u32be (FOURCC 'V' 'W' 'C' 'F')
  ++ [6, 21, 4, 4, 0] ++ u32be (FOURCC 'C' 'A' 'S' '*')
  ++ u32be (FOURCC 'F' 'G' 'E' 'I') ++ [0]
  ++ [ilsResId] ++ u32be 6 ++ u32be 1024 ++ u32be (FOURCC 'C' 'A' 'S' '*')
  ++ u32be rawVersion ++ u32be 1
  ++ [1, 2, 3, 4]

/-- The sample `FGDM` archive as `read` hands it to `readAfterburnerMap`: the
stream stands behind the codec tag and `afterburned` is set. -/
def sampleAfterburned (rawVersion : Nat) : Movie :=
  { Movie.fresh ((streamOf (sampleFGDM rawVersion 3)).seek 12) with
    codec := FOURCC 'F' 'G' 'D' 'M', afterburned := true }
/-- The sample `MV93` archive as `read` hands it to `readMemoryMap`: the stream
stands behind the codec tag, at the `imap` chunk. -/
def sampleAtImap : Movie :=
  { Movie.fresh ((streamOf (sampleMV93 1116 4)).seek 12) with codec := FOURCC 'M' 'V' '9' '3' }

/-- The tag index is consistent with the directory: for every tag `t` and id
`i`, `i` occurs in `chunkIDsByFourCC[t]` exactly when the directory has an entry
for `i` whose tag is `t`, and it occurs there at most once. -/
def IndexConsistent (m : Movie) : Prop :=
  ∀ t i, (i ∈ m.idsOf t ↔ ∃ info, m.chunkInfo i = some info ∧ info.fourCC = t)
    ∧ (m.idsOf t).count i ≤ 1

/-- The bytes of a sample inflated `ABMP` resource list that lists resource 4
twice, both times with tag `CAS*`. -/
def sampleAbmpTwice : List Nat :=
  [4, 0, 0, 0, 0] ++ u32be (FOURCC 'C' 'A' 'S' '*') ++ [4, 0, 0, 0, 0] ++ u32be (FOURCC 'C' 'A' 'S' '*')

/-- The sample `FGDM` archive with an initial load segment that names resource
9, which the map does not list, as `read` hands it to `readAfterburnerMap`. -/
def sampleAfterburnedStray : Movie :=
  { Movie.fresh ((streamOf (sampleFGDM 1115 9)).seek 12) with
    codec := FOURCC 'F' 'G' 'D' 'M', afterburned := true }

/-- The movie opened from the sample `MV93` archive with raw version `0x45C` and
the length `casLen` in the `mmap` entry of the cast chunk 6, which the opening
does not materialise. -/
def sampleMovieCasLen (casLen : Nat) : Movie :=
  (read sampleEnv (streamOf (sampleMV93 1116 casLen)) (Movie.fresh (streamOf []))).2

/-- The movie `sampleMovieCasLen casLen` with its stream at the framing of the
cast chunk 6, where `getChunk` seeks before it calls `readChunk`. -/
def sampleAtCast (casLen : Nat) : Movie :=
  { sampleMovieCasLen casLen with
    stream := (sampleMovieCasLen casLen).stream.seek (seekTarget 152) }

/-- The directory entry of the cast chunk 6 in `sampleMovieCasLen casLen`. -/
def sampleCastEntry (casLen : Nat) : ChunkInfo :=
  { id := 6, fourCC := FOURCC 'C' 'A' 'S' '*', len := casLen, uncompressedLen := casLen,
    offset := 152, compressionType := 0 }

/-- The movie opened from the sample `MV93` archive up to and including
`readConfig`: the state in which `read` calls `readCasts`. -/
def sampleBeforeCasts (rawVersion casLen : Nat) : Movie :=
  (readConfig sampleEnv (readKeyTable sampleEnv (readMemoryMap sampleEnv
    { Movie.fresh ((streamOf (sampleMV93 rawVersion casLen)).seek 12) with
      codec := FOURCC 'M' 'V' '9' '3' }).2).2).2

/-- The movie with another key-table pointer and another tag index. -/
def Movie.withTables (m : Movie) (k : Option Nat) (c : Nat → Option (List Nat)) : Movie :=
  { m with keyTable := k, chunkIDsByFourCC := c }

/-- The single-cast path of `readCasts` behind the lookup of the first `CAS*`
entry `info` (lines 256-260): `getChunk`, `populate`, `push_back`. -/
def singleCastTail (E : Env) (info : ChunkInfo) (m1 : Movie) : Except MovieError Bool × Movie :=
  match getChunk E info.fourCC info.id m1 with
  | (.error e, m2) => (.error e, m2)
  | (.ok cast, m2) =>
    match m2.config.bind (fun p => m2.heap[p]?) with
    | some (.config _ minMember) =>
      match populate cast "Internal" 1024 minMember m2 with
      | none => (.error .badPointer, m2)
      | some m3 => (.ok true, { m3 with casts := m3.casts ++ [cast] })
    | _ => (.error .badPointer, m2)

/-- What the readers of the key table, the config and the casts leave alone:
the codec and, tag by tag, the ids the tag index lists. -/
structure Movie.Keeps (m m' : Movie) : Prop where
  codec : m'.codec = m.codec
  idsOf : ∀ t, m'.idsOf t = m.idsOf t

/-- The name, id and `min_member` the last pair of `pairs` with the object `p`
gives it: what `p` is annotated with after `populate` has been called for each
pair, in order. -/
def lastCastInfo : List (CastListEntry × Nat) → Nat → Option CastInfo
  | [], _ => none
  | (castEntry, q) :: rest, p =>
    match lastCastInfo rest p with
    | some info => some info
    | none =>
      if q = p then
        some { name := castEntry.name, id := castEntry.id, minMember := castEntry.minMember }
      else none

/-- A sample `MV93` archive (big-endian) with a cast list, raw version `0x45D`
(human version 500): `mmap` at 24 with the entries `RIFX`, `imap`, `mmap`,
`KEY*` (id 3, at 116), `VWCF` (id 4, at 148), `MCsL` (id 5, at 164) and `CAS*`
(id 6, at 196); the key table has the rows `(6, 1, CAS*)` and `(sec2, 2, CAS*)`;
the cast list has the entries `(1, 1, "Main")` and `(2, 5, "Shared")`. -/
def sampleCastListMV93 (sec2 : Nat) : List Nat :=
  u32be (FOURCC 'R' 'I' 'F' 'X') ++ u32be 200 ++ u32be (FOURCC 'M' 'V' '9' '3')
  ++ u32be (FOURCC 'i' 'm' 'a' 'p') ++ u32be 4 ++ u32be 24
  ++ u32be (FOURCC 'm' 'm' 'a' 'p') ++ u32be 84
  ++ u32be (FOURCC 'R' 'I' 'F' 'X') ++ u32be 200 ++ u32be 0
  ++ u32be (FOURCC 'i' 'm' 'a' 'p') ++ u32be 4 ++ u32be 12
  ++ u32be (FOURCC 'm' 'm' 'a' 'p') ++ u32be 84 ++ u32be 24
  ++ u32be (FOURCC 'K' 'E' 'Y' '*') ++ u32be 24 ++ u32be 116
  ++ u32be (FOURCC 'V' 'W' 'C' 'F') ++ u32be 8 ++ u32be 148
  ++ u32be (FOURCC 'M' 'C' 's' 'L') ++ u32be 24 ++ u32be 164
  ++ u32be (FOURCC 'C' 'A' 'S' '*') ++ u32be 4 ++ u32be 196
  ++ u32be (FOURCC 'K' 'E' 'Y' '*') ++ u32be 24
  ++ u32be 6 ++ u32be 1 ++ u32be (FOURCC 'C' 'A' 'S' '*')
  ++ u32be sec2 ++ u32be 2 ++ u32be (FOURCC 'C' 'A' 'S' '*')
  ++ u32be (FOURCC 'V' 'W' 'C' 'F') ++ u32be 8 ++ u32be 1117 ++ u32be 1
  ++ u32be (FOURCC 'M' 'C' 's' 'L') ++ u32be 24
  ++ u32be 1 ++ u32be 1 ++ u32be 0
  ++ u32be 2 ++ u32be 5 ++ u32be 1
  ++ u32be (FOURCC 'C' 'A' 'S' '*') ++ u32be 4 ++ [1, 2, 3, 4]

/-- The movie opened from `sampleCastListMV93 sec2` up to and including
`readConfig`: the state in which `read` calls `readCasts`. -/
def sampleBeforeCastList (sec2 : Nat) : Movie :=
  (readConfig sampleEnv (readKeyTable sampleEnv (readMemoryMap sampleEnv
    { Movie.fresh ((streamOf (sampleCastListMV93 sec2)).seek 12) with
      codec := FOURCC 'M' 'V' '9' '3' }).2).2).2

/-- The entries of the cast list of `sampleCastListMV93`. -/
def sampleCastEntries : List CastListEntry :=
  [{ name := "Main", id := 1, minMember := 1 }, { name := "Shared", id := 2, minMember := 5 }]

/-- The rows of the key table of `sampleCastListMV93 sec2`. -/
def sampleKeyRows (sec2 : Nat) : List KeyTableEntry :=
  [{ sectionID := 6, castID := 1, fourCC := FOURCC 'C' 'A' 'S' '*' },
   { sectionID := sec2, castID := 2, fourCC := FOURCC 'C' 'A' 'S' '*' }]

/-- The directory entry of the cast list of `sampleCastListMV93`. -/
def sampleCastListEntry : ChunkInfo :=
  { id := 5, fourCC := FOURCC 'M' 'C' 's' 'L', len := 24, uncompressedLen := 24, offset := 164,
    compressionType := 0 }

/-- The part of `readConfig` behind the lookup of the entry `info` (lines
221-223): `getChunk`, the assignment of `config` and that of `version`. -/
def configTail (E : Env) (info : ChunkInfo) (m1 : Movie) : Except MovieError Bool × Movie :=
  match getChunk E info.fourCC info.id m1 with
  | (.error e, m2) => (.error e, m2)
  | (.ok p, m2) =>
    let m3 := { m2 with config := some p }
    match (m3.heap[p]? : Option Chunk) with
    | some (.config directorVersion _) =>
      (.ok true, { m3 with version := E.humanVersion directorVersion })
    | _ => (.error .badPointer, m3)

/-- The movie after `readMemoryMap` on the sample archive, with a `DRCF` entry
added under id 7: its index lists `VWCF` (id 5) and `DRCF` (id 7). -/
def sampleBothConfigs : Movie :=
  addMapEntry 7 { fourCC := FOURCC 'D' 'R' 'C' 'F', len := 8, offset := 136 }
    (readMemoryMap sampleEnv sampleAtImap).2

/-- The position `info.offset + _ilsBodyOffset` at which `getChunk` reads a
resource of an afterburned archive (32-bit arithmetic). -/
def ilsTarget (m : Movie) (info : ChunkInfo) : Nat :=
  (info.offset + m.ilsBodyOffset) % 4294967296

/-- The `info.len` stored bytes of a resource of an afterburned archive. -/
def storedBytes (m : Movie) (info : ChunkInfo) : List Nat :=
  (m.stream.data.drop (ilsTarget m info)).take info.len

/-- The movie after `readAfterburnerMap` on the sample `FGDM` archive. -/
def sampleAfterburnedMap : Movie := (readAfterburnerMap sampleEnv (sampleAfterburned 1115)).2

/-- The directory entry of the config chunk of the sample `FGDM` archive:
resource 5, eight bytes at offset 13 behind the initial load segment. -/
def sampleConfigInfo : ChunkInfo :=
  { id := 5, fourCC := FOURCC 'V' 'W' 'C' 'F', len := 8, uncompressedLen := 8, offset := 13,
    compressionType := 0 }

/-- The `Fver` block of `readAfterburnerMap` (lines 77-91): the marker, the
declared length, the version varint and the seek to `start + fverLength` when
the varint consumed another number of bytes. The result tells whether the
marker was found; the stream is the one the `Fcdr` marker is read from next. -/
def readFver (s : ReadStream) : Except MovieError Bool × ReadStream :=
  match s.readUint32 with
  | (.error e, s1) => (.error e, s1)
  | (.ok fver, s1) =>
    if fver ≠ FOURCC 'F' 'v' 'e' 'r' then (.ok false, s1)
    else
      match s1.readVarInt with
      | (.error e, s2) => (.error e, s2)
      | (.ok fverLength, s2) =>
        let start := s2.pos % 4294967296
        match s2.readVarInt with
        | (.error e, s3) => (.error e, s3)
        | (.ok _, s3) =>
          let end1 := s3.pos % 4294967296
          if (end1 + 4294967296 - start) % 4294967296 ≠ fverLength then
            (.ok true, s3.seek ((start + fverLength) % 4294967296))
          else (.ok true, s3)

/-- The part of `readAfterburnerMap` from the `Fcdr` marker on (lines 94-196). -/
def readFcdr (E : Env) (m : Movie) : Except MovieError Bool × Movie :=
  match m.stream.readUint32 with
  | (.error e, s5) => (.error e, { m with stream := s5 })
  | (.ok fcdr, s5) =>
    if fcdr ≠ FOURCC 'F' 'c' 'd' 'r' then (.ok false, { m with stream := s5 })
    else
      match s5.readVarInt with
      | (.error e, s6) => (.error e, { m with stream := s6 })
      | (.ok fcdrLength, s6) => readAbmp E { m with stream := s6.skip fcdrLength }

/-- An `FGDM` archive whose `Fver` block declares the length `2 ^ 32 - 17`
(the varint `EF FF FF FF 0F` at 16, so that `start` is 21 and the version
varint at 21 consumes one byte). The four bytes at 4, where the unused meta
length stands, spell `Fcdr`; the byte at 8 (`F` of the codec tag) reads as the
`Fcdr` length 70, and the `ABMP` block of the sample archive stands at
`9 + 70 = 79`, behind 57 bytes of padding. -/
def sampleFverWrap : List Nat :=
  u32be (FOURCC 'R' 'I' 'F' 'X') ++ u32be (FOURCC 'F' 'c' 'd' 'r')
  ++ u32be (FOURCC 'F' 'G' 'D' 'M')
  ++ u32be (FOURCC 'F' 'v' 'e' 'r') ++ [239, 255, 255, 255, 15] ++ [5]
  ++ List.replicate 57 0
  ++ (sampleFGDM 1115 3).drop 23

/-- The part of `readAfterburnerMap` behind the inflate of the `ABMP` block
(lines 127-196), run on the inflated map `abmpStream`: the two unexplained
varints, the resource count, the resource loop and the initial load segment. -/
def afterAbmpInflate (E : Env) (abmpStream : ReadStream) (m : Movie) :
    Except MovieError Bool × Movie :=
  match abmpStream.readVarInt with
  | (.error e, _) => (.error e, m)
  | (.ok _, a1) =>
    match a1.readVarInt with
    | (.error e, _) => (.error e, m)
    | (.ok _, a2) =>
      match a2.readVarInt with
      | (.error e, _) => (.error e, m)
      | (.ok resCount, a3) =>
        match abmpLoop resCount a3 m with
        | (.error e, m1) => (.error e, m1)
        | (.ok _, m1) => readInitialLoadSegment E m1

/-- The part of `readAfterburnerMap` behind the inflate of the initial load
segment (lines 181-196), run on the inflated segment `ilsStream`. -/
def afterIlsInflate (ilsStream : ReadStream) (m : Movie) : Except MovieError Bool × Movie :=
  match ilsLoop (ilsStream.data.length - ilsStream.pos) ilsStream m with
  | (.error e, m3) => (.error e, m3)
  | (.ok _, m3) => (.ok true, m3)

/-- The sample `FGDM` archive with the declared uncompressed lengths of the
`ABMP` block and of the initial load segment as parameters; the blocks inflate
to 39 and to 13 bytes. -/
def sampleFGDMDeclared (abmpDeclared ilsDeclared : Nat) : List Nat :=
  u32be (FOURCC 'R' 'I' 'F' 'X') ++ u32be 0 ++ u32be (FOURCC 'F' 'G' 'D' 'M')
  ++ u32be (FOURCC 'F' 'v' 'e' 'r') ++ [1, 5]
  ++ u32be (FOURCC 'F' 'c' 'd' 'r') ++ [0]
  ++ u32be (FOURCC 'A' 'B' 'M' 'P') ++ [41, 0, abmpDeclared]
  ++ [0, 0, 4]
  ++ [2, 0, 13, ilsDeclared, 0] ++ u32be (FOURCC 'I' 'L' 'S' ' ')
  ++ [3, 0, 12, 12, 0] ++ u32be (FOURCC 'K' 'E' 'Y' '*')
  ++ [5, 13, 8, 8, 0] ++ u32be (FOURCC 'V' 'W' 'C' 'F')
  ++ [6, 21, 4, 4, 0] ++ u32be (FOURCC 'C' 'A' 'S' '*')
  ++ u32be (FOURCC 'F' 'G' 'E' 'I') ++ [0]
  ++ [3] ++ u32be 6 ++ u32be 1024 ++ u32be (FOURCC 'C' 'A' 'S' '*')
  ++ u32be 1115 ++ u32be 1
  ++ [1, 2, 3, 4]

/-- The archive `sampleFGDMDeclared 100 20` as `readAfterburnerMap` stands at
its `ABMP` marker (position 23). -/
def sampleAtAbmp : Movie :=
  { Movie.fresh ((streamOf (sampleFGDMDeclared 100 20)).seek 23) with
    codec := FOURCC 'F' 'G' 'D' 'M', afterburned := true }

/-- What the map parser of the afterburner dialect leaves alone: the codec,
the flags, the version, the key table, the config, the casts, the
materialised-chunk cache and the chunk objects. -/
structure Movie.SameTables (m m' : Movie) : Prop where
  codec : m'.codec = m.codec
  afterburned : m'.afterburned = m.afterburned
  version : m'.version = m.version
  capitalX : m'.capitalX = m.capitalX
  keyTable : m'.keyTable = m.keyTable
  config : m'.config = m.config
  casts : m'.casts = m.casts
  deserializedChunks : m'.deserializedChunks = m.deserializedChunks
  heap : m'.heap = m.heap

/-- The resource records of an inflated `ABMP` map: those the resource loop
reads behind the two unexplained varints and the resource count. -/
def inflatedRecords (abmpStream : ReadStream) : List AbmpRecord :=
  match abmpStream.readVarInt with
  | (.error _, _) => []
  | (.ok _, a1) =>
    match a1.readVarInt with
    | (.error _, _) => []
    | (.ok _, a2) =>
      match a2.readVarInt with
      | (.error _, _) => []
      | (.ok resCount, a3) => abmpRecords resCount a3

/-- The sample `FGDM` archive with the resource id of the first record of the
`ABMP` map as a parameter (2 in the sample archive). -/
def sampleFGDMFirst (firstId : Nat) : List Nat :=
  ((sampleFGDM 1115 3).take 33) ++ [firstId] ++ ((sampleFGDM 1115 3).drop 34)

/-- The resource list of a well-formed inflated `ABMP` map: the records, when
the two unexplained varints, the resource count and all `resCount` records can
be read from `abmpStream`; `none` when the stream ends before. -/
def inflatedMap (abmpStream : ReadStream) : Option (List AbmpRecord) :=
  match abmpStream.readVarInt with
  | (.error _, _) => none
  | (.ok _, a1) =>
    match a1.readVarInt with
    | (.error _, _) => none
    | (.ok _, a2) =>
      match a2.readVarInt with
      | (.error _, _) => none
      | (.ok resCount, a3) =>
        if (abmpRecords resCount a3).length = resCount then some (abmpRecords resCount a3)
        else none

/-- The header of `Movie::read` (lines 17-26): the endianness detection on the
first four bytes, the meta length and the codec tag. Returns the codec tag and
the stream behind it. -/
def readHeader (s : ReadStream) : Except MovieError Nat × ReadStream :=
  let s0 := { s with endianness := Endianness.kBigEndian }
  match s0.readUint32 with
  | (.error e, s1) => (.error e, s1)
  | (.ok metaFourCC, s1) =>
    let s2 :=
      if metaFourCC = FOURCC 'X' 'F' 'I' 'R' then { s1 with endianness := Endianness.kLittleEndian }
      else s1
    match s2.readInt32 with
    | (.error e, s3) => (.error e, s3)
    | (.ok _, s3) => s3.readUint32

/-- The movie as `read` hands it to the map parser: the stream behind the
codec tag and the codec set. -/
def Movie.withHeader (m : Movie) (s4 : ReadStream) (codec : Nat) : Movie :=
  { m with stream := s4, codec := codec }

/-- The movie as `read` hands it to `readAfterburnerMap`. -/
def Movie.withAfterburner (m : Movie) (s4 : ReadStream) (codec : Nat) : Movie :=
  { m.withHeader s4 codec with afterburned := true }

/-- The stream `s1` is the stream `s` at another position: the same bytes
read under the same endianness. -/
def ReadStream.Moved (s s1 : ReadStream) : Prop :=
  s1.data = s.data ∧ s1.endianness = s.endianness

/-- The result `r` is not the unsupported-codec error. -/
def NoCodecError {α : Type} (r : Except MovieError α) : Prop :=
  ∀ c, r ≠ .error (.codecUnsupported c)

/-- A step of the reader from the state `m`: the stream has at most moved, and
the result is not the unsupported-codec error. -/
def Movie.Runs {α : Type} (m : Movie) (r : Except MovieError α × Movie) : Prop :=
  m.stream.Moved r.2.stream ∧ NoCodecError r.1

/-- The four bytes at the position of `s`, as a big-endian `u32`. -/
def firstFour (s : ReadStream) : Nat :=
  s.byteAt s.pos * 16777216 + s.byteAt (s.pos + 1) * 65536 + s.byteAt (s.pos + 2) * 256
    + s.byteAt (s.pos + 3)

/-- The endianness of the specification: little-endian when the first four
bytes, read as a big-endian `u32`, are `XFIR`; big-endian otherwise. -/
def detectedEndianness (s : ReadStream) : Endianness :=
  if s.pos + 4 ≤ s.data.length ∧ firstFour s = FOURCC 'X' 'F' 'I' 'R' then
    Endianness.kLittleEndian
  else Endianness.kBigEndian

/-- The twelve bytes of the header of a little-endian archive: `XFIR`, a meta
length, and the codec tag `MV93` with its bytes reversed. -/
def sampleXFIRHeader : List Nat := [88, 70, 73, 82] ++ [0, 0, 0, 0] ++ [51, 57, 86, 77]

/-- A twelve-byte header with the codec tag `XXXX`. -/
def sampleUnknownCodec : List Nat :=
  u32be (FOURCC 'R' 'I' 'F' 'X') ++ u32be 0 ++ u32be (FOURCC 'X' 'X' 'X' 'X')

/-- The lookup at the head of `readConfig` (lines 211-214): the directory entry
of the first id the tag index lists under `VWCF`, or, when that lookup returned
null, of the first id it lists under `DRCF`. -/
def configEntry (m : Movie) : Option ChunkInfo × Movie :=
  match getFirstChunkInfo (FOURCC 'V' 'W' 'C' 'F') m with
  | (some info, m1) => (some info, m1)
  | (none, m1) => getFirstChunkInfo (FOURCC 'D' 'R' 'C' 'F') m1

/-- The sample `MV93` archive with the length of the `mmap` entry of its config
chunk as a parameter; the framing of the chunk gives the length 8. -/
def sampleMV93ConfigLen (cfgLen : Nat) : List Nat :=
  (sampleMV93 1115 4).take 96 ++ u32be cfgLen ++ (sampleMV93 1115 4).drop 100

/-- The movie of `sampleMV93ConfigLen cfgLen` when `readConfig` is called: the
memory map and the key table have been read. -/
def sampleBeforeConfig (cfgLen : Nat) : Movie :=
  (readKeyTable sampleEnv
    (readMemoryMap sampleEnv
      { Movie.fresh ((streamOf (sampleMV93ConfigLen cfgLen)).seek 12) with
        codec := FOURCC 'M' 'V' '9' '3' }).2).2

/-- The sample `FGDM` archive with a map of five records, in which resource 5
is listed twice: as `VWCF` and then as `XXXX`. -/
def sampleFGDMRelisted : List Nat :=
  (sampleFGDM 1115 3).take 27 ++ [50, 0, 48]
  ++ [0, 0, 5]
  ++ [2, 0, 13, 13, 0] ++ u32be (FOURCC 'I' 'L' 'S' ' ')
  ++ [3, 0, 12, 12, 0] ++ u32be (FOURCC 'K' 'E' 'Y' '*')
  ++ [5, 13, 8, 8, 0] ++ u32be (FOURCC 'V' 'W' 'C' 'F')
  ++ [5, 13, 8, 8, 0] ++ u32be (FOURCC 'X' 'X' 'X' 'X')
  ++ [6, 21, 4, 4, 0] ++ u32be (FOURCC 'C' 'A' 'S' '*')
  ++ (sampleFGDM 1115 3).drop 69

/-- The movie of `sampleFGDMRelisted` when `readConfig` is called. -/
def sampleRelistedBeforeConfig : Movie :=
  (readKeyTable sampleEnv
    (readAfterburnerMap sampleEnv
      { Movie.fresh ((streamOf sampleFGDMRelisted).seek 12) with
        codec := FOURCC 'F' 'G' 'D' 'M', afterburned := true }).2).2

/-- The run of `readAfterburnerMap` on `m` reaches the `ABMP` marker with the
stream `s`: the `Fver` block has been read, the `Fcdr` marker found and the
`Fcdr` block skipped (lines 77-102). -/
def AtAbmp (m : Movie) (s : ReadStream) : Prop :=
  ∃ s4 s5 s6 fcdrLength,
    readFver m.stream = (.ok true, s4)
    ∧ s4.readUint32 = (.ok (FOURCC 'F' 'c' 'd' 'r'), s5)
    ∧ s5.readVarInt = (.ok fcdrLength, s6)
    ∧ s = s6.skip fcdrLength

/-- From the `ABMP` marker at `s`, the inflate of the block (lines 104-117)
returns `r`, where `none` is the null stream of a failed inflate, and leaves
the stream `s5`. -/
def AbmpInflate (E : Env) (s : ReadStream) (r : Option ReadStream) (s5 : ReadStream) : Prop :=
  ∃ s1 s2 s3 s4 abmpLength compressionType declared actual,
    s.readUint32 = (.ok (FOURCC 'A' 'B' 'M' 'P'), s1)
    ∧ s1.readVarInt = (.ok abmpLength, s2)
    ∧ s2.readVarInt = (.ok compressionType, s3)
    ∧ s3.readVarInt = (.ok declared, s4)
    ∧ s4.readZlibBytes E.uncompress
        (((s2.pos + abmpLength) % 4294967296 + 18446744073709551616
            - s4.pos % 18446744073709551616) % 18446744073709551616) declared
      = (.ok (r, actual), s5)

/-- The sample archive without a resource 2 as `read` hands it to
`readAfterburnerMap`: the stream stands behind the codec tag. -/
def sampleNoIlsAtFver : Movie :=
  (Movie.fresh (streamOf [])).withAfterburner ((streamOf (sampleFGDMFirst 9)).seek 12)
    (FOURCC 'F' 'G' 'D' 'M')

/-! # Properties -/

/-! ## Properties of `getChunk` -/

theorem getChunk_of_cached (E : Env) (fourCC id : Nat) (m : Movie) (p : Nat)
    (h : m.deserializedChunks id = some p) : getChunk E fourCC id m = (.ok p, m) := by
  simp [getChunk, h]

theorem getChunk_caches (E : Env) (fourCC id : Nat) (m : Movie) (p : Nat)
    (himap : fourCC ≠ FOURCC 'i' 'm' 'a' 'p') (hmmap : fourCC ≠ FOURCC 'm' 'm' 'a' 'p')
    (h : (getChunk E fourCC id m).1 = .ok p) :
    (getChunk E fourCC id m).2.deserializedChunks id = some p := by
  unfold getChunk at h ⊢
  split
  · rename_i q hq
    simp only [hq] at h ⊢
    simpa using h
  · rename_i hq
    simp only [hq] at h
    split
    · rename_i hinfo
      simp [hinfo] at h
    · rename_i info hinfo
      simp only [hinfo] at h
      by_cases htag : fourCC ≠ info.fourCC
      · simp [htag] at h
      · simp only [htag, if_false] at h ⊢
        split
        · rename_i e m1 hmade
          simp only [hmade] at h
          simp at h
        · rename_i q m1 hmade
          simp only [hmade] at h
          simp only [himap, hmmap, ne_eq, not_false_eq_true, and_self, if_true] at h ⊢
          simp only [Except.ok.injEq] at h
          simp [mapSet, h]

/-- The tag check of `getChunk` on its uncached path: for an id that is not in
the materialised-chunk cache and has a directory entry with another tag, the
call throws the tag-mismatch error and leaves the state as it is. -/
theorem getChunk_tagMismatch (E : Env) (fourCC id : Nat) (m : Movie) (info : ChunkInfo)
    (hcache : m.deserializedChunks id = none) (hinfo : m.chunkInfo id = some info)
    (htag : fourCC ≠ info.fourCC) :
    getChunk E fourCC id m = (.error (.tagMismatch id fourCC info.fourCC), m) := by
  unfold getChunk
  simp only [hcache, hinfo]
  rw [if_pos htag]

set_option maxRecDepth 1000000 in
/-- C1. At an id whose chunk is already in the materialised-chunk cache,
`getChunk` returns the cached object before it looks at the directory. In the
movie opened from the sample archive, resource 3 is the `KEY*` chunk, and
`getChunk('CAS*', 3)` returns the key-table object (heap index 2) instead of
failing with the tag-mismatch error. `readCasts` runs into this on the sample
archive with a cast list whose key table names section 3 for a cast: it gets
the key-table object from `getChunk('CAS*', 3)` and calls `populate` on it
through a `CastChunk` pointer. -/
theorem getChunk_cached_skips_tag_check :
    ((sampleMovie 1115).chunkInfo 3).map ChunkInfo.fourCC = some (FOURCC 'K' 'E' 'Y' '*')
    ∧ (getChunk sampleEnv (FOURCC 'C' 'A' 'S' '*') 3 (sampleMovie 1115)).1 = .ok 2
    ∧ (sampleMovie 1115).heap[2]?
        = some (Chunk.keyTable [{ sectionID := 6, castID := 1024, fourCC := FOURCC 'C' 'A' 'S' '*' }])
    ∧ (getChunk sampleEnv (FOURCC 'C' 'A' 'S' '*') 3 (sampleBeforeCastList 3)).1 = .ok 2
    ∧ (readCasts sampleEnv (sampleBeforeCastList 3)).1 = .error .badPointer := by
  decide

/-- C2. For every tag other than `imap` and `mmap`: when `getChunk(tag, id)`
succeeds with the object `p`, a second call on the resulting state returns the
same object `p` and leaves the whole state as it is: stream (position and
contents), directory, tag index, both caches and the objects themselves. -/
theorem getChunk_idempotent (E : Env) (fourCC id : Nat) (m : Movie) (p : Nat)
    (himap : fourCC ≠ FOURCC 'i' 'm' 'a' 'p') (hmmap : fourCC ≠ FOURCC 'm' 'm' 'a' 'p')
    (h : (getChunk E fourCC id m).1 = .ok p) :
    getChunk E fourCC id (getChunk E fourCC id m).2 = (.ok p, (getChunk E fourCC id m).2) :=
  getChunk_of_cached E fourCC id _ p (getChunk_caches E fourCC id m p himap hmmap h)

set_option maxRecDepth 1000000 in
/-- Witness of C2: in the movie opened from the sample archive with raw version
`0x45C` the cast chunk 6 is not materialised yet; `getChunk('CAS*', 6)`
materialises it as object 4 and the second call returns object 4 again. -/
theorem getChunk_idempotent_witness :
    (getChunk sampleEnv (FOURCC 'C' 'A' 'S' '*') 6 (sampleMovie 1116)).1 = .ok 4
    ∧ getChunk sampleEnv (FOURCC 'C' 'A' 'S' '*') 6
        (getChunk sampleEnv (FOURCC 'C' 'A' 'S' '*') 6 (sampleMovie 1116)).2
      = (.ok 4, (getChunk sampleEnv (FOURCC 'C' 'A' 'S' '*') 6 (sampleMovie 1116)).2) :=
  ⟨by decide, getChunk_idempotent sampleEnv (FOURCC 'C' 'A' 'S' '*') 6 (sampleMovie 1116) 4
    (by decide) (by decide) (by decide)⟩

theorem addMapEntry_idsOf (i : Nat) (e : MemoryMapEntry) (m : Movie) (tag : Nat) :
    (addMapEntry i e m).idsOf tag
      = m.idsOf tag ++ (if e.kept && decide (e.fourCC = tag) then [i] else []) := by
  unfold addMapEntry MemoryMapEntry.kept
  by_cases h : e.fourCC = FOURCC 'f' 'r' 'e' 'e' ∨ e.fourCC = FOURCC 'j' 'u' 'n' 'k'
  · rcases h with h | h <;> simp [h]
  · have h1 : e.fourCC ≠ FOURCC 'f' 'r' 'e' 'e' := fun h' => h (Or.inl h')
    have h2 : e.fourCC ≠ FOURCC 'j' 'u' 'n' 'k' := fun h' => h (Or.inr h')
    by_cases ht : e.fourCC = tag
    · subst ht
      simp [h1, h2, Movie.idsOf, mapSet]
    · have ht' : tag ≠ e.fourCC := fun h' => ht h'.symm
      simp [h1, h2, ht, ht', Movie.idsOf, mapSet]

theorem addMapEntry_chunkInfo (i : Nat) (e : MemoryMapEntry) (m : Movie) (j : Nat) :
    (addMapEntry i e m).chunkInfo j
      = if j = i ∧ e.kept = true then
          some { id := i, fourCC := e.fourCC, len := e.len, uncompressedLen := e.len,
                 offset := e.offset, compressionType := 0 }
        else m.chunkInfo j := by
  unfold addMapEntry MemoryMapEntry.kept
  by_cases h : e.fourCC = FOURCC 'f' 'r' 'e' 'e' ∨ e.fourCC = FOURCC 'j' 'u' 'n' 'k'
  · rcases h with h | h <;> simp [h]
  · have h1 : e.fourCC ≠ FOURCC 'f' 'r' 'e' 'e' := fun h' => h (Or.inl h')
    have h2 : e.fourCC ≠ FOURCC 'j' 'u' 'n' 'k' := fun h' => h (Or.inr h')
    simp [h1, h2, mapSet]

theorem readMemoryMapLoop_idsOf (arr : List MemoryMapEntry) (tag : Nat) :
    ∀ (i : Nat) (m : Movie), (readMemoryMapLoop arr i m).idsOf tag
      = m.idsOf tag ++ ((List.range arr.length).filter (hasTagAt arr tag)).map (fun k => i + k) := by
  induction arr with
  | nil => intro i m; simp [readMemoryMapLoop]
  | cons e rest ih =>
    intro i m
    have hshift : (hasTagAt (e :: rest) tag) ∘ Nat.succ = hasTagAt rest tag := by
      funext k; simp [hasTagAt]
    have hzero : hasTagAt (e :: rest) tag 0 = (e.kept && decide (e.fourCC = tag)) := by
      simp [hasTagAt]
    simp only [readMemoryMapLoop, ih, addMapEntry_idsOf, List.length_cons,
      List.range_succ_eq_map, List.filter_cons, List.filter_map, hshift, hzero, List.map_map,
      List.append_assoc]
    congr 1
    have hfun : ((fun k => i + k) ∘ Nat.succ) = (fun k => i + 1 + k) := by
      funext k; simp; omega
    by_cases hc : (e.kept && decide (e.fourCC = tag)) = true
    · simp [hc, hfun]
    · simp [hc, hfun]

theorem readMemoryMapLoop_chunkInfo (arr : List MemoryMapEntry) :
    ∀ (i : Nat) (m : Movie) (j : Nat), (readMemoryMapLoop arr i m).chunkInfo j
      = match (if i ≤ j then arr[j - i]? else none) with
        | some e =>
          if e.kept = true then
            some { id := j, fourCC := e.fourCC, len := e.len, uncompressedLen := e.len,
                   offset := e.offset, compressionType := 0 }
          else m.chunkInfo j
        | none => m.chunkInfo j := by
  induction arr with
  | nil => intro i m j; simp [readMemoryMapLoop]
  | cons e rest ih =>
    intro i m j
    simp only [readMemoryMapLoop, ih, addMapEntry_chunkInfo]
    by_cases hij : i ≤ j
    · by_cases heq : j = i
      · subst heq
        simp
      · have h1 : i + 1 ≤ j := by omega
        have h2 : j - i = (j - (i + 1)) + 1 := by omega
        simp only [h1, hij, if_true, h2, List.getElem?_cons_succ, heq, false_and, if_false]
    · have h1 : ¬ (i + 1 ≤ j) := by omega
      have h2 : j ≠ i := by omega
      simp [h1, hij, h2]

theorem Movie.Extends.same (m : Movie) : m.Extends m :=
  ⟨rfl, rfl, rfl, rfl, rfl, rfl, rfl, rfl, rfl, rfl, ⟨[], by simp⟩, fun _ _ h => h⟩

theorem Movie.Extends.andThen {a b c : Movie} (h1 : a.Extends b) (h2 : b.Extends c) :
    a.Extends c := by
  obtain ⟨l1, hl1⟩ := h1.heap
  obtain ⟨l2, hl2⟩ := h2.heap
  exact ⟨h2.codec.trans h1.codec, h2.afterburned.trans h1.afterburned,
    h2.version.trans h1.version, h2.chunkInfo.trans h1.chunkInfo,
    h2.chunkIDsByFourCC.trans h1.chunkIDsByFourCC, h2.keyTable.trans h1.keyTable,
    h2.config.trans h1.config, h2.casts.trans h1.casts,
    h2.cachedChunkData.trans h1.cachedChunkData, h2.ilsBodyOffset.trans h1.ilsBodyOffset,
    ⟨l1 ++ l2, by rw [hl2, hl1, List.append_assoc]⟩,
    fun id p h => h2.cache id p (h1.cache id p h)⟩

theorem Movie.Extends.of_stream (m : Movie) (s : ReadStream) :
    m.Extends { m with stream := s } :=
  ⟨rfl, rfl, rfl, rfl, rfl, rfl, rfl, rfl, rfl, rfl, ⟨[], by simp⟩, fun _ _ h => h⟩

theorem makeChunk_extends (E : Env) (fourCC : Nat) (cs : ReadStream) (m : Movie) :
    m.Extends (makeChunk E fourCC cs m).2 := by
  unfold makeChunk
  by_cases h : fourCC = FOURCC 'L' 'c' 't' 'X'
  · simp only [h, if_true]
    split
    · exact ⟨rfl, rfl, rfl, rfl, rfl, rfl, rfl, rfl, rfl, rfl, ⟨[], by simp⟩, fun _ _ h => h⟩
    · exact ⟨rfl, rfl, rfl, rfl, rfl, rfl, rfl, rfl, rfl, rfl, ⟨_, rfl⟩, fun _ _ h => h⟩
  · simp only [h, if_false]
    split
    · exact ⟨rfl, rfl, rfl, rfl, rfl, rfl, rfl, rfl, rfl, rfl, ⟨[], by simp⟩, fun _ _ h => h⟩
    · exact ⟨rfl, rfl, rfl, rfl, rfl, rfl, rfl, rfl, rfl, rfl, ⟨_, rfl⟩, fun _ _ h => h⟩

/-- A successful `makeChunk` returns the index of the object it has just
appended to the heap, which is the parsed chunk. -/
theorem makeChunk_ok (E : Env) (fourCC : Nat) (cs : ReadStream) (m : Movie) (p : Nat)
    (h : (makeChunk E fourCC cs m).1 = .ok p) :
    ∃ c, parseChunk E fourCC (m.capitalX || decide (fourCC = FOURCC 'L' 'c' 't' 'X')) m.version cs
          = some c
      ∧ p = m.heap.length ∧ (makeChunk E fourCC cs m).2.heap = m.heap ++ [c] := by
  unfold makeChunk at h ⊢
  by_cases hx : fourCC = FOURCC 'L' 'c' 't' 'X'
  · simp only [hx, if_true] at h ⊢
    split at h
    · simp at h
    · rename_i c hc
      simp only [Except.ok.injEq] at h
      refine ⟨c, by simpa using hc, h.symm, ?_⟩
      simp [hc]
  · simp only [hx, if_false] at h ⊢
    split at h
    · simp at h
    · rename_i c hc
      simp only [Except.ok.injEq] at h
      refine ⟨c, by simpa [hx] using hc, h.symm, ?_⟩
      simp [hc]

theorem readChunk_extends (E : Env) (fourCC len : Nat) (m : Movie) :
    m.Extends (readChunk E fourCC len m).2 := by
  dsimp only [readChunk]
  repeat' split
  all_goals first
    | exact Movie.Extends.of_stream m _
    | exact (Movie.Extends.of_stream m _).andThen (makeChunk_extends E fourCC _ _)

theorem readChunk_ok (E : Env) (fourCC len : Nat) (m : Movie) (p : Nat)
    (h : (readChunk E fourCC len m).1 = .ok p) :
    ∃ c, (readChunk E fourCC len m).2.heap = m.heap ++ [c] ∧ p = m.heap.length := by
  dsimp only [readChunk] at h ⊢
  rcases h1 : m.stream.readUint32 with ⟨r1, s1⟩
  rcases r1 with e | vt
  · simp [h1] at h
  rcases h2 : s1.readUint32 with ⟨r2, s2⟩
  rcases r2 with e | vl
  · simp [h1, h2] at h
  simp only [h1, h2] at h ⊢
  by_cases hc : fourCC ≠ vt ∨ (if len = UINT32_MAX then vl else len) ≠ vl
  · rw [if_pos hc] at h
    simp at h
  rw [if_neg hc] at h ⊢
  rcases h3 : s2.readBytes (if len = UINT32_MAX then vl else len) with ⟨r3, s3⟩
  rcases r3 with e | cs
  · simp [h3] at h
  simp only [h3] at h ⊢
  obtain ⟨c, _, hp, hheap⟩ := makeChunk_ok E fourCC _ _ p h
  exact ⟨c, hheap, hp⟩

theorem readMemoryMapLoop_heap (arr : List MemoryMapEntry) :
    ∀ (i : Nat) (m : Movie), (readMemoryMapLoop arr i m).heap = m.heap := by
  induction arr with
  | nil => intro i m; rfl
  | cons e rest ih =>
    intro i m
    simp only [readMemoryMapLoop, ih]
    unfold addMapEntry
    split <;> rfl

/-- The shape of a run of `readMemoryMap`: up to the loop the state only changes
as chunk materialisation changes it; on success the loop runs over the array of
the `mmap` chunk, which is the object allocated last. -/
theorem readMemoryMap_shape (E : Env) (m : Movie) :
    ∃ m2, m.Extends m2 ∧
      ((∃ e, readMemoryMap E m = (.error e, m2))
        ∨ ∃ arr, readMemoryMap E m = (.ok (), readMemoryMapLoop arr 0 m2)
            ∧ m2.heap.getLast? = some (Chunk.memoryMap arr)) := by
  unfold readMemoryMap
  have h1 := readChunk_extends E (FOURCC 'i' 'm' 'a' 'p') UINT32_MAX m
  split
  · rename_i e m1 hr1
    rw [hr1] at h1
    exact ⟨m1, h1, Or.inl ⟨e, rfl⟩⟩
  · rename_i p m1 hr1
    rw [hr1] at h1
    split
    · rename_i off hoff
      have h2 := readChunk_extends E (FOURCC 'm' 'm' 'a' 'p') UINT32_MAX
        { m1 with stream := m1.stream.seek off }
      have h12 : m.Extends { m1 with stream := m1.stream.seek off } :=
        h1.andThen (Movie.Extends.of_stream m1 _)
      split
      · rename_i e m2 hr2
        rw [hr2] at h2
        exact ⟨m2, h12.andThen h2, Or.inl ⟨e, rfl⟩⟩
      · rename_i q m2 hr2
        have hok := readChunk_ok E (FOURCC 'm' 'm' 'a' 'p') UINT32_MAX
          { m1 with stream := m1.stream.seek off } q (by rw [hr2])
        rw [hr2] at h2 hok
        obtain ⟨c, hheap, hq⟩ := hok
        simp only at hheap hq
        split
        · rename_i arr harr
          refine ⟨m2, h12.andThen h2, Or.inr ⟨arr, rfl, ?_⟩⟩
          rw [hheap, hq] at harr
          rw [hheap]
          simp at harr
          simp [harr]
        · exact ⟨m2, h12.andThen h2, Or.inl ⟨_, rfl⟩⟩
    · exact ⟨m1, h1, Or.inl ⟨_, rfl⟩⟩

theorem getFirstChunkInfo_fst (tag : Nat) (m : Movie) :
    (getFirstChunkInfo tag m).1
      = (m.idsOf tag).head?.map (fun i => (m.chunkInfo i).getD ChunkInfo.zero) := by
  unfold getFirstChunkInfo
  cases h : m.idsOf tag with
  | nil => simp
  | cons i rest =>
    simp only [List.head?_cons, Option.map_some']
    cases h2 : m.chunkInfo i <;> simp [h2]

theorem idsOf_of_empty (m : Movie) (hidx : ∀ t, m.chunkIDsByFourCC t = none) (tag : Nat) :
    m.idsOf tag = [] := by
  simp [Movie.idsOf, hidx]

theorem firstIsLowest_of_empty (m : Movie) (hdir : ∀ i, m.chunkInfo i = none)
    (hidx : ∀ t, m.chunkIDsByFourCC t = none) : FirstIsLowest m := by
  intro tag
  rw [getFirstChunkInfo_fst, idsOf_of_empty m hidx]
  simp [hdir]

theorem readMemoryMapLoop_chunkInfo_zero (arr : List MemoryMapEntry) (m : Movie)
    (hdir : ∀ i, m.chunkInfo i = none) (j : Nat) :
    (readMemoryMapLoop arr 0 m).chunkInfo j
      = match arr[j]? with
        | some e =>
          if e.fourCC = FOURCC 'f' 'r' 'e' 'e' ∨ e.fourCC = FOURCC 'j' 'u' 'n' 'k' then none
          else some { id := j, fourCC := e.fourCC, len := e.len, uncompressedLen := e.len,
                      offset := e.offset, compressionType := 0 }
        | none => none := by
  rw [readMemoryMapLoop_chunkInfo]
  simp only [Nat.zero_le, if_true, Nat.sub_zero, hdir]
  cases arr[j]? with
  | none => rfl
  | some e =>
    simp only [MemoryMapEntry.kept]
    by_cases h1 : e.fourCC = FOURCC 'f' 'r' 'e' 'e'
    · simp [h1]
    · by_cases h2 : e.fourCC = FOURCC 'j' 'u' 'n' 'k'
      · simp [h2]
      · simp [h1, h2]

theorem readMemoryMapLoop_idsOf_zero (arr : List MemoryMapEntry) (m : Movie)
    (hidx : ∀ t, m.chunkIDsByFourCC t = none) (tag : Nat) :
    (readMemoryMapLoop arr 0 m).idsOf tag = (List.range arr.length).filter (hasTagAt arr tag) := by
  rw [readMemoryMapLoop_idsOf, idsOf_of_empty m hidx]
  simp

theorem hasTagAt_iff (arr : List MemoryMapEntry) (tag j : Nat) :
    hasTagAt arr tag j = true ↔
      ∃ e, arr[j]? = some e ∧ e.fourCC = tag
        ∧ ¬ (e.fourCC = FOURCC 'f' 'r' 'e' 'e' ∨ e.fourCC = FOURCC 'j' 'u' 'n' 'k') := by
  unfold hasTagAt
  cases h : arr[j]? with
  | none => simp
  | some e => simp [MemoryMapEntry.kept, and_comm]

theorem firstIsLowest_readMemoryMapLoop (arr : List MemoryMapEntry) (m : Movie)
    (hdir : ∀ i, m.chunkInfo i = none) (hidx : ∀ t, m.chunkIDsByFourCC t = none) :
    FirstIsLowest (readMemoryMapLoop arr 0 m) := by
  intro tag
  have hmem : ∀ j info', (readMemoryMapLoop arr 0 m).chunkInfo j = some info' →
      info'.fourCC = tag → j ∈ (List.range arr.length).filter (hasTagAt arr tag) := by
    intro j info' hj htag
    rw [readMemoryMapLoop_chunkInfo_zero arr m hdir] at hj
    cases harr : arr[j]? with
    | none => simp [harr] at hj
    | some e =>
      simp only [harr] at hj
      split at hj
      · simp at hj
      · rename_i hkept
        simp only [Option.some.injEq] at hj
        have hlt : j < arr.length := by
          rcases Nat.lt_or_ge j arr.length with h | h
          · exact h
          · rw [List.getElem?_eq_none h] at harr
            simp at harr
        rw [List.mem_filter, List.mem_range, hasTagAt_iff]
        refine ⟨hlt, e, harr, ?_, hkept⟩
        rw [← htag, ← hj]
  rw [getFirstChunkInfo_fst, readMemoryMapLoop_idsOf_zero arr m hidx]
  cases hL : (List.range arr.length).filter (hasTagAt arr tag) with
  | nil =>
    simp only [List.head?_nil, Option.map_none']
    intro j info' hj htag
    have := hmem j info' hj htag
    rw [hL] at this
    simp at this
  | cons i rest =>
    simp only [List.head?_cons, Option.map_some']
    have hi : i ∈ (List.range arr.length).filter (hasTagAt arr tag) := by rw [hL]; simp
    rw [List.mem_filter, hasTagAt_iff] at hi
    obtain ⟨_, e, harr, htag, hkept⟩ := hi
    have hci := readMemoryMapLoop_chunkInfo_zero arr m hdir i
    simp only [harr, hkept, if_false] at hci
    refine ⟨i, ?_, ?_, ?_⟩
    · simp [hci]
    · simp [hci, htag]
    · intro j info' hj hjt
      have hjm := hmem j info' hj hjt
      rw [hL] at hjm
      have hsorted : ((List.range arr.length).filter (hasTagAt arr tag)).Pairwise (· < ·) :=
        (List.pairwise_lt_range arr.length).filter _
      rw [hL] at hsorted
      rcases List.mem_cons.mp hjm with h | h
      · omega
      · exact Nat.le_of_lt (List.rel_of_pairwise_cons hsorted h)

theorem abmpLoop_snd (n : Nat) :
    ∀ (s : ReadStream) (m : Movie),
      (abmpLoop n s m).2 = (abmpRecords n s).foldl (fun acc r => addResource r acc) m := by
  induction n with
  | zero => intro s m; rfl
  | succ n ih =>
    intro s m
    unfold abmpLoop abmpRecords
    rcases h : readAbmpRecord s with ⟨r, s1⟩
    rcases r with e | r
    · simp
    · simp [ih]

theorem addResource_idsOf (r : AbmpRecord) (m : Movie) (tag : Nat) :
    (addResource r m).idsOf tag
      = m.idsOf tag ++ (if r.tag = tag then [r.resId] else []) := by
  unfold addResource
  by_cases h : r.tag = tag
  · subst h
    simp [Movie.idsOf, mapSet]
  · have h' : tag ≠ r.tag := fun e => h e.symm
    simp [Movie.idsOf, mapSet, h, h']

theorem foldl_addResource_idsOf (recs : List AbmpRecord) (tag : Nat) :
    ∀ m : Movie, (recs.foldl (fun acc r => addResource r acc) m).idsOf tag
      = m.idsOf tag ++ (recs.filter (fun r => decide (r.tag = tag))).map AbmpRecord.resId := by
  induction recs with
  | nil => intro m; simp
  | cons r rest ih =>
    intro m
    simp only [List.foldl_cons, ih, addResource_idsOf, List.filter_cons]
    by_cases h : r.tag = tag <;> simp [h]

theorem foldl_addResource_chunkInfo_isSome (recs : List AbmpRecord) :
    ∀ (m : Movie) (k : Nat), ((m.chunkInfo k).isSome ∨ ∃ r ∈ recs, r.resId = k) →
      ((recs.foldl (fun acc r => addResource r acc) m).chunkInfo k).isSome := by
  induction recs with
  | nil =>
    intro m k h
    rcases h with h | ⟨r, hr, _⟩
    · exact h
    · simp at hr
  | cons r rest ih =>
    intro m k h
    simp only [List.foldl_cons]
    apply ih
    by_cases hk : r.resId = k
    · left
      simp [addResource, mapSet, hk]
    · rcases h with h | ⟨r', hr', hk'⟩
      · left
        have hk2 : k ≠ r.resId := fun e => hk e.symm
        simpa [addResource, mapSet, hk2] using h
      · rcases List.mem_cons.mp hr' with h1 | h1
        · subst h1
          exact absurd hk' hk
        · exact Or.inr ⟨r', h1, hk'⟩

theorem head?_filter_eq_find? {α : Type} (p : α → Bool) (l : List α) :
    (l.filter p).head? = l.find? p := by
  induction l with
  | nil => rfl
  | cons a rest ih =>
    by_cases h : p a = true
    · simp [List.filter_cons, List.find?_cons, h]
    · simp [List.filter_cons, List.find?_cons, h, ih]

/-- After the `ABMP` loop on a movie with an empty tag index, `getFirstChunkInfo`
returns the directory entry stored under the id of the first record with the tag. -/
theorem getFirstChunkInfo_abmpLoop (n : Nat) (s : ReadStream) (m : Movie)
    (hidx : ∀ t, m.chunkIDsByFourCC t = none) (tag : Nat) :
    (getFirstChunkInfo tag (abmpLoop n s m).2).1
        = ((abmpRecords n s).find? (fun r => decide (r.tag = tag))).bind
            (fun r => (abmpLoop n s m).2.chunkInfo r.resId)
      ∧ ∀ r ∈ abmpRecords n s, ((abmpLoop n s m).2.chunkInfo r.resId).isSome := by
  have hsome : ∀ r ∈ abmpRecords n s, ((abmpLoop n s m).2.chunkInfo r.resId).isSome := by
    intro r hr
    rw [abmpLoop_snd]
    exact foldl_addResource_chunkInfo_isSome _ m r.resId (Or.inr ⟨r, hr, rfl⟩)
  refine ⟨?_, hsome⟩
  rw [getFirstChunkInfo_fst]
  have hids : (abmpLoop n s m).2.idsOf tag
      = ((abmpRecords n s).filter (fun r => decide (r.tag = tag))).map AbmpRecord.resId := by
    rw [abmpLoop_snd, foldl_addResource_idsOf, idsOf_of_empty m hidx]
    simp
  rw [hids, List.head?_map, head?_filter_eq_find?]
  cases hf : (abmpRecords n s).find? (fun r => decide (r.tag = tag)) with
  | none => simp
  | some r =>
    have hr := hsome r (List.mem_of_find?_eq_some hf)
    simp only [Option.map_some', Option.some_bind]
    cases hc : (abmpLoop n s m).2.chunkInfo r.resId with
    | none => simp [hc] at hr
    | some info => simp

set_option maxRecDepth 100000 in
/-- C3, counterexample. The `ABMP` loop over the sample resource list (resource
5, then resource 3, both `CAS*`) on a fresh movie leaves a state in which
`getFirstChunkInfo('CAS*')` returns the entry of resource 5, not the entry of
the numerically lowest id 3. -/
theorem firstIsLowest_fails_after_abmpLoop :
    ¬ FirstIsLowest (abmpLoop 2 (streamOf sampleAbmpRecords) (Movie.fresh (streamOf []))).2 := by
  intro h
  have h1 := h (FOURCC 'C' 'A' 'S' '*')
  have hfirst : (getFirstChunkInfo (FOURCC 'C' 'A' 'S' '*')
      (abmpLoop 2 (streamOf sampleAbmpRecords) (Movie.fresh (streamOf []))).2).1
      = some (sampleCasInfo 5) := by decide
  rw [hfirst] at h1
  obtain ⟨i, hi, _, hmin⟩ := h1
  have h3 := hmin 3 (sampleCasInfo 3) (by decide) rfl
  have hcases : i = 0 ∨ i = 1 ∨ i = 2 ∨ i = 3 := by omega
  rcases hcases with h | h | h | h <;> subst h <;> revert hi <;> decide

/-! ## The initial load segment -/

theorem varIntAux_consumed (l : List Nat) :
    ∀ (shift acc k v k' : Nat), ReadStream.varIntAux l shift acc k = some (v, k') → k + 1 ≤ k' := by
  induction l with
  | nil => intro shift acc k v k' h; simp [ReadStream.varIntAux] at h
  | cons b rest ih =>
    intro shift acc k v k' h
    unfold ReadStream.varIntAux at h
    split at h
    · have := ih _ _ _ _ _ h
      omega
    · simp only [Option.some.injEq, Prod.mk.injEq] at h
      omega

theorem readVarInt_ok (s s1 : ReadStream) (v : Nat) (h : s.readVarInt = (.ok v, s1)) :
    s1.data = s.data ∧ s.pos + 1 ≤ s1.pos := by
  unfold ReadStream.readVarInt at h
  split at h
  · rename_i v' k hk
    simp only [Prod.mk.injEq, Except.ok.injEq] at h
    obtain ⟨_, hs⟩ := h
    subst hs
    have := varIntAux_consumed _ _ _ _ _ _ hk
    exact ⟨rfl, by simp only; omega⟩
  · simp at h

theorem copyBytes_snd (s : ReadStream) (n : Nat) :
    (s.copyBytes n).2 = { s with pos := s.pos + n } := by
  unfold ReadStream.copyBytes
  dsimp only
  split <;> rfl

theorem ilsStep_fst (resId : Nat) (s : ReadStream) (m : Movie) :
    (ilsStep resId s m).1 = (s.copyBytes ((m.chunkInfo resId).getD ChunkInfo.zero).len).2 := by
  unfold ilsStep
  dsimp only
  rcases hc : s.copyBytes ((m.chunkInfo resId).getD ChunkInfo.zero).len with ⟨r, s1⟩
  rcases r with _ | d <;> rfl

theorem ilsStep_stream (resId : Nat) (s : ReadStream) (m : Movie) :
    (ilsStep resId s m).1.data = s.data ∧ s.pos ≤ (ilsStep resId s m).1.pos := by
  rw [ilsStep_fst, copyBytes_snd]
  exact ⟨rfl, Nat.le_add_right _ _⟩

/-- The fuel of the initial-load-segment loop is enough: with at least as much
fuel as bytes left, the loop gives the result it gives with exactly that much,
so it stops because the stream is at its end and not because fuel ran out. -/
theorem ilsLoop_fuel (fuel : Nat) :
    ∀ (s : ReadStream) (m : Movie), s.data.length - s.pos ≤ fuel →
      ilsLoop fuel s m = ilsLoop (s.data.length - s.pos) s m := by
  induction fuel using Nat.strong_induction_on with
  | _ fuel ih =>
    intro s m hle
    by_cases heof : s.data.length ≤ s.pos
    · have h0 : s.data.length - s.pos = 0 := by omega
      rw [h0]
      cases fuel with
      | zero => rfl
      | succ f => simp [ilsLoop, ReadStream.eof, heof]
    · obtain ⟨r, hr⟩ : ∃ r, s.data.length - s.pos = r + 1 := ⟨s.data.length - s.pos - 1, by omega⟩
      obtain ⟨f, hf⟩ : ∃ f, fuel = f + 1 := ⟨fuel - 1, by omega⟩
      subst hf
      rw [hr]
      simp only [ilsLoop, ReadStream.eof, heof, decide_False, Bool.false_eq_true, if_false]
      rcases hv : s.readVarInt with ⟨res, s1⟩
      rcases res with e | resId
      · rfl
      · simp only
        have h1 := readVarInt_ok s s1 resId hv
        have h2 := ilsStep_stream resId s1 m
        have hrem : (ilsStep resId s1 m).1.data.length - (ilsStep resId s1 m).1.pos ≤ r := by
          rw [h2.1, h1.1]; omega
        rw [ih f (by omega) _ _ (by omega), ih r (by omega) _ _ hrem]

theorem ilsStep_chunkIDsByFourCC (resId : Nat) (s : ReadStream) (m : Movie) :
    (ilsStep resId s m).2.chunkIDsByFourCC = m.chunkIDsByFourCC := by
  unfold ilsStep
  dsimp only
  split <;> rfl

theorem ilsStep_chunkInfo (resId : Nat) (s : ReadStream) (m : Movie) :
    (ilsStep resId s m).2.chunkInfo
      = mapSet m.chunkInfo resId ((m.chunkInfo resId).getD ChunkInfo.zero) := by
  unfold ilsStep
  dsimp only
  split <;> rfl

theorem ilsStep_chunkInfo_of_some (resId : Nat) (s : ReadStream) (m : Movie) (k : Nat)
    (info : ChunkInfo) (h : m.chunkInfo k = some info) :
    (ilsStep resId s m).2.chunkInfo k = some info := by
  rw [ilsStep_chunkInfo]
  unfold mapSet
  by_cases hk : k = resId
  · subst hk; simp [h]
  · simp [hk, h]

theorem copyBytes_length (s s1 : ReadStream) (n : Nat) (data : List Nat)
    (h : s.copyBytes n = (some data, s1)) : data.length = n := by
  unfold ReadStream.copyBytes at h
  dsimp only at h
  split at h
  · simp at h
  · simp only [Prod.mk.injEq, Option.some.injEq] at h
    rw [← h.1]
    simp
    omega

theorem ilsStep_rawCacheInv (resId : Nat) (s : ReadStream) (m : Movie) (h : RawCacheInv m) :
    RawCacheInv (ilsStep resId s m).2 := by
  intro id data hid
  have hbase : ∀ data', m.cachedChunkData id = some data' →
      ∃ info, (ilsStep resId s m).2.chunkInfo id = some info ∧ data'.length = info.len := by
    intro data' hd
    obtain ⟨info, hinfo, hlen⟩ := h id data' hd
    exact ⟨info, ilsStep_chunkInfo_of_some resId s m id info hinfo, hlen⟩
  rw [ilsStep_chunkInfo]
  have hbase' := hbase
  rw [ilsStep_chunkInfo] at hbase'
  unfold ilsStep at hid
  dsimp only at hid
  rcases hc : s.copyBytes ((m.chunkInfo resId).getD ChunkInfo.zero).len with ⟨r, s1⟩
  rcases r with _ | d
  · simp only [hc] at hid
    exact hbase' data hid
  · simp only [hc] at hid
    by_cases hk : id = resId
    · subst hk
      simp only [mapSet, if_true, Option.some.injEq] at hid ⊢
      subst hid
      exact ⟨_, rfl, copyBytes_length _ _ _ _ hc⟩
    · simp only [mapSet, hk, if_false] at hid
      exact hbase' data hid

theorem ilsLoop_rawCacheInv (fuel : Nat) :
    ∀ (s : ReadStream) (m : Movie), RawCacheInv m → RawCacheInv (ilsLoop fuel s m).2 := by
  induction fuel with
  | zero => intro s m h; exact h
  | succ f ih =>
    intro s m h
    unfold ilsLoop
    split
    · exact h
    · split
      · exact h
      · exact ih _ _ (ilsStep_rawCacheInv _ _ _ h)
theorem readInitialLoadSegment_rawCacheInv (E : Env) (m : Movie) (h : RawCacheInv m) :
    RawCacheInv (readInitialLoadSegment E m).2 := by
  dsimp only [readInitialLoadSegment]
  repeat' split
  all_goals first
    | exact h
    | (rename_i heq
       have h3 := congrArg Prod.snd heq
       simp only at h3
       rw [← h3]
       exact ilsLoop_rawCacheInv _ _ _ h)

theorem abmpLoop_cachedChunkData (n : Nat) :
    ∀ (s : ReadStream) (m : Movie), (abmpLoop n s m).2.cachedChunkData = m.cachedChunkData := by
  induction n with
  | zero => intro s m; rfl
  | succ n ih =>
    intro s m
    unfold abmpLoop
    split
    · rfl
    · rw [ih]; rfl

theorem rawCacheInv_of_empty (m : Movie) (h : ∀ id, m.cachedChunkData id = none) :
    RawCacheInv m := by
  intro id data hd
  rw [h id] at hd
  simp at hd

theorem readAbmp_rawCacheInv (E : Env) (m : Movie) (h : ∀ id, m.cachedChunkData id = none) :
    RawCacheInv (readAbmp E m).2 := by
  dsimp only [readAbmp]
  repeat' split
  all_goals first
    | exact rawCacheInv_of_empty _ h
    | (rename_i heq
       have h3 := congrArg Prod.snd heq
       simp only at h3
       rw [← h3]
       first
         | (apply rawCacheInv_of_empty
            intro id
            rw [abmpLoop_cachedChunkData]
            exact h id)
         | (apply readInitialLoadSegment_rawCacheInv
            apply rawCacheInv_of_empty
            intro id
            rw [abmpLoop_cachedChunkData]
            exact h id))

/-- C6. When `readAfterburnerMap` is run on a movie whose raw cache is empty (a
movie being opened), then in the state it leaves, whatever its result (true,
false or an exception), every id in the raw cache `_cachedChunkData` has a
directory entry and the cached buffer is exactly `chunkInfo[id].len` bytes
long. A record of the initial load segment whose bytes `copyBytes` cannot
deliver in full adds no cache entry: the step leaves the raw cache as it was. -/
theorem readAfterburnerMap_rawCacheInv (E : Env) (m : Movie)
    (h : ∀ id, m.cachedChunkData id = none) :
    RawCacheInv (readAfterburnerMap E m).2
    ∧ ∀ (resId : Nat) (s : ReadStream) (m1 : Movie),
        (s.copyBytes ((m1.chunkInfo resId).getD ChunkInfo.zero).len).1 = none →
        (ilsStep resId s m1).2.cachedChunkData = m1.cachedChunkData := by
  constructor
  · dsimp only [readAfterburnerMap]
    repeat' split
    all_goals first
      | exact rawCacheInv_of_empty _ h
      | exact readAbmp_rawCacheInv E _ h
  · intro resId s m1 hc
    unfold ilsStep
    dsimp only
    rcases hcb : s.copyBytes ((m1.chunkInfo resId).getD ChunkInfo.zero).len with ⟨r, s1⟩
    rw [hcb] at hc
    simp only at hc
    subst hc
    rfl
theorem ilsLoop_chunkIDsByFourCC (fuel : Nat) :
    ∀ (s : ReadStream) (m : Movie),
      (ilsLoop fuel s m).2.chunkIDsByFourCC = m.chunkIDsByFourCC := by
  induction fuel with
  | zero => intro s m; rfl
  | succ f ih =>
    intro s m
    unfold ilsLoop
    split
    · rfl
    · split
      · rfl
      · rw [ih, ilsStep_chunkIDsByFourCC]

theorem ilsLoop_chunkInfo_getD (fuel : Nat) :
    ∀ (s : ReadStream) (m : Movie) (k : Nat),
      ((ilsLoop fuel s m).2.chunkInfo k).getD ChunkInfo.zero
        = (m.chunkInfo k).getD ChunkInfo.zero := by
  induction fuel with
  | zero => intro s m k; rfl
  | succ f ih =>
    intro s m k
    unfold ilsLoop
    split
    · rfl
    · split
      · rfl
      · rename_i resId s1 heq
        rw [ih, ilsStep_chunkInfo]
        unfold mapSet
        by_cases hk : k = resId
        · rw [if_pos hk, hk]; rfl
        · rw [if_neg hk]

theorem readInitialLoadSegment_index (E : Env) (m : Movie) :
    (readInitialLoadSegment E m).2.chunkIDsByFourCC = m.chunkIDsByFourCC
    ∧ ∀ k, ((readInitialLoadSegment E m).2.chunkInfo k).getD ChunkInfo.zero
        = (m.chunkInfo k).getD ChunkInfo.zero := by
  dsimp only [readInitialLoadSegment]
  repeat' split
  all_goals first
    | exact ⟨rfl, fun _ => rfl⟩
    | (rename_i heq
       have h3 := congrArg Prod.snd heq
       simp only at h3
       rw [← h3]
       exact ⟨ilsLoop_chunkIDsByFourCC _ _ _, ilsLoop_chunkInfo_getD _ _ _⟩)

theorem getFirstChunkInfo_readInitialLoadSegment (E : Env) (m : Movie) (tag : Nat) :
    (getFirstChunkInfo tag (readInitialLoadSegment E m).2).1 = (getFirstChunkInfo tag m).1 := by
  have h := readInitialLoadSegment_index E m
  rw [getFirstChunkInfo_fst, getFirstChunkInfo_fst]
  have hids : (readInitialLoadSegment E m).2.idsOf tag = m.idsOf tag := by
    simp [Movie.idsOf, h.1]
  rw [hids]
  cases m.idsOf tag with
  | nil => rfl
  | cons i rest => simp [h.2 i]

theorem firstIsLowest_readMemoryMap (E : Env) (m : Movie) (hdir : ∀ i, m.chunkInfo i = none)
    (hidx : ∀ t, m.chunkIDsByFourCC t = none) : FirstIsLowest (readMemoryMap E m).2 := by
  obtain ⟨m2, hext, hcase⟩ := readMemoryMap_shape E m
  have hdir2 : ∀ i, m2.chunkInfo i = none := by intro i; rw [hext.chunkInfo]; exact hdir i
  have hidx2 : ∀ t, m2.chunkIDsByFourCC t = none := by
    intro t; rw [hext.chunkIDsByFourCC]; exact hidx t
  rcases hcase with ⟨e, he⟩ | ⟨arr, harr, _⟩
  · rw [he]
    exact firstIsLowest_of_empty m2 hdir2 hidx2
  · rw [harr]
    exact firstIsLowest_readMemoryMapLoop arr m2 hdir2 hidx2

/-- C3 (amended). On a movie with an empty directory and tag index: after
`readMemoryMap`, `getFirstChunkInfo(tag)` returns the directory entry of the
numerically lowest id among the ids whose entry has that tag, and null exactly
when no entry has the tag. After the resource loop of `readAfterburnerMap`
it returns the directory entry stored under the id of the first map record
that carries the tag (discovery order, whatever the numeric order of the ids),
and null exactly when no record carries the tag; the rest of
`readAfterburnerMap` (the initial load segment) does not change what it returns. -/
theorem getFirstChunkInfo_after_map_parsers (E : Env) (m : Movie)
    (hdir : ∀ i, m.chunkInfo i = none) (hidx : ∀ t, m.chunkIDsByFourCC t = none) :
    FirstIsLowest (readMemoryMap E m).2
    ∧ (∀ (n : Nat) (s : ReadStream) (tag : Nat),
        (getFirstChunkInfo tag (abmpLoop n s m).2).1
            = ((abmpRecords n s).find? (fun r => decide (r.tag = tag))).bind
                (fun r => (abmpLoop n s m).2.chunkInfo r.resId)
          ∧ (∀ r ∈ abmpRecords n s, ((abmpLoop n s m).2.chunkInfo r.resId).isSome)
          ∧ (getFirstChunkInfo tag (readInitialLoadSegment E (abmpLoop n s m).2).2).1
              = (getFirstChunkInfo tag (abmpLoop n s m).2).1) := by
  refine ⟨firstIsLowest_readMemoryMap E m hdir hidx, ?_⟩
  intro n s tag
  have h := getFirstChunkInfo_abmpLoop n s m hidx tag
  exact ⟨h.1, h.2, getFirstChunkInfo_readInitialLoadSegment E _ tag⟩

set_option maxRecDepth 1000000 in
/-- Witness of C3: the sample `MV93` archive at its `imap` chunk. -/
theorem getFirstChunkInfo_after_map_parsers_witness :
    (∀ i, sampleAtImap.chunkInfo i = none) ∧ (∀ t, sampleAtImap.chunkIDsByFourCC t = none)
    ∧ FirstIsLowest (readMemoryMap sampleEnv sampleAtImap).2
    ∧ (getFirstChunkInfo (FOURCC 'C' 'A' 'S' '*')
        (abmpLoop 2 (streamOf sampleAbmpRecords) sampleAtImap).2).1
        = ((abmpRecords 2 (streamOf sampleAbmpRecords)).find?
            (fun r => decide (r.tag = FOURCC 'C' 'A' 'S' '*'))).bind
            (fun r => (abmpLoop 2 (streamOf sampleAbmpRecords) sampleAtImap).2.chunkInfo r.resId) :=
  ⟨fun _ => rfl, fun _ => rfl,
    (getFirstChunkInfo_after_map_parsers sampleEnv sampleAtImap (fun _ => rfl) (fun _ => rfl)).1,
    ((getFirstChunkInfo_after_map_parsers sampleEnv sampleAtImap (fun _ => rfl) (fun _ => rfl)).2
      2 (streamOf sampleAbmpRecords) (FOURCC 'C' 'A' 'S' '*')).1⟩

/-- C4. When `readMemoryMap` succeeds on a movie with an empty directory and tag
index, then for the array `arr` of the `mmap` chunk it has read (the object
allocated last): the directory has an entry at `i` exactly when `arr[i]` exists
with a tag that is neither `free` nor `junk`, and that entry has `id = i`, the
entry's tag, `len = uncompressedLen =` the entry's `len`, the entry's `offset`
and `compressionType = 0`; and for each tag the tag index lists exactly those
indices `i` whose entry is recorded with that tag, in strictly ascending order
(so nothing is listed for `free` or `junk`). -/
theorem readMemoryMap_directory (E : Env) (m : Movie) (hdir : ∀ i, m.chunkInfo i = none)
    (hidx : ∀ t, m.chunkIDsByFourCC t = none) (hok : (readMemoryMap E m).1 = .ok ()) :
    ∃ arr, (readMemoryMap E m).2.heap.getLast? = some (Chunk.memoryMap arr)
      ∧ (∀ i, (readMemoryMap E m).2.chunkInfo i
          = match arr[i]? with
            | some e =>
              if e.fourCC = FOURCC 'f' 'r' 'e' 'e' ∨ e.fourCC = FOURCC 'j' 'u' 'n' 'k' then none
              else some { id := i, fourCC := e.fourCC, len := e.len, uncompressedLen := e.len,
                          offset := e.offset, compressionType := 0 }
            | none => none)
      ∧ (∀ tag, (readMemoryMap E m).2.idsOf tag
          = (List.range arr.length).filter (hasTagAt arr tag))
      ∧ (∀ tag, ((readMemoryMap E m).2.idsOf tag).Pairwise (fun a b => a < b))
      ∧ (readMemoryMap E m).2.idsOf (FOURCC 'f' 'r' 'e' 'e') = []
      ∧ (readMemoryMap E m).2.idsOf (FOURCC 'j' 'u' 'n' 'k') = [] := by
  obtain ⟨m2, hext, hcase⟩ := readMemoryMap_shape E m
  have hdir2 : ∀ i, m2.chunkInfo i = none := by intro i; rw [hext.chunkInfo]; exact hdir i
  have hidx2 : ∀ t, m2.chunkIDsByFourCC t = none := by
    intro t; rw [hext.chunkIDsByFourCC]; exact hidx t
  rcases hcase with ⟨e, he⟩ | ⟨arr, harr, hlast⟩
  · rw [he] at hok
    simp at hok
  · rw [harr]
    have hids := readMemoryMapLoop_idsOf_zero arr m2 hidx2
    refine ⟨arr, ?_, readMemoryMapLoop_chunkInfo_zero arr m2 hdir2, hids, ?_, ?_, ?_⟩
    · simp only [readMemoryMapLoop_heap]
      exact hlast
    · intro tag
      simp only [hids]
      exact (List.pairwise_lt_range arr.length).filter _
    · simp only [hids, List.filter_eq_nil_iff]
      intro i _
      rw [hasTagAt_iff]
      rintro ⟨e, _, he, hk⟩
      exact hk (Or.inl he)
    · simp only [hids, List.filter_eq_nil_iff]
      intro i _
      rw [hasTagAt_iff]
      rintro ⟨e, _, he, hk⟩
      exact hk (Or.inr he)

set_option maxRecDepth 1000000 in
/-- Witness of C4: `readMemoryMap` on the sample `MV93` archive. -/
theorem readMemoryMap_directory_witness :
    (readMemoryMap sampleEnv sampleAtImap).1 = .ok ()
    ∧ ∃ arr, (readMemoryMap sampleEnv sampleAtImap).2.heap.getLast? = some (Chunk.memoryMap arr)
      ∧ (∀ i, (readMemoryMap sampleEnv sampleAtImap).2.chunkInfo i
          = match arr[i]? with
            | some e =>
              if e.fourCC = FOURCC 'f' 'r' 'e' 'e' ∨ e.fourCC = FOURCC 'j' 'u' 'n' 'k' then none
              else some { id := i, fourCC := e.fourCC, len := e.len, uncompressedLen := e.len,
                          offset := e.offset, compressionType := 0 }
            | none => none)
      ∧ (∀ tag, (readMemoryMap sampleEnv sampleAtImap).2.idsOf tag
          = (List.range arr.length).filter (hasTagAt arr tag))
      ∧ (∀ tag, ((readMemoryMap sampleEnv sampleAtImap).2.idsOf tag).Pairwise (fun a b => a < b))
      ∧ (readMemoryMap sampleEnv sampleAtImap).2.idsOf (FOURCC 'f' 'r' 'e' 'e') = []
      ∧ (readMemoryMap sampleEnv sampleAtImap).2.idsOf (FOURCC 'j' 'u' 'n' 'k') = [] :=
  ⟨by decide,
    readMemoryMap_directory sampleEnv sampleAtImap (fun _ => rfl) (fun _ => rfl) (by decide)⟩

/-- Witness of C6: `readAfterburnerMap` on the sample `FGDM` archive, whose
initial load segment caches the key table under resource id 3. -/
theorem readAfterburnerMap_rawCacheInv_witness :
    (∀ id, (sampleAfterburned 1115).cachedChunkData id = none)
    ∧ RawCacheInv (readAfterburnerMap sampleEnv (sampleAfterburned 1115)).2 :=
  ⟨fun _ => rfl,
    (readAfterburnerMap_rawCacheInv sampleEnv (sampleAfterburned 1115) (fun _ => rfl)).1⟩

/-! ## Consistency of the tag index with the directory -/

theorem indexConsistent_of_empty (m : Movie) (hdir : ∀ i, m.chunkInfo i = none)
    (hidx : ∀ t, m.chunkIDsByFourCC t = none) : IndexConsistent m := by
  intro t i
  simp [idsOf_of_empty m hidx, hdir]

theorem indexConsistent_readMemoryMapLoop (arr : List MemoryMapEntry) (m : Movie)
    (hdir : ∀ i, m.chunkInfo i = none) (hidx : ∀ t, m.chunkIDsByFourCC t = none) :
    IndexConsistent (readMemoryMapLoop arr 0 m) := by
  intro t i
  rw [readMemoryMapLoop_idsOf_zero arr m hidx, readMemoryMapLoop_chunkInfo_zero arr m hdir]
  constructor
  · rw [List.mem_filter, List.mem_range, hasTagAt_iff]
    constructor
    · rintro ⟨_, e, harr, htag, hkept⟩
      simp only [harr, hkept, if_false]
      exact ⟨_, rfl, htag⟩
    · rintro ⟨info, hinfo, htag⟩
      cases harr : arr[i]? with
      | none => simp [harr] at hinfo
      | some e =>
        simp only [harr] at hinfo
        split at hinfo
        · simp at hinfo
        · rename_i hkept
          simp only [Option.some.injEq] at hinfo
          have hlt : i < arr.length := by
            rcases Nat.lt_or_ge i arr.length with h | h
            · exact h
            · rw [List.getElem?_eq_none h] at harr
              simp at harr
          refine ⟨hlt, e, rfl, ?_, hkept⟩
          rw [← htag, ← hinfo]
  · exact List.nodup_iff_count_le_one.mp ((List.nodup_range arr.length).filter _) i

theorem indexConsistent_readMemoryMap (E : Env) (m : Movie) (hdir : ∀ i, m.chunkInfo i = none)
    (hidx : ∀ t, m.chunkIDsByFourCC t = none) : IndexConsistent (readMemoryMap E m).2 := by
  obtain ⟨m2, hext, hcase⟩ := readMemoryMap_shape E m
  have hdir2 : ∀ i, m2.chunkInfo i = none := by intro i; rw [hext.chunkInfo]; exact hdir i
  have hidx2 : ∀ t, m2.chunkIDsByFourCC t = none := by
    intro t; rw [hext.chunkIDsByFourCC]; exact hidx t
  rcases hcase with ⟨e, he⟩ | ⟨arr, harr, _⟩
  · rw [he]
    exact indexConsistent_of_empty m2 hdir2 hidx2
  · rw [harr]
    exact indexConsistent_readMemoryMapLoop arr m2 hdir2 hidx2

/-- The directory entry the `ABMP` loop enters for a record. -/
theorem addResource_chunkInfo (r : AbmpRecord) (m : Movie) (k : Nat) :
    (addResource r m).chunkInfo k
      = if k = r.resId then
          some { id := r.resId, fourCC := r.tag, len := r.compSize, uncompressedLen := r.uncompSize,
                 offset := r.offset, compressionType := r.compressionType }
        else m.chunkInfo k := by
  simp [addResource, mapSet]

theorem foldl_addResource_chunkInfo_not_mem (recs : List AbmpRecord) :
    ∀ (m : Movie) (k : Nat), k ∉ recs.map AbmpRecord.resId →
      (recs.foldl (fun acc r => addResource r acc) m).chunkInfo k = m.chunkInfo k := by
  induction recs with
  | nil => intro m k _; rfl
  | cons r rest ih =>
    intro m k hk
    simp only [List.map_cons, List.mem_cons, not_or] at hk
    simp only [List.foldl_cons]
    rw [ih _ k hk.2, addResource_chunkInfo, if_neg hk.1]

theorem foldl_addResource_chunkInfo_mem (recs : List AbmpRecord) :
    ∀ (m : Movie) (r : AbmpRecord), (recs.map AbmpRecord.resId).Nodup → r ∈ recs →
      (recs.foldl (fun acc r => addResource r acc) m).chunkInfo r.resId
        = some { id := r.resId, fourCC := r.tag, len := r.compSize,
                 uncompressedLen := r.uncompSize, offset := r.offset,
                 compressionType := r.compressionType } := by
  induction recs with
  | nil => intro m r _ hr; simp at hr
  | cons r0 rest ih =>
    intro m r hnd hr
    simp only [List.map_cons, List.nodup_cons] at hnd
    simp only [List.foldl_cons]
    rcases List.mem_cons.mp hr with h | h
    · subst h
      rw [foldl_addResource_chunkInfo_not_mem rest _ _ hnd.1, addResource_chunkInfo, if_pos rfl]
    · exact ih _ r hnd.2 h

theorem indexConsistent_abmpLoop (n : Nat) (s : ReadStream) (m : Movie)
    (hdir : ∀ i, m.chunkInfo i = none) (hidx : ∀ t, m.chunkIDsByFourCC t = none)
    (hnd : ((abmpRecords n s).map AbmpRecord.resId).Nodup) :
    IndexConsistent (abmpLoop n s m).2 := by
  intro t i
  rw [abmpLoop_snd, foldl_addResource_idsOf, idsOf_of_empty m hidx, List.nil_append]
  constructor
  · simp only [List.mem_map, List.mem_filter, decide_eq_true_eq]
    constructor
    · rintro ⟨r, ⟨hr, htag⟩, hid⟩
      subst hid
      exact ⟨_, foldl_addResource_chunkInfo_mem _ m r hnd hr, htag⟩
    · rintro ⟨info, hinfo, htag⟩
      by_cases hmem : i ∈ (abmpRecords n s).map AbmpRecord.resId
      · obtain ⟨r, hr, hid⟩ := List.mem_map.mp hmem
        subst hid
        rw [foldl_addResource_chunkInfo_mem _ m r hnd hr] at hinfo
        simp only [Option.some.injEq] at hinfo
        refine ⟨r, ⟨hr, ?_⟩, rfl⟩
        rw [← htag, ← hinfo]
      · rw [foldl_addResource_chunkInfo_not_mem _ m i hmem, hdir] at hinfo
        simp at hinfo
  · have hsub : List.Sublist
        (((abmpRecords n s).filter (fun r => decide (r.tag = t))).map AbmpRecord.resId)
        ((abmpRecords n s).map AbmpRecord.resId) :=
      (List.filter_sublist _).map _
    exact List.nodup_iff_count_le_one.mp (hnd.sublist hsub) i

theorem ilsLoop_chunkInfo_of_some (fuel : Nat) :
    ∀ (s : ReadStream) (m : Movie) (k : Nat) (info : ChunkInfo), m.chunkInfo k = some info →
      (ilsLoop fuel s m).2.chunkInfo k = some info := by
  induction fuel with
  | zero => intro s m k info h; exact h
  | succ f ih =>
    intro s m k info h
    unfold ilsLoop
    split
    · exact h
    · split
      · exact h
      · exact ih _ _ k info (ilsStep_chunkInfo_of_some _ _ _ k info h)

theorem indexConsistent_ilsLoop (fuel : Nat) (s : ReadStream) (m : Movie)
    (hcons : IndexConsistent m)
    (hknown : ∀ i, m.chunkInfo i = none → (ilsLoop fuel s m).2.chunkInfo i = none) :
    IndexConsistent (ilsLoop fuel s m).2 := by
  have hdir : ∀ i, (ilsLoop fuel s m).2.chunkInfo i = m.chunkInfo i := by
    intro i
    cases h : m.chunkInfo i with
    | none => exact hknown i h
    | some info => exact ilsLoop_chunkInfo_of_some fuel s m i info h
  intro t i
  have hids : (ilsLoop fuel s m).2.idsOf t = m.idsOf t := by
    simp [Movie.idsOf, ilsLoop_chunkIDsByFourCC]
  rw [hids, hdir]
  exact hcons t i

set_option maxRecDepth 1000000 in
/-- C5, counterexample. `readAfterburnerMap` on the sample `FGDM` archive whose
initial load segment names resource 9, absent from the map, leaves a directory
entry for 9 (the zero entry, tag 0) that the tag index does not list; and the
`ABMP` loop over a map that lists resource 4 twice leaves 4 twice in the index
of its tag. Neither state has a tag index consistent with the directory. -/
theorem indexConsistent_fails_after_readAfterburnerMap :
    ¬ IndexConsistent (readAfterburnerMap sampleEnv sampleAfterburnedStray).2
    ∧ ¬ IndexConsistent (abmpLoop 2 (streamOf sampleAbmpTwice) (Movie.fresh (streamOf []))).2 := by
  constructor
  · intro h
    have h1 := (h 0 9).1.mpr ⟨ChunkInfo.zero, by decide, rfl⟩
    revert h1
    decide
  · intro h
    have h1 := (h (FOURCC 'C' 'A' 'S' '*') 4).2
    revert h1
    decide

/-- C5 (amended). On a movie with an empty directory and tag index, the tag
index is consistent with the directory (an id is listed under a tag exactly
when the directory has an entry for it with that tag, and at most once) after
`readMemoryMap`, and after the resource loop of `readAfterburnerMap` when the
map records carry pairwise distinct resource ids. The initial-load-segment loop
keeps the index consistent when it adds no directory entry, that is when
every record names a resource id that has one. -/
theorem indexConsistent_after_map_parsers (E : Env) (m : Movie)
    (hdir : ∀ i, m.chunkInfo i = none) (hidx : ∀ t, m.chunkIDsByFourCC t = none) :
    IndexConsistent (readMemoryMap E m).2
    ∧ (∀ (n : Nat) (s : ReadStream), ((abmpRecords n s).map AbmpRecord.resId).Nodup →
        IndexConsistent (abmpLoop n s m).2)
    ∧ (∀ (fuel : Nat) (s : ReadStream) (m1 : Movie), IndexConsistent m1 →
        (∀ i, m1.chunkInfo i = none → (ilsLoop fuel s m1).2.chunkInfo i = none) →
        IndexConsistent (ilsLoop fuel s m1).2) :=
  ⟨indexConsistent_readMemoryMap E m hdir hidx,
    fun n s hnd => indexConsistent_abmpLoop n s m hdir hidx hnd,
    fun fuel s m1 hcons hknown => indexConsistent_ilsLoop fuel s m1 hcons hknown⟩

set_option maxRecDepth 1000000 in
/-- Witness of C5: the sample `MV93` archive at its `imap` chunk, and the `ABMP`
loop over the sample resource list with the distinct ids 5 and 3. -/
theorem indexConsistent_after_map_parsers_witness :
    (∀ i, sampleAtImap.chunkInfo i = none) ∧ (∀ t, sampleAtImap.chunkIDsByFourCC t = none)
    ∧ ((abmpRecords 2 (streamOf sampleAbmpRecords)).map AbmpRecord.resId).Nodup
    ∧ IndexConsistent (readMemoryMap sampleEnv sampleAtImap).2
    ∧ IndexConsistent (abmpLoop 2 (streamOf sampleAbmpRecords) sampleAtImap).2 :=
  ⟨fun _ => rfl, fun _ => rfl, by decide,
    (indexConsistent_after_map_parsers sampleEnv sampleAtImap (fun _ => rfl) (fun _ => rfl)).1,
    (indexConsistent_after_map_parsers sampleEnv sampleAtImap (fun _ => rfl) (fun _ => rfl)).2.1
      2 (streamOf sampleAbmpRecords) (by decide)⟩

/-! ## Chunk framing -/

theorem readUint32_ok (s s1 : ReadStream) (v : Nat) (h : s.readUint32 = (.ok v, s1)) :
    s1 = { s with pos := s.pos + 4 } := by
  unfold ReadStream.readUint32 at h
  dsimp only at h
  split at h
  · simp at h
  · split at h <;> simp only [Prod.mk.injEq] at h <;> exact h.2.symm

theorem readBytes_cases (s : ReadStream) (n : Nat) :
    s.readBytes n = (.error .pastEnd, { s with pos := s.pos + n })
    ∨ (s.readBytes n
        = (.ok { data := (s.data.drop s.pos).take n, pos := 0, endianness := s.endianness },
            { s with pos := s.pos + n })
      ∧ ((s.data.drop s.pos).take n).length = n) := by
  unfold ReadStream.readBytes
  dsimp only
  split
  · exact Or.inl rfl
  · refine Or.inr ⟨rfl, ?_⟩
    simp
    omega

theorem makeChunk_fst_cases (E : Env) (fourCC : Nat) (cs : ReadStream) (m : Movie) :
    (makeChunk E fourCC cs m).1 = .error .payload ∨ ∃ p, (makeChunk E fourCC cs m).1 = .ok p := by
  unfold makeChunk
  dsimp only
  split
  · exact Or.inl rfl
  · exact Or.inr ⟨_, rfl⟩

/-- What `readChunk` does once the framing `(vt, vl)` has been read: the
framing error when the tag or the length (unless `len` is the sentinel) does
not match, otherwise `makeChunk` on the `vl` bytes behind the framing. -/
theorem readChunk_of_framing (E : Env) (fourCC len : Nat) (m : Movie) (vt vl : Nat)
    (s1 s2 : ReadStream) (h1 : m.stream.readUint32 = (.ok vt, s1))
    (h2 : s1.readUint32 = (.ok vl, s2)) :
    readChunk E fourCC len m
      = if vt ≠ fourCC ∨ (len ≠ UINT32_MAX ∧ vl ≠ len) then
          (.error (.framing m.stream.pos fourCC (if len = UINT32_MAX then vl else len) vt vl),
            { m with stream := s2 })
        else
          match s2.readBytes vl with
          | (.error e, s3) => (.error e, { m with stream := s3 })
          | (.ok cs, s3) => makeChunk E fourCC cs { m with stream := s3 } := by
  dsimp only [readChunk]
  simp only [h1, h2]
  by_cases hmax : len = UINT32_MAX
  · subst hmax
    by_cases ht : fourCC = vt
    · subst ht
      simp
    · have ht' : vt ≠ fourCC := fun h => ht h.symm
      simp [ht, ht']
  · by_cases ht : fourCC = vt
    · subst ht
      by_cases hl : len = vl
      · subst hl
        simp [hmax]
      · have hl' : vl ≠ len := fun h => hl h.symm
        simp [hmax, hl, hl']
    · have ht' : vt ≠ fourCC := fun h => ht h.symm
      simp [hmax, ht, ht']
set_option maxRecDepth 1000000 in
/-- C10, counterexample. In the movie opened from the sample `MV93` archive whose
`mmap` entry for the cast chunk 6 gives the length `UINT32_MAX`, the framing
at the chunk's offset 152 carries the length 4; `getChunk('CAS*', 6)` reads it
in the memory-map dialect and succeeds, although the framing's length differs
from the directory entry's. -/
theorem getChunk_trusts_framing_at_sentinel_length :
    (sampleMovieCasLen UINT32_MAX).afterburned = false
    ∧ ((sampleMovieCasLen UINT32_MAX).chunkInfo 6).map (fun info => (info.fourCC, info.len, info.offset))
        = some (FOURCC 'C' 'A' 'S' '*', UINT32_MAX, 152)
    ∧ (((sampleMovieCasLen UINT32_MAX).stream.seek 156).readUint32).1 = .ok 4
    ∧ (getChunk sampleEnv (FOURCC 'C' 'A' 'S' '*') 6 (sampleMovieCasLen UINT32_MAX)).1 = .ok 4 := by
  decide

theorem getChunk_memoryMap_error (E : Env) (id : Nat) (m0 : Movie) (info : ChunkInfo)
    (hcache : m0.deserializedChunks id = none) (hinfo : m0.chunkInfo id = some info)
    (hraw : m0.cachedChunkData id = none) (haft : m0.afterburned = false)
    (e : MovieError) (m1 : Movie)
    (hr : readChunk E info.fourCC info.len
        { m0 with stream := m0.stream.seek (seekTarget info.offset) } = (.error e, m1)) :
    getChunk E info.fourCC id m0 = (.error e, m1) := by
  unfold getChunk
  simp only [haft] at hr
  simp only [hcache, hinfo, hraw, haft, ne_eq, not_true_eq_false, if_false, hr,
    Bool.false_eq_true]

/-- C10 (amended). Let `(vt, vl)` be the framing `readChunk(fourCC, len)` reads at
the current position. It fails with the framing error exactly when
`vt != fourCC`, or `len != UINT32_MAX` and `vl != len` (with `len = UINT32_MAX`
the framing's length is trusted whatever it is). When it succeeds, the payload
handed to `makeChunk` is exactly the `vl` bytes behind the framing. And in the
memory-map dialect, for an id that is in neither cache and whose directory
entry has a length other than `UINT32_MAX`, `getChunk(tag, id)` fails for every
`tag` when the framing at the entry's offset carries a tag or a length
different from the entry's. -/
theorem readChunk_framing (E : Env) (fourCC len : Nat) (m : Movie) (vt vl : Nat)
    (s1 s2 : ReadStream) (h1 : m.stream.readUint32 = (.ok vt, s1))
    (h2 : s1.readUint32 = (.ok vl, s2)) :
    ((∃ o a b c d, (readChunk E fourCC len m).1 = .error (.framing o a b c d))
        ↔ (vt ≠ fourCC ∨ (len ≠ UINT32_MAX ∧ vl ≠ len)))
    ∧ ((vt ≠ fourCC ∨ (len ≠ UINT32_MAX ∧ vl ≠ len)) →
        (readChunk E fourCC len m).1
          = .error (.framing m.stream.pos fourCC (if len = UINT32_MAX then vl else len) vt vl))
    ∧ (∀ p, (readChunk E fourCC len m).1 = .ok p →
        ((m.stream.data.drop (m.stream.pos + 8)).take vl).length = vl
        ∧ readChunk E fourCC len m
            = makeChunk E fourCC
                { data := (m.stream.data.drop (m.stream.pos + 8)).take vl, pos := 0,
                  endianness := m.stream.endianness }
                { m with stream := { m.stream with pos := m.stream.pos + 8 + vl } })
    ∧ (∀ (id : Nat) (info : ChunkInfo) (m0 : Movie),
        m = { m0 with stream := m0.stream.seek (seekTarget info.offset) } →
        m0.afterburned = false → m0.deserializedChunks id = none →
        m0.cachedChunkData id = none → m0.chunkInfo id = some info →
        info.len ≠ UINT32_MAX → (vt ≠ info.fourCC ∨ vl ≠ info.len) →
        ∀ tag, ∃ e, (getChunk E tag id m0).1 = .error e) := by
  have hs1 := readUint32_ok _ _ _ h1
  have hs2 := readUint32_ok _ _ _ h2
  have hrc := readChunk_of_framing E fourCC len m vt vl s1 s2 h1 h2
  have hpos : ∀ c : vt ≠ fourCC ∨ (len ≠ UINT32_MAX ∧ vl ≠ len),
      (readChunk E fourCC len m).1
        = .error (.framing m.stream.pos fourCC (if len = UINT32_MAX then vl else len) vt vl) := by
    intro c
    rw [hrc, if_pos c]
  have hneg : ¬ (vt ≠ fourCC ∨ (len ≠ UINT32_MAX ∧ vl ≠ len)) →
      readChunk E fourCC len m = (.error .pastEnd, { m with stream := { s2 with pos := s2.pos + vl } })
      ∨ (readChunk E fourCC len m
          = makeChunk E fourCC
              { data := (s2.data.drop s2.pos).take vl, pos := 0, endianness := s2.endianness }
              { m with stream := { s2 with pos := s2.pos + vl } }
        ∧ ((s2.data.drop s2.pos).take vl).length = vl) := by
    intro c
    rw [hrc, if_neg c]
    rcases readBytes_cases s2 vl with h | ⟨h, hl⟩
    · left; rw [h]
    · right; rw [h]; exact ⟨rfl, hl⟩
  have hs2' : s2 = { m.stream with pos := m.stream.pos + 8 } := by
    rw [hs2, hs1]
  refine ⟨⟨?_, fun c => ⟨_, _, _, _, _, hpos c⟩⟩, hpos, ?_, ?_⟩
  · rintro ⟨o, a, b, c, d, herr⟩
    by_contra hc
    rcases hneg hc with h | ⟨h, _⟩
    · rw [h] at herr
      simp at herr
    · rw [h] at herr
      rcases makeChunk_fst_cases E fourCC
          { data := (s2.data.drop s2.pos).take vl, pos := 0, endianness := s2.endianness }
          { m with stream := { s2 with pos := s2.pos + vl } } with h' | ⟨p, h'⟩
      · rw [h'] at herr
        simp at herr
      · rw [h'] at herr
        simp at herr
  · intro p hp
    by_cases hc : vt ≠ fourCC ∨ (len ≠ UINT32_MAX ∧ vl ≠ len)
    · rw [hpos hc] at hp
      simp at hp
    · rcases hneg hc with h | ⟨h, hl⟩
      · rw [h] at hp
        simp at hp
      · subst hs2'
        exact ⟨hl, h⟩
  · intro id info m0 hm haft hcache hraw hinfo hlen hdiff tag
    by_cases htag : tag ≠ info.fourCC
    · refine ⟨.tagMismatch id tag info.fourCC, ?_⟩
      unfold getChunk
      simp only [hcache, hinfo]
      rw [if_pos htag]
    · have htag' : tag = info.fourCC := by
        by_contra h
        exact htag h
      subst htag'
      have hc : vt ≠ info.fourCC ∨ (info.len ≠ UINT32_MAX ∧ vl ≠ info.len) := by
        rcases hdiff with h | h
        · exact Or.inl h
        · exact Or.inr ⟨hlen, h⟩
      have hrc' := readChunk_of_framing E info.fourCC info.len m vt vl s1 s2 h1 h2
      rw [if_pos hc, hm] at hrc'
      exact ⟨_, congrArg Prod.fst (getChunk_memoryMap_error E id m0 info hcache hinfo hraw haft _ _ hrc')⟩
set_option maxRecDepth 1000000 in
/-- Witness of C10: the sample `MV93` archive whose `mmap` entry gives the cast
chunk 6 the length 5 while its framing at offset 152 gives the length 4:
`readChunk('CAS*', 5)` fails there with the framing error and so does
`getChunk('CAS*', 6)`. -/
theorem readChunk_framing_witness :
    (sampleAtCast 5).stream.readUint32
        = (.ok (FOURCC 'C' 'A' 'S' '*'), { (sampleAtCast 5).stream with pos := 156 })
    ∧ ({ (sampleAtCast 5).stream with pos := 156 } : ReadStream).readUint32
        = (.ok 4, { (sampleAtCast 5).stream with pos := 160 })
    ∧ (readChunk sampleEnv (FOURCC 'C' 'A' 'S' '*') 5 (sampleAtCast 5)).1
        = .error (.framing 152 (FOURCC 'C' 'A' 'S' '*') 5 (FOURCC 'C' 'A' 'S' '*') 4)
    ∧ ∃ e, (getChunk sampleEnv (FOURCC 'C' 'A' 'S' '*') 6 (sampleMovieCasLen 5)).1 = .error e :=
  ⟨by decide, by decide,
    (readChunk_framing sampleEnv (FOURCC 'C' 'A' 'S' '*') 5 (sampleAtCast 5)
      (FOURCC 'C' 'A' 'S' '*') 4 { (sampleAtCast 5).stream with pos := 156 }
      { (sampleAtCast 5).stream with pos := 160 } (by decide) (by decide)).2.1
      (Or.inr ⟨by decide, by decide⟩),
    (readChunk_framing sampleEnv (FOURCC 'C' 'A' 'S' '*') 5 (sampleAtCast 5)
      (FOURCC 'C' 'A' 'S' '*') 4 { (sampleAtCast 5).stream with pos := 156 }
      { (sampleAtCast 5).stream with pos := 160 } (by decide) (by decide)).2.2.2
      6 (sampleCastEntry 5) (sampleMovieCasLen 5) rfl (by decide) (by decide) (by decide)
      (by decide) (by decide) (Or.inr (by decide)) (FOURCC 'C' 'A' 'S' '*')⟩

/-! ## Frame properties of the lookups -/

theorem getFirstChunkInfo_idsOf (fourCC : Nat) (m : Movie) (t : Nat) :
    (getFirstChunkInfo fourCC m).2.idsOf t = m.idsOf t := by
  have hkey : ∀ (ci : Nat → Option ChunkInfo),
      Movie.idsOf { m with chunkInfo := ci,
                           chunkIDsByFourCC := mapSet m.chunkIDsByFourCC fourCC (m.idsOf fourCC) } t
        = m.idsOf t := by
    intro ci
    unfold Movie.idsOf mapSet
    by_cases h : t = fourCC
    · subst h; simp
    · simp [h]
  unfold getFirstChunkInfo
  dsimp only
  split
  · exact hkey _
  · split
    · exact hkey _
    · exact hkey _

/-- The fields `getFirstChunkInfo` leaves alone: all but the two maps it
indexes with `operator[]`. -/
theorem getFirstChunkInfo_fields (fourCC : Nat) (m : Movie) :
    (getFirstChunkInfo fourCC m).2.stream = m.stream
    ∧ (getFirstChunkInfo fourCC m).2.version = m.version
    ∧ (getFirstChunkInfo fourCC m).2.keyTable = m.keyTable
    ∧ (getFirstChunkInfo fourCC m).2.config = m.config
    ∧ (getFirstChunkInfo fourCC m).2.casts = m.casts
    ∧ (getFirstChunkInfo fourCC m).2.heap = m.heap
    ∧ (getFirstChunkInfo fourCC m).2.deserializedChunks = m.deserializedChunks
    ∧ (getFirstChunkInfo fourCC m).2.cachedChunkData = m.cachedChunkData
    ∧ (getFirstChunkInfo fourCC m).2.afterburned = m.afterburned := by
  unfold getFirstChunkInfo
  dsimp only
  split
  · exact ⟨rfl, rfl, rfl, rfl, rfl, rfl, rfl, rfl, rfl⟩
  · split <;> exact ⟨rfl, rfl, rfl, rfl, rfl, rfl, rfl, rfl, rfl⟩

theorem getFirstChunkInfo_none_iff (fourCC : Nat) (m : Movie) :
    (getFirstChunkInfo fourCC m).1 = none ↔ m.idsOf fourCC = [] := by
  rw [getFirstChunkInfo_fst]
  cases m.idsOf fourCC <;> simp

theorem getChunk_extends (E : Env) (fourCC id : Nat) (m : Movie) :
    m.Extends (getChunk E fourCC id m).2 := by
  unfold getChunk
  split
  · exact Movie.Extends.same m
  · rename_i hcache
    split
    · exact Movie.Extends.same m
    · split
      · exact Movie.Extends.same m
      · have hmade : ∀ (r : Except MovieError Nat × Movie), m.Extends r.2 →
            m.Extends (match r with
              | (.error e, m1) => (Except.error e, m1)
              | (.ok p, m1) =>
                if fourCC ≠ FOURCC 'i' 'm' 'a' 'p' ∧ fourCC ≠ FOURCC 'm' 'm' 'a' 'p' then
                  (Except.ok p,
                    { m1 with deserializedChunks := mapSet m1.deserializedChunks id p })
                else (Except.ok p, m1)).2 := by
          rintro ⟨r, m1⟩ hext
          rcases r with e | p
          · exact hext
          · simp only
            split
            · refine ⟨hext.codec, hext.afterburned, hext.version, hext.chunkInfo,
                hext.chunkIDsByFourCC, hext.keyTable, hext.config, hext.casts,
                hext.cachedChunkData, hext.ilsBodyOffset, hext.heap, ?_⟩
              intro id' q hq
              have hne : id' ≠ id := by
                intro h
                rw [h, hcache] at hq
                simp at hq
              simp only [mapSet, hne, if_false]
              exact hext.cache id' q hq
            · exact hext
        apply hmade
        split
        · exact makeChunk_extends E fourCC _ m
        · split
          · dsimp only
            repeat' split
            all_goals first
              | exact Movie.Extends.of_stream m _
              | exact (Movie.Extends.of_stream m _).andThen (makeChunk_extends E fourCC _ _)
          · exact (Movie.Extends.of_stream m _).andThen (readChunk_extends E fourCC _ _)
/-! ## `readCasts` -/

theorem makeChunk_retable (E : Env) (fourCC : Nat) (cs : ReadStream) (m : Movie)
    (k : Option Nat) (c : Nat → Option (List Nat)) :
    makeChunk E fourCC cs { m with keyTable := k, chunkIDsByFourCC := c }
      = ((makeChunk E fourCC cs m).1,
          { (makeChunk E fourCC cs m).2 with keyTable := k, chunkIDsByFourCC := c }) := by
  unfold makeChunk
  dsimp only
  by_cases hx : fourCC = FOURCC 'L' 'c' 't' 'X'
  · simp only [hx, if_true]
    split <;> rfl
  · simp only [hx, if_false]
    split <;> rfl

theorem readChunk_retable (E : Env) (fourCC len : Nat) (m : Movie)
    (k : Option Nat) (c : Nat → Option (List Nat)) :
    readChunk E fourCC len { m with keyTable := k, chunkIDsByFourCC := c }
      = ((readChunk E fourCC len m).1,
          { (readChunk E fourCC len m).2 with keyTable := k, chunkIDsByFourCC := c }) := by
  dsimp only [readChunk]
  repeat' split
  all_goals first
    | rfl
    | exact makeChunk_retable E fourCC _ { m with stream := _ } k c

theorem getChunk_retable (E : Env) (fourCC id : Nat) (m : Movie)
    (k : Option Nat) (c : Nat → Option (List Nat)) :
    getChunk E fourCC id { m with keyTable := k, chunkIDsByFourCC := c }
      = ((getChunk E fourCC id m).1,
          { (getChunk E fourCC id m).2 with keyTable := k, chunkIDsByFourCC := c }) := by
  unfold getChunk
  dsimp only
  split
  · rfl
  · split
    · rfl
    · split
      · rfl
      · have hmade : ∀ (r r' : Except MovieError Nat × Movie),
            r' = (r.1, { r.2 with keyTable := k, chunkIDsByFourCC := c }) →
            (match r' with
              | (.error e, m1) => (Except.error e, m1)
              | (.ok p, m1) =>
                if fourCC ≠ FOURCC 'i' 'm' 'a' 'p' ∧ fourCC ≠ FOURCC 'm' 'm' 'a' 'p' then
                  (Except.ok p,
                    { m1 with deserializedChunks := mapSet m1.deserializedChunks id p })
                else (Except.ok p, m1))
            = ((match r with
              | (.error e, m1) => (Except.error e, m1)
              | (.ok p, m1) =>
                if fourCC ≠ FOURCC 'i' 'm' 'a' 'p' ∧ fourCC ≠ FOURCC 'm' 'm' 'a' 'p' then
                  (Except.ok p,
                    { m1 with deserializedChunks := mapSet m1.deserializedChunks id p })
                else (Except.ok p, m1)).1,
              { (match r with
                | (.error e, m1) => (Except.error e, m1)
                | (.ok p, m1) =>
                  if fourCC ≠ FOURCC 'i' 'm' 'a' 'p' ∧ fourCC ≠ FOURCC 'm' 'm' 'a' 'p' then
                    (Except.ok p,
                      { m1 with deserializedChunks := mapSet m1.deserializedChunks id p })
                  else (Except.ok p, m1)).2 with keyTable := k, chunkIDsByFourCC := c }) := by
          rintro ⟨r, m1⟩ r' rfl
          rcases r with e | p
          · rfl
          · simp only
            split <;> rfl
        apply hmade
        split
        · exact makeChunk_retable E fourCC _ m k c
        · split
          · dsimp only
            repeat' split
            all_goals first
              | rfl
              | exact makeChunk_retable E fourCC _ { m with stream := _ } k c
          · exact readChunk_retable E fourCC _ { m with stream := _ } k c
theorem populate_of_cast (p : Nat) (name : String) (id : Int) (minMember : Nat) (m : Movie)
    (body : List Nat) (a : Option CastInfo) (h : m.heap[p]? = some (.cast body a)) :
    populate p name id minMember m
      = some { m with
          heap := m.heap.set p (.cast body (some { name := name, id := id, minMember := minMember })) } := by
  unfold populate
  simp only [h]

theorem populate_some (p : Nat) (name : String) (id : Int) (minMember : Nat) (m m' : Movie)
    (h : populate p name id minMember m = some m') :
    ∃ body a, m.heap[p]? = some (.cast body a)
      ∧ m' = { m with
          heap := m.heap.set p (.cast body (some { name := name, id := id, minMember := minMember })) } := by
  unfold populate at h
  split at h
  · rename_i body a hb
    simp only [Option.some.injEq] at h
    exact ⟨body, a, hb, h.symm⟩
  · simp at h

theorem getElem?_set_self_of_some {α : Type} (l : List α) (p : Nat) (c c' : α)
    (h : l[p]? = some c) : (l.set p c')[p]? = some c' := by
  have hlt : p < l.length := by
    rcases Nat.lt_or_ge p l.length with h1 | h1
    · exact h1
    · rw [List.getElem?_eq_none h1] at h
      simp at h
  simp [List.getElem?_set, hlt]

/-- For human versions below 500 `readCasts` is the lookup of the first `CAS*`
entry followed by the single-cast path. -/
theorem readCasts_below_500 (E : Env) (m : Movie) (hv : m.version < 500) :
    readCasts E m
      = match getFirstChunkInfo (FOURCC 'C' 'A' 'S' '*') m with
        | (some info, m1) => singleCastTail E info m1
        | (none, m1) => (.ok false, m1) := by
  unfold readCasts
  rw [if_neg (by omega)]
  rfl

theorem singleCastTail_error (E : Env) (info : ChunkInfo) (m1 : Movie) (e : MovieError)
    (h : (getChunk E info.fourCC info.id m1).1 = .error e) :
    singleCastTail E info m1 = (.error e, (getChunk E info.fourCC info.id m1).2) := by
  unfold singleCastTail
  rcases hg : getChunk E info.fourCC info.id m1 with ⟨r, m2⟩
  rw [hg] at h
  simp only at h
  subst h
  rfl

theorem singleCastTail_ok (E : Env) (info : ChunkInfo) (m1 : Movie) (p : Nat) (body : List Nat)
    (a : Option CastInfo) (c dv mm : Nat)
    (h : (getChunk E info.fourCC info.id m1).1 = .ok p)
    (hp : (getChunk E info.fourCC info.id m1).2.heap[p]? = some (.cast body a))
    (hc : (getChunk E info.fourCC info.id m1).2.config = some c)
    (hcfg : (getChunk E info.fourCC info.id m1).2.heap[c]? = some (.config dv mm)) :
    (singleCastTail E info m1).1 = .ok true
    ∧ (singleCastTail E info m1).2.casts = (getChunk E info.fourCC info.id m1).2.casts ++ [p]
    ∧ (singleCastTail E info m1).2.heap[p]?
        = some (.cast body (some { name := "Internal", id := 1024, minMember := mm })) := by
  unfold singleCastTail
  rcases hg : getChunk E info.fourCC info.id m1 with ⟨r, m2⟩
  rw [hg] at h hp hc hcfg
  simp only at h hp hc hcfg
  subst h
  simp only [hc, Option.some_bind, hcfg, populate_of_cast p "Internal" 1024 mm m2 body a hp]
  refine ⟨?_, ?_, ?_⟩
  · trivial
  · trivial
  · exact getElem?_set_self_of_some _ _ _ _ hp

theorem singleCastTail_cases (E : Env) (info : ChunkInfo) (m1 : Movie) :
    (∃ e, (singleCastTail E info m1).1 = .error e
        ∧ (singleCastTail E info m1).2 = (getChunk E info.fourCC info.id m1).2)
    ∨ ((singleCastTail E info m1).1 = .ok true
        ∧ ∃ p body a c dv mm, (getChunk E info.fourCC info.id m1).1 = .ok p
          ∧ (getChunk E info.fourCC info.id m1).2.heap[p]? = some (.cast body a)
          ∧ (getChunk E info.fourCC info.id m1).2.config = some c
          ∧ (getChunk E info.fourCC info.id m1).2.heap[c]? = some (.config dv mm)) := by
  unfold singleCastTail
  rcases hg : getChunk E info.fourCC info.id m1 with ⟨r, m2⟩
  rcases r with e | p
  · exact Or.inl ⟨e, rfl, rfl⟩
  · simp only
    cases hc : m2.config with
    | none => exact Or.inl ⟨_, rfl, rfl⟩
    | some c =>
      simp only [Option.some_bind]
      cases hcfg : m2.heap[c]? with
      | none => exact Or.inl ⟨_, rfl, rfl⟩
      | some obj =>
        cases obj with
        | config dv mm =>
          simp only
          cases hpop : populate p "Internal" 1024 mm m2 with
          | none => exact Or.inl ⟨_, rfl, rfl⟩
          | some m3 =>
            obtain ⟨body, a, hb, _⟩ := populate_some _ _ _ _ _ _ hpop
            exact Or.inr ⟨rfl, p, body, a, c, dv, mm, rfl, hb, rfl, hcfg⟩
        | _ => exact Or.inl ⟨_, rfl, rfl⟩

theorem getFirstChunkInfo_withTables (t : Nat) (m : Movie) (k : Option Nat)
    (c : Nat → Option (List Nat)) (hc : c t = m.chunkIDsByFourCC t) :
    ∃ c', getFirstChunkInfo t (m.withTables k c)
      = ((getFirstChunkInfo t m).1, (getFirstChunkInfo t m).2.withTables k c') := by
  unfold getFirstChunkInfo Movie.withTables Movie.idsOf
  dsimp only
  rw [hc]
  split
  · exact ⟨_, rfl⟩
  · split
    · exact ⟨_, rfl⟩
    · exact ⟨_, rfl⟩

theorem singleCastTail_withTables (E : Env) (info : ChunkInfo) (m1 : Movie) (k : Option Nat)
    (c : Nat → Option (List Nat)) :
    (singleCastTail E info (m1.withTables k c)).1 = (singleCastTail E info m1).1
    ∧ (singleCastTail E info (m1.withTables k c)).2.casts = (singleCastTail E info m1).2.casts
    ∧ (singleCastTail E info (m1.withTables k c)).2.heap = (singleCastTail E info m1).2.heap := by
  unfold singleCastTail Movie.withTables
  rw [getChunk_retable]
  rcases hg : getChunk E info.fourCC info.id m1 with ⟨r, m2⟩
  rcases r with e | p
  · exact ⟨rfl, rfl, rfl⟩
  · simp only
    cases hc : m2.config with
    | none => exact ⟨rfl, rfl, rfl⟩
    | some c =>
      simp only [Option.some_bind]
      cases hcfg : m2.heap[c]? with
      | none => exact ⟨rfl, rfl, rfl⟩
      | some obj =>
        cases obj with
        | config dv mm =>
          simp only
          unfold populate
          simp only
          cases hp : m2.heap[p]? with
          | none => exact ⟨rfl, rfl, rfl⟩
          | some q =>
            cases q with
            | cast body a => exact ⟨rfl, rfl, rfl⟩
            | _ => exact ⟨rfl, rfl, rfl⟩
        | _ => exact ⟨rfl, rfl, rfl⟩

/-- C8 (amended). For every human version below 500, `readCasts` consults
neither the key table nor the `MCsL` cast list (its result, the casts and the
objects are the same whatever `keyTable` holds and whatever the tag index lists
for `MCsL`). It reports failure exactly when the tag index lists no `CAS*`
entry, and then appends nothing. When there is one, it calls `getChunk` on the
first: if that fails, `readCasts` fails with the same error and appends
nothing; if it returns a cast object and the config is present, `readCasts`
annotates the object with the name "Internal", the id 1024 and the config's
`minMember`, appends exactly that one cast and reports success; and it reports
success in no other case. -/
theorem readCasts_single_cast (E : Env) (m : Movie) (hv : m.version < 500) :
    (∀ (k : Option Nat) (l : List Nat),
        (readCasts E (m.withTables k (mapSet m.chunkIDsByFourCC (FOURCC 'M' 'C' 's' 'L') l))).1
          = (readCasts E m).1
        ∧ (readCasts E (m.withTables k (mapSet m.chunkIDsByFourCC (FOURCC 'M' 'C' 's' 'L') l))).2.casts
          = (readCasts E m).2.casts
        ∧ (readCasts E (m.withTables k (mapSet m.chunkIDsByFourCC (FOURCC 'M' 'C' 's' 'L') l))).2.heap
          = (readCasts E m).2.heap)
    ∧ ((readCasts E m).1 = .ok false ↔ m.idsOf (FOURCC 'C' 'A' 'S' '*') = [])
    ∧ ((readCasts E m).1 ≠ .ok true → (readCasts E m).2.casts = m.casts)
    ∧ (∀ info m1, getFirstChunkInfo (FOURCC 'C' 'A' 'S' '*') m = (some info, m1) →
        (∀ e, (getChunk E info.fourCC info.id m1).1 = .error e → (readCasts E m).1 = .error e)
        ∧ (∀ p body a c dv mm, (getChunk E info.fourCC info.id m1).1 = .ok p →
            (getChunk E info.fourCC info.id m1).2.heap[p]? = some (.cast body a) →
            m.config = some c →
            (getChunk E info.fourCC info.id m1).2.heap[c]? = some (.config dv mm) →
            (readCasts E m).1 = .ok true
            ∧ (readCasts E m).2.casts = m.casts ++ [p]
            ∧ (readCasts E m).2.heap[p]?
                = some (.cast body (some { name := "Internal", id := 1024, minMember := mm })))
        ∧ ((readCasts E m).1 = .ok true →
            ∃ p body a c dv mm, (getChunk E info.fourCC info.id m1).1 = .ok p
              ∧ (getChunk E info.fourCC info.id m1).2.heap[p]? = some (.cast body a)
              ∧ m.config = some c
              ∧ (getChunk E info.fourCC info.id m1).2.heap[c]? = some (.config dv mm))) := by
  have hrc := readCasts_below_500 E m hv
  have hfields := getFirstChunkInfo_fields (FOURCC 'C' 'A' 'S' '*') m
  refine ⟨?_, ?_, ?_, ?_⟩
  · intro k l
    have hv' : (m.withTables k (mapSet m.chunkIDsByFourCC (FOURCC 'M' 'C' 's' 'L') l)).version
        < 500 := hv
    have hkey : mapSet m.chunkIDsByFourCC (FOURCC 'M' 'C' 's' 'L') l (FOURCC 'C' 'A' 'S' '*')
        = m.chunkIDsByFourCC (FOURCC 'C' 'A' 'S' '*') := by
      unfold mapSet
      rw [if_neg (by decide)]
    obtain ⟨c', hc'⟩ := getFirstChunkInfo_withTables (FOURCC 'C' 'A' 'S' '*') m k _ hkey
    rw [readCasts_below_500 E _ hv', hrc, hc']
    rcases hf : getFirstChunkInfo (FOURCC 'C' 'A' 'S' '*') m with ⟨r, m1⟩
    rcases r with _ | info
    · exact ⟨rfl, rfl, rfl⟩
    · exact singleCastTail_withTables E info m1 k c'
  · rw [← getFirstChunkInfo_none_iff, hrc]
    rcases hf : getFirstChunkInfo (FOURCC 'C' 'A' 'S' '*') m with ⟨r, m1⟩
    rcases r with _ | info
    · simp
    · simp only
      rcases singleCastTail_cases E info m1 with ⟨e, he, _⟩ | ⟨ht, _⟩
      · rw [he]; simp
      · rw [ht]; simp
  · intro hne
    rw [hrc] at hne ⊢
    rcases hf : getFirstChunkInfo (FOURCC 'C' 'A' 'S' '*') m with ⟨r, m1⟩
    rw [hf] at hne hfields
    rcases r with _ | info
    · exact hfields.2.2.2.2.1
    · simp only at hne ⊢
      rcases singleCastTail_cases E info m1 with ⟨e, _, hs⟩ | ⟨ht, _⟩
      · rw [hs, (getChunk_extends E info.fourCC info.id m1).casts]
        exact hfields.2.2.2.2.1
      · exact absurd ht hne
  · intro info m1 hf
    rw [hf] at hrc hfields
    simp only at hrc hfields
    rw [hrc]
    have hext := getChunk_extends E info.fourCC info.id m1
    refine ⟨?_, ?_, ?_⟩
    · intro e he
      rw [singleCastTail_error E info m1 e he]
    · intro p body a c dv mm hp hobj hcfg hcobj
      have hcfg' : (getChunk E info.fourCC info.id m1).2.config = some c := by
        rw [hext.config, hfields.2.2.2.1]
        exact hcfg
      have h := singleCastTail_ok E info m1 p body a c dv mm hp hobj hcfg' hcobj
      refine ⟨h.1, ?_, h.2.2⟩
      rw [h.2.1, hext.casts, hfields.2.2.2.2.1]
    · intro ht
      rcases singleCastTail_cases E info m1 with ⟨e, he, _⟩ | ⟨_, p, body, a, c, dv, mm, h1, h2, h3, h4⟩
      · rw [he] at ht
        simp at ht
      · refine ⟨p, body, a, c, dv, mm, h1, h2, ?_, h4⟩
        rw [← hfields.2.2.2.1, ← hext.config]
        exact h3
set_option maxRecDepth 1000000 in
/-- C8, counterexample. In the sample `MV93` archive with raw version `0x45B`
(human version 400) whose `mmap` entry gives the cast chunk 6 the length 5 while
its framing gives 4, the directory has a `CAS*` entry, and `readCasts` neither
appends a cast and reports success nor reports failure: the `getChunk` call
throws the framing error and `readCasts` with it. -/
theorem readCasts_single_cast_throws :
    (sampleBeforeCasts 1115 5).version < 500
    ∧ (sampleBeforeCasts 1115 5).idsOf (FOURCC 'C' 'A' 'S' '*') = [6]
    ∧ ((sampleBeforeCasts 1115 5).chunkInfo 6).map ChunkInfo.fourCC = some (FOURCC 'C' 'A' 'S' '*')
    ∧ (readCasts sampleEnv (sampleBeforeCasts 1115 5)).1
        = .error (.framing 152 (FOURCC 'C' 'A' 'S' '*') 5 (FOURCC 'C' 'A' 'S' '*') 4)
    ∧ (readCasts sampleEnv (sampleBeforeCasts 1115 5)).2.casts = [] := by
  decide

set_option maxRecDepth 1000000 in
/-- Witness of C8: the sample `MV93` archive with raw version `0x45B` (human
version 400): `readCasts` materialises the cast chunk 6 as object 4, annotates
it and appends it. -/
theorem readCasts_single_cast_witness :
    (sampleBeforeCasts 1115 4).version < 500
    ∧ (readCasts sampleEnv (sampleBeforeCasts 1115 4)).1 = .ok true
    ∧ (readCasts sampleEnv (sampleBeforeCasts 1115 4)).2.casts
        = (sampleBeforeCasts 1115 4).casts ++ [4]
    ∧ (readCasts sampleEnv (sampleBeforeCasts 1115 4)).2.heap[4]?
        = some (.cast [1, 2, 3, 4] (some { name := "Internal", id := 1024, minMember := 1 })) :=
  ⟨by decide,
    ((readCasts_single_cast sampleEnv (sampleBeforeCasts 1115 4) (by decide)).2.2.2
      (sampleCastEntry 4)
      (getFirstChunkInfo (FOURCC 'C' 'A' 'S' '*') (sampleBeforeCasts 1115 4)).2
      (Prod.ext (by decide) rfl)).2.1 4 [1, 2, 3, 4] none 3 1115 1
      (by decide) (by decide) (by decide) (by decide)⟩

/-! ## Frame properties of the table readers -/

theorem Movie.Keeps.refl (m : Movie) : m.Keeps m := ⟨rfl, fun _ => rfl⟩

theorem Movie.Keeps.trans {a b c : Movie} (h1 : a.Keeps b) (h2 : b.Keeps c) : a.Keeps c :=
  ⟨h2.codec.trans h1.codec, fun t => (h2.idsOf t).trans (h1.idsOf t)⟩

theorem Movie.Extends.keeps {m m' : Movie} (h : m.Extends m') : m.Keeps m' :=
  ⟨h.codec, fun t => by simp [Movie.idsOf, h.chunkIDsByFourCC]⟩

theorem getFirstChunkInfo_keeps (fourCC : Nat) (m : Movie) :
    m.Keeps (getFirstChunkInfo fourCC m).2 := by
  refine ⟨?_, getFirstChunkInfo_idsOf fourCC m⟩
  unfold getFirstChunkInfo
  dsimp only
  split
  · rfl
  · split <;> rfl

theorem getFirstChunkInfo_codec (fourCC : Nat) (m : Movie) :
    (getFirstChunkInfo fourCC m).2.codec = m.codec :=
  (getFirstChunkInfo_keeps fourCC m).codec

theorem readKeyTable_keeps (E : Env) (m : Movie) :
    m.Keeps (readKeyTable E m).2 ∧ (readKeyTable E m).2.casts = m.casts
    ∧ ((readKeyTable E m).1 = .ok false → m.idsOf (FOURCC 'K' 'E' 'Y' '*') = []) := by
  unfold readKeyTable
  have hk := getFirstChunkInfo_keeps (FOURCC 'K' 'E' 'Y' '*') m
  have hf := getFirstChunkInfo_fields (FOURCC 'K' 'E' 'Y' '*') m
  have hn := getFirstChunkInfo_none_iff (FOURCC 'K' 'E' 'Y' '*') m
  rcases hg : getFirstChunkInfo (FOURCC 'K' 'E' 'Y' '*') m with ⟨r, m1⟩
  rw [hg] at hk hf hn
  rcases r with _ | info
  · exact ⟨hk, hf.2.2.2.2.1, fun _ => hn.mp rfl⟩
  · simp only
    have hext := getChunk_extends E info.fourCC info.id m1
    rcases hc : getChunk E info.fourCC info.id m1 with ⟨r2, m2⟩
    rw [hc] at hext
    rcases r2 with e | p
    · exact ⟨hk.trans hext.keeps, hext.casts.trans hf.2.2.2.2.1, fun h => by simp at h⟩
    · refine ⟨hk.trans (hext.keeps.trans ⟨rfl, fun _ => rfl⟩), hext.casts.trans hf.2.2.2.2.1,
        fun h => by simp at h⟩

theorem readConfig_keeps (E : Env) (m : Movie) :
    m.Keeps (readConfig E m).2 ∧ (readConfig E m).2.casts = m.casts
    ∧ ((readConfig E m).1 = .ok false →
        m.idsOf (FOURCC 'V' 'W' 'C' 'F') = [] ∧ m.idsOf (FOURCC 'D' 'R' 'C' 'F') = []) := by
  unfold readConfig
  dsimp only
  have hk := getFirstChunkInfo_keeps (FOURCC 'V' 'W' 'C' 'F') m
  have hf := getFirstChunkInfo_fields (FOURCC 'V' 'W' 'C' 'F') m
  have hn := getFirstChunkInfo_none_iff (FOURCC 'V' 'W' 'C' 'F') m
  have htail : ∀ (info : ChunkInfo) (m1 : Movie), m.Keeps m1 → m1.casts = m.casts →
      m.Keeps (match getChunk E info.fourCC info.id m1 with
        | (.error e, m2) => (Except.error e, m2)
        | (.ok p, m2) =>
          match ({ m2 with config := some p } : Movie).heap[p]? with
          | some (.config directorVersion _) =>
            (Except.ok true, { m2 with config := some p, version := E.humanVersion directorVersion })
          | _ => (Except.error MovieError.badPointer, { m2 with config := some p })).2
      ∧ (match getChunk E info.fourCC info.id m1 with
        | (.error e, m2) => (Except.error e, m2)
        | (.ok p, m2) =>
          match ({ m2 with config := some p } : Movie).heap[p]? with
          | some (.config directorVersion _) =>
            (Except.ok true, { m2 with config := some p, version := E.humanVersion directorVersion })
          | _ => (Except.error MovieError.badPointer, { m2 with config := some p })).2.casts
        = m.casts
      ∧ ((match getChunk E info.fourCC info.id m1 with
        | (.error e, m2) => (Except.error e, m2)
        | (.ok p, m2) =>
          match ({ m2 with config := some p } : Movie).heap[p]? with
          | some (.config directorVersion _) =>
            (Except.ok true, { m2 with config := some p, version := E.humanVersion directorVersion })
          | _ => (Except.error MovieError.badPointer, { m2 with config := some p })).1
        ≠ .ok false) := by
    intro info m1 hk1 hc1
    have hext := getChunk_extends E info.fourCC info.id m1
    rcases hc : getChunk E info.fourCC info.id m1 with ⟨r2, m2⟩
    rw [hc] at hext
    rcases r2 with e | p
    · exact ⟨hk1.trans hext.keeps, hext.casts.trans hc1, by simp⟩
    · simp only
      split
      · exact ⟨hk1.trans (hext.keeps.trans ⟨rfl, fun _ => rfl⟩), hext.casts.trans hc1, by simp⟩
      · exact ⟨hk1.trans (hext.keeps.trans ⟨rfl, fun _ => rfl⟩), hext.casts.trans hc1, by simp⟩
  rcases hg : getFirstChunkInfo (FOURCC 'V' 'W' 'C' 'F') m with ⟨r, m1⟩
  rw [hg] at hk hf hn
  rcases r with _ | info
  · simp only
    have hk2 := getFirstChunkInfo_keeps (FOURCC 'D' 'R' 'C' 'F') m1
    have hf2 := getFirstChunkInfo_fields (FOURCC 'D' 'R' 'C' 'F') m1
    have hn2 := getFirstChunkInfo_none_iff (FOURCC 'D' 'R' 'C' 'F') m1
    rcases hg2 : getFirstChunkInfo (FOURCC 'D' 'R' 'C' 'F') m1 with ⟨r2, m1'⟩
    rw [hg2] at hk2 hf2 hn2
    rcases r2 with _ | info
    · refine ⟨hk.trans hk2, hf2.2.2.2.2.1.trans hf.2.2.2.2.1, fun _ => ⟨hn.mp rfl, ?_⟩⟩
      rw [← hk.idsOf]
      exact hn2.mp rfl
    · have h := htail info m1' (hk.trans hk2) (hf2.2.2.2.2.1.trans hf.2.2.2.2.1)
      exact ⟨h.1, h.2.1, fun hfalse => absurd hfalse h.2.2⟩
  · have h := htail info m1 hk hf.2.2.2.2.1
    exact ⟨h.1, h.2.1, fun hfalse => absurd hfalse h.2.2⟩
theorem populate_keeps (p : Nat) (name : String) (id : Int) (minMember : Nat) (m m' : Movie)
    (h : populate p name id minMember m = some m') :
    m.Keeps m' ∧ m'.version = m.version ∧ m'.casts = m.casts ∧ m'.keyTable = m.keyTable
    ∧ m'.deserializedChunks = m.deserializedChunks := by
  obtain ⟨body, a, _, hm⟩ := populate_some _ _ _ _ _ _ h
  subst hm
  exact ⟨⟨rfl, fun _ => rfl⟩, rfl, rfl, rfl, rfl⟩

theorem readCastsLoop_keeps (E : Env) (entries : List CastListEntry) :
    ∀ m : Movie, m.Keeps (readCastsLoop E entries m).2
      ∧ (readCastsLoop E entries m).2.version = m.version := by
  induction entries with
  | nil => intro m; exact ⟨Movie.Keeps.refl m, rfl⟩
  | cons e rest ih =>
    intro m
    unfold readCastsLoop
    split
    · rename_i rows _
      dsimp only
      split
      · have hext := getChunk_extends E (FOURCC 'C' 'A' 'S' '*')
          (findSectionID rows e.id).toNat m
        rcases hg : getChunk E (FOURCC 'C' 'A' 'S' '*') (findSectionID rows e.id).toNat m
          with ⟨r, m1⟩
        rw [hg] at hext
        rcases r with err | p
        · exact ⟨hext.keeps, hext.version⟩
        · simp only
          cases hpop : populate p e.name e.id e.minMember m1 with
          | none => exact ⟨hext.keeps, hext.version⟩
          | some m2 =>
            have hp := populate_keeps _ _ _ _ _ _ hpop
            have hk : m.Keeps { m2 with casts := m2.casts ++ [p] } :=
              hext.keeps.trans (hp.1.trans ⟨rfl, fun _ => rfl⟩)
            have h := ih { m2 with casts := m2.casts ++ [p] }
            exact ⟨hk.trans h.1, h.2.trans (hp.2.1.trans hext.version)⟩
      · exact ih m
    · exact ⟨Movie.Keeps.refl m, rfl⟩

theorem readCasts_keeps (E : Env) (m : Movie) :
    m.Keeps (readCasts E m).2 ∧ (readCasts E m).2.version = m.version := by
  unfold readCasts
  split
  · have hk := getFirstChunkInfo_keeps (FOURCC 'M' 'C' 's' 'L') m
    have hf := getFirstChunkInfo_fields (FOURCC 'M' 'C' 's' 'L') m
    rcases hg : getFirstChunkInfo (FOURCC 'M' 'C' 's' 'L') m with ⟨r, m1⟩
    rw [hg] at hk hf
    rcases r with _ | info
    · exact ⟨hk, hf.2.1⟩
    · simp only
      have hext := getChunk_extends E info.fourCC info.id m1
      rcases hc : getChunk E info.fourCC info.id m1 with ⟨r2, m2⟩
      rw [hc] at hext
      rcases r2 with e | p
      · exact ⟨hk.trans hext.keeps, hext.version.trans hf.2.1⟩
      · simp only
        split
        · rename_i entries _
          have hl := readCastsLoop_keeps E entries m2
          rcases hloop : readCastsLoop E entries m2 with ⟨r3, m3⟩
          rw [hloop] at hl
          rcases r3 with e | u
          · exact ⟨hk.trans (hext.keeps.trans hl.1), hl.2.trans (hext.version.trans hf.2.1)⟩
          · exact ⟨hk.trans (hext.keeps.trans hl.1), hl.2.trans (hext.version.trans hf.2.1)⟩
        · exact ⟨hk.trans hext.keeps, hext.version.trans hf.2.1⟩
  · have hk := getFirstChunkInfo_keeps (FOURCC 'C' 'A' 'S' '*') m
    have hf := getFirstChunkInfo_fields (FOURCC 'C' 'A' 'S' '*') m
    rcases hg : getFirstChunkInfo (FOURCC 'C' 'A' 'S' '*') m with ⟨r, m1⟩
    rw [hg] at hk hf
    rcases r with _ | info
    · exact ⟨hk, hf.2.1⟩
    · simp only
      have hext := getChunk_extends E info.fourCC info.id m1
      rcases hc : getChunk E info.fourCC info.id m1 with ⟨r2, m2⟩
      rw [hc] at hext
      rcases r2 with e | p
      · exact ⟨hk.trans hext.keeps, hext.version.trans hf.2.1⟩
      · simp only
        split
        · split
          · exact ⟨hk.trans hext.keeps, hext.version.trans hf.2.1⟩
          · rename_i m3 hpop
            have hp := populate_keeps _ _ _ _ _ _ hpop
            exact ⟨hk.trans (hext.keeps.trans (hp.1.trans ⟨rfl, fun _ => rfl⟩)),
              hp.2.1.trans (hext.version.trans hf.2.1)⟩
        · exact ⟨hk.trans hext.keeps, hext.version.trans hf.2.1⟩

/-- With human version 500 or later and no `MCsL` entry in the tag index,
`readCasts` reports failure and appends nothing. -/
theorem readCasts_no_cast_list (E : Env) (m : Movie) (hv : 500 ≤ m.version)
    (h : m.idsOf (FOURCC 'M' 'C' 's' 'L') = []) :
    (readCasts E m).1 = .ok false ∧ (readCasts E m).2.casts = m.casts := by
  unfold readCasts
  rw [if_pos hv]
  have hf := getFirstChunkInfo_fields (FOURCC 'M' 'C' 's' 'L') m
  have hn := (getFirstChunkInfo_none_iff (FOURCC 'M' 'C' 's' 'L') m).mpr h
  rcases hg : getFirstChunkInfo (FOURCC 'M' 'C' 's' 'L') m with ⟨r, m1⟩
  rw [hg] at hf hn
  simp only at hn
  subst hn
  exact ⟨rfl, hf.2.2.2.2.1⟩
/-! ## Opening a movie: the casts of an `MV93` archive -/

theorem readMemoryMapLoop_fields (arr : List MemoryMapEntry) :
    ∀ (i : Nat) (m : Movie), (readMemoryMapLoop arr i m).codec = m.codec
      ∧ (readMemoryMapLoop arr i m).casts = m.casts := by
  induction arr with
  | nil => intro i m; exact ⟨rfl, rfl⟩
  | cons e rest ih =>
    intro i m
    simp only [readMemoryMapLoop]
    have h := ih (i + 1) (addMapEntry i e m)
    have h2 : (addMapEntry i e m).codec = m.codec ∧ (addMapEntry i e m).casts = m.casts := by
      unfold addMapEntry
      split <;> exact ⟨rfl, rfl⟩
    exact ⟨h.1.trans h2.1, h.2.trans h2.2⟩

theorem readMemoryMap_fields (E : Env) (m : Movie) :
    (readMemoryMap E m).2.codec = m.codec ∧ (readMemoryMap E m).2.casts = m.casts := by
  obtain ⟨m2, hext, hcase⟩ := readMemoryMap_shape E m
  rcases hcase with ⟨e, he⟩ | ⟨arr, harr, _⟩
  · rw [he]
    exact ⟨hext.codec, hext.casts⟩
  · rw [harr]
    have h := readMemoryMapLoop_fields arr 0 m2
    exact ⟨h.1.trans hext.codec, h.2.trans hext.casts⟩

theorem abmpLoop_codec (n : Nat) :
    ∀ (s : ReadStream) (m : Movie), (abmpLoop n s m).2.codec = m.codec := by
  induction n with
  | zero => intro s m; rfl
  | succ n ih =>
    intro s m
    unfold abmpLoop
    split
    · rfl
    · rw [ih]; rfl

theorem ilsLoop_codec (fuel : Nat) :
    ∀ (s : ReadStream) (m : Movie), (ilsLoop fuel s m).2.codec = m.codec := by
  induction fuel with
  | zero => intro s m; rfl
  | succ f ih =>
    intro s m
    unfold ilsLoop
    split
    · rfl
    · split
      · rfl
      · rw [ih]
        unfold ilsStep
        dsimp only
        split <;> rfl

theorem readInitialLoadSegment_codec (E : Env) (m : Movie) :
    (readInitialLoadSegment E m).2.codec = m.codec := by
  dsimp only [readInitialLoadSegment]
  repeat' split
  all_goals first
    | rfl
    | (rename_i heq
       have h3 := congrArg Prod.snd heq
       simp only at h3
       rw [← h3]
       exact ilsLoop_codec _ _ _)

theorem readAbmp_codec (E : Env) (m : Movie) : (readAbmp E m).2.codec = m.codec := by
  dsimp only [readAbmp]
  repeat' split
  all_goals first
    | rfl
    | (rename_i heq
       have h3 := congrArg Prod.snd heq
       simp only at h3
       rw [← h3]
       first
         | exact abmpLoop_codec _ _ _
         | (rw [readInitialLoadSegment_codec]
            exact abmpLoop_codec _ _ _))

theorem readAfterburnerMap_codec (E : Env) (m : Movie) :
    (readAfterburnerMap E m).2.codec = m.codec := by
  dsimp only [readAfterburnerMap]
  repeat' split
  all_goals first
    | rfl
    | exact readAbmp_codec E _

theorem readTables_keeps (E : Env) (m : Movie) : m.Keeps (readTables E m).2 := by
  unfold readTables
  have h1 := (readKeyTable_keeps E m).1
  rcases hk : readKeyTable E m with ⟨r1, m1⟩
  rw [hk] at h1
  rcases r1 with e | b
  · exact h1
  · cases b with
    | false => exact h1
    | true =>
      simp only
      have h2 := (readConfig_keeps E m1).1
      rcases hc : readConfig E m1 with ⟨r2, m2⟩
      rw [hc] at h2
      rcases r2 with e | b
      · exact h1.trans h2
      · cases b with
        | false => exact h1.trans h2
        | true =>
          simp only
          have h3 := (readCasts_keeps E m2).1
          rcases hcast : readCasts E m2 with ⟨r3, m3⟩
          rw [hcast] at h3
          rcases r3 with e | b <;> exact h1.trans (h2.trans h3)

/-- The casts after the tail of `read`, when it ends without an exception on a
movie without casts whose tag index lists a key table, a config and a cast. -/
theorem readTables_casts (E : Env) (m : Movie) (hcasts : m.casts = [])
    (hok : (readTables E m).1 = .ok ())
    (hkey : m.idsOf (FOURCC 'K' 'E' 'Y' '*') ≠ [])
    (hcfg : m.idsOf (FOURCC 'V' 'W' 'C' 'F') ≠ [] ∨ m.idsOf (FOURCC 'D' 'R' 'C' 'F') ≠ [])
    (hcas : m.idsOf (FOURCC 'C' 'A' 'S' '*') ≠ []) :
    ((readTables E m).2.version < 500 →
        ∃ p body mm, (readTables E m).2.casts = [p]
          ∧ (readTables E m).2.heap[p]?
              = some (.cast body (some { name := "Internal", id := 1024, minMember := mm })))
    ∧ (500 ≤ (readTables E m).2.version → m.idsOf (FOURCC 'M' 'C' 's' 'L') = [] →
        (readTables E m).2.casts = []) := by
  unfold readTables at hok ⊢
  have h1 := readKeyTable_keeps E m
  rcases hk : readKeyTable E m with ⟨r1, m1⟩
  rw [hk] at h1 hok
  rcases r1 with e | b
  · simp at hok
  cases b with
  | false => exact absurd (h1.2.2 rfl) hkey
  | true =>
    simp only at hok ⊢
    have h2 := readConfig_keeps E m1
    rcases hc : readConfig E m1 with ⟨r2, m2⟩
    rw [hc] at h2 hok
    rcases r2 with e | b
    · simp at hok
    cases b with
    | false =>
      have h := h2.2.2 rfl
      rw [h1.1.idsOf, h1.1.idsOf] at h
      rcases hcfg with h' | h'
      · exact absurd h.1 h'
      · exact absurd h.2 h'
    | true =>
      simp only at hok ⊢
      have hm2casts : m2.casts = [] := by rw [h2.2.1, h1.2.1, hcasts]
      have hids : ∀ t, m2.idsOf t = m.idsOf t := fun t => (h2.1.idsOf t).trans (h1.1.idsOf t)
      have h3 := readCasts_keeps E m2
      rcases hcast : readCasts E m2 with ⟨r3, m3⟩
      rw [hcast] at h3 hok
      rcases r3 with e | b
      · simp at hok
      simp only at h3 ⊢
      constructor
      · intro hv
        rw [h3.2] at hv
        have hrc := readCasts_below_500 E m2 hv
        have hn := getFirstChunkInfo_none_iff (FOURCC 'C' 'A' 'S' '*') m2
        have hf := getFirstChunkInfo_fields (FOURCC 'C' 'A' 'S' '*') m2
        rcases hg : getFirstChunkInfo (FOURCC 'C' 'A' 'S' '*') m2 with ⟨r, m2'⟩
        rw [hg] at hrc hn hf
        rcases r with _ | info
        · have := hn.mp rfl
          rw [hids] at this
          exact absurd this hcas
        · simp only at hrc
          rw [hcast] at hrc
          rcases singleCastTail_cases E info m2' with ⟨e, he, _⟩ | ⟨_, p, body, a, c, dv, mm, g1, g2, g3, g4⟩
          · rw [← hrc] at he
            simp at he
          · have hs := singleCastTail_ok E info m2' p body a c dv mm g1 g2 g3 g4
            rw [← hrc] at hs
            simp only at hs
            refine ⟨p, body, mm, ?_, hs.2.2⟩
            rw [hs.2.1, (getChunk_extends E info.fourCC info.id m2').casts, hf.2.2.2.2.1, hm2casts]
            rfl
      · intro hv hno
        rw [h3.2] at hv
        have h := readCasts_no_cast_list E m2 hv (by rw [hids]; exact hno)
        rw [hcast] at h
        simp only at h
        rw [h.2, hm2casts]
set_option maxRecDepth 1000000 in
/-- C9, counterexample. `read` on the sample `MV93` archive, whose directory has
`KEY*`, `VWCF` and `CAS*` chunks and no `MCsL` chunk and whose config gives the
human version 500, ends without an exception and leaves `casts` empty:
`readCasts` takes the cast-list path for version 500 and finds no cast list. -/
theorem read_mv93_version_500_has_no_cast :
    (read sampleEnv (streamOf (sampleMV93 1116 4)) (Movie.fresh (streamOf []))).1 = .ok ()
    ∧ (sampleMovie 1116).codec = FOURCC 'M' 'V' '9' '3'
    ∧ (sampleMovie 1116).idsOf (FOURCC 'K' 'E' 'Y' '*') = [3]
    ∧ (sampleMovie 1116).idsOf (FOURCC 'V' 'W' 'C' 'F') = [5]
    ∧ (sampleMovie 1116).idsOf (FOURCC 'C' 'A' 'S' '*') = [6]
    ∧ (sampleMovie 1116).idsOf (FOURCC 'M' 'C' 's' 'L') = []
    ∧ (sampleMovie 1116).version = 500
    ∧ (sampleMovie 1116).casts = [] := by
  decide

/-- C9 (amended). When `read` ends without an exception on an `MV93` archive
whose tag index lists a `KEY*` chunk, a config chunk (`VWCF` or `DRCF`) and a
`CAS*` chunk, starting from a movie without casts: if the config gives a human
version below 500, `casts` has exactly one entry, whose name is "Internal" and
whose id is 1024; if it gives 500 or more and there is no `MCsL` chunk, `casts`
is empty. -/
theorem read_mv93_casts (E : Env) (s : ReadStream) (m : Movie) (hcasts : m.casts = [])
    (hok : (read E s m).1 = .ok ())
    (hcodec : (read E s m).2.codec = FOURCC 'M' 'V' '9' '3')
    (hkey : (read E s m).2.idsOf (FOURCC 'K' 'E' 'Y' '*') ≠ [])
    (hcfg : (read E s m).2.idsOf (FOURCC 'V' 'W' 'C' 'F') ≠ []
      ∨ (read E s m).2.idsOf (FOURCC 'D' 'R' 'C' 'F') ≠ [])
    (hcas : (read E s m).2.idsOf (FOURCC 'C' 'A' 'S' '*') ≠ []) :
    ((read E s m).2.version < 500 →
        ∃ p body mm, (read E s m).2.casts = [p]
          ∧ (read E s m).2.heap[p]?
              = some (.cast body (some { name := "Internal", id := 1024, minMember := mm })))
    ∧ (500 ≤ (read E s m).2.version → (read E s m).2.idsOf (FOURCC 'M' 'C' 's' 'L') = [] →
        (read E s m).2.casts = []) := by
  unfold read at hok hcodec hkey hcfg hcas ⊢
  dsimp only at hok hcodec hkey hcfg hcas ⊢
  rcases h1 : ReadStream.readUint32 { s with endianness := Endianness.kBigEndian } with ⟨r1, s1⟩
  rw [h1] at hok hcodec hkey hcfg hcas
  rcases r1 with e | metaFourCC
  · simp at hok
  simp only at hok hcodec hkey hcfg hcas ⊢
  rcases h2 : ReadStream.readInt32 (if metaFourCC = FOURCC 'X' 'F' 'I' 'R' then
      { s1 with endianness := Endianness.kLittleEndian } else s1) with ⟨r2, s3⟩
  rw [h2] at hok hcodec hkey hcfg hcas
  rcases r2 with e | len
  · simp at hok
  simp only at hok hcodec hkey hcfg hcas ⊢
  rcases h3 : s3.readUint32 with ⟨r3, s4⟩
  rw [h3] at hok hcodec hkey hcfg hcas
  rcases r3 with e | codec
  · simp at hok
  simp only at hok hcodec hkey hcfg hcas ⊢
  by_cases hmv : codec = FOURCC 'M' 'V' '9' '3'
  · rw [if_pos hmv] at hok hcodec hkey hcfg hcas ⊢
    have hmm := readMemoryMap_fields E { m with stream := s4, codec := codec }
    rcases h4 : readMemoryMap E { m with stream := s4, codec := codec } with ⟨r4, m2⟩
    rw [h4] at hok hcodec hkey hcfg hcas hmm
    rcases r4 with e | u
    · simp at hok
    simp only at hok hcodec hkey hcfg hcas hmm ⊢
    have hkeep := readTables_keeps E m2
    rw [hkeep.idsOf] at hkey hcas ⊢
    rw [hkeep.idsOf, hkeep.idsOf] at hcfg
    exact readTables_casts E m2 (hmm.2.trans hcasts) hok hkey hcfg hcas
  · rw [if_neg hmv] at hok hcodec hkey hcfg hcas ⊢
    by_cases hfg : codec = FOURCC 'F' 'G' 'D' 'M'
    · rw [if_pos hfg] at hok hcodec hkey hcfg hcas ⊢
      exfalso
      have hab := readAfterburnerMap_codec E
        { m with stream := s4, codec := codec, afterburned := true }
      rcases h4 : readAfterburnerMap E
          { m with stream := s4, codec := codec, afterburned := true } with ⟨r4, m2⟩
      rw [h4] at hok hcodec hab
      simp only at hab
      rcases r4 with e | b
      · simp at hok
      cases b with
      | false =>
        simp only at hcodec
        rw [hab] at hcodec
        exact hmv hcodec
      | true =>
        simp only at hcodec
        rw [(readTables_keeps E m2).codec, hab] at hcodec
        exact hmv hcodec
    · rw [if_neg hfg] at hok
      simp at hok

set_option maxRecDepth 1000000 in
/-- Witness of C9: `read` on the sample `MV93` archive with raw version `0x45B`
(human version 400) leaves exactly one cast, "Internal" with id 1024. -/
theorem read_mv93_casts_witness :
    (read sampleEnv (streamOf (sampleMV93 1115 4)) (Movie.fresh (streamOf []))).1 = .ok ()
    ∧ (read sampleEnv (streamOf (sampleMV93 1115 4)) (Movie.fresh (streamOf []))).2.version < 500
    ∧ ∃ p body mm,
        (read sampleEnv (streamOf (sampleMV93 1115 4)) (Movie.fresh (streamOf []))).2.casts = [p]
        ∧ (read sampleEnv (streamOf (sampleMV93 1115 4)) (Movie.fresh (streamOf []))).2.heap[p]?
            = some (.cast body (some { name := "Internal", id := 1024, minMember := mm })) :=
  ⟨by decide, by decide,
    (read_mv93_casts sampleEnv (streamOf (sampleMV93 1115 4)) (Movie.fresh (streamOf [])) rfl
      (by decide) (by decide) (by decide) (Or.inl (by decide)) (by decide)).1 (by decide)⟩

/-! ## `readCasts` with a cast list -/

theorem lastCastInfo_of_not_mem (pairs : List (CastListEntry × Nat)) (p : Nat)
    (h : p ∉ pairs.map Prod.snd) : lastCastInfo pairs p = none := by
  induction pairs with
  | nil => rfl
  | cons x rest ih =>
    obtain ⟨e, q⟩ := x
    simp only [List.map_cons, List.mem_cons, not_or] at h
    unfold lastCastInfo
    rw [ih h.2]
    simp only
    rw [if_neg (fun hq => h.1 hq.symm)]

theorem lastCastInfo_of_mem (pairs : List (CastListEntry × Nat)) (p : Nat)
    (h : p ∈ pairs.map Prod.snd) : ∃ info, lastCastInfo pairs p = some info := by
  induction pairs with
  | nil => simp at h
  | cons x rest ih =>
    obtain ⟨e, q⟩ := x
    unfold lastCastInfo
    cases hr : lastCastInfo rest p with
    | some info => exact ⟨info, rfl⟩
    | none =>
      simp only [List.map_cons, List.mem_cons] at h
      rcases h with h | h
      · subst h
        simp
      · obtain ⟨info, hinfo⟩ := ih h
        rw [hinfo] at hr
        simp at hr

theorem lastCastInfo_cons_of_some (e : CastListEntry) (q : Nat)
    (pairs : List (CastListEntry × Nat)) (p : Nat) (info : CastInfo)
    (h : lastCastInfo pairs p = some info) : lastCastInfo ((e, q) :: pairs) p = some info := by
  rw [lastCastInfo, h]

theorem lastCastInfo_cons_self (e : CastListEntry) (p : Nat)
    (pairs : List (CastListEntry × Nat)) (h : lastCastInfo pairs p = none) :
    lastCastInfo ((e, p) :: pairs) p
      = some { name := e.name, id := e.id, minMember := e.minMember } := by
  rw [lastCastInfo, h]
  simp

theorem getElem?_append_of_some {α : Type} (l l' : List α) (q : Nat) (c : α)
    (h : l[q]? = some c) : (l ++ l')[q]? = some c := by
  have hlt : q < l.length := by
    rcases Nat.lt_or_ge q l.length with h1 | h1
    · exact h1
    · rw [List.getElem?_eq_none h1] at h
      simp at h
  rw [List.getElem?_append_left hlt]
  exact h

theorem Movie.Extends.heap_of_some {m m' : Movie} (h : m.Extends m') (q : Nat) (c : Chunk)
    (hq : m.heap[q]? = some c) : m'.heap[q]? = some c := by
  obtain ⟨l, hl⟩ := h.heap
  rw [hl]
  exact getElem?_append_of_some _ _ _ _ hq

/-- The cast-list loop of `readCasts` when it ends without an exception, for a
movie whose key table is the object `kt` with the rows `rows`. It appends one
object per entry whose first matching key-table row has a positive
`sectionID`, in order; each is the object cached under that `sectionID`, and
is annotated with the data of the last entry that resolved to it. Objects the
loop does not append are left as they are, and so are the cache entries. -/
theorem readCastsLoop_ok (E : Env) (rows : List KeyTableEntry) (kt : Nat)
    (entries : List CastListEntry) :
    ∀ m : Movie, m.keyTable = some kt → m.heap[kt]? = some (.keyTable rows) →
      (readCastsLoop E entries m).1 = .ok () →
      ∃ pairs : List (CastListEntry × Nat),
        pairs.map Prod.fst = entries.filter (fun e => decide (0 < findSectionID rows e.id))
        ∧ (readCastsLoop E entries m).2.casts = m.casts ++ pairs.map Prod.snd
        ∧ (∀ x ∈ pairs, (readCastsLoop E entries m).2.deserializedChunks
              (findSectionID rows x.1.id).toNat = some x.2)
        ∧ (∀ x ∈ pairs, ∃ body, (readCastsLoop E entries m).2.heap[x.2]?
              = some (.cast body (lastCastInfo pairs x.2)))
        ∧ (∀ q c, q ∉ pairs.map Prod.snd → m.heap[q]? = some c →
              (readCastsLoop E entries m).2.heap[q]? = some c)
        ∧ (∀ id p, m.deserializedChunks id = some p →
              (readCastsLoop E entries m).2.deserializedChunks id = some p) := by
  induction entries with
  | nil =>
    intro m _ _ _
    exact ⟨[], rfl, by simp [readCastsLoop], by simp, by simp,
      fun q c _ h => h, fun id p h => h⟩
  | cons e rest ih =>
    intro m hkt hrows hok
    unfold readCastsLoop at hok ⊢
    simp only [hkt, Option.some_bind, hrows] at hok ⊢
    by_cases hsec : 0 < findSectionID rows e.id
    · rw [if_pos hsec] at hok ⊢
      have hext := getChunk_extends E (FOURCC 'C' 'A' 'S' '*') (findSectionID rows e.id).toNat m
      have hcached := getChunk_caches E (FOURCC 'C' 'A' 'S' '*')
        (findSectionID rows e.id).toNat m
      rcases hg : getChunk E (FOURCC 'C' 'A' 'S' '*') (findSectionID rows e.id).toNat m
        with ⟨r, m1⟩
      rw [hg] at hok hext hcached
      rcases r with err | p
      · simp at hok
      simp only at hok hext hcached ⊢
      have hcache1 := hcached p (by decide) (by decide) rfl
      cases hpop : populate p e.name e.id e.minMember m1 with
      | none =>
        rw [hpop] at hok
        simp at hok
      | some m2 =>
        rw [hpop] at hok
        simp only at hok ⊢
        obtain ⟨body, a, hbody, hm2⟩ := populate_some _ _ _ _ _ _ hpop
        have hkt1 : m1.heap[kt]? = some (.keyTable rows) := hext.heap_of_some kt _ hrows
        have hpkt : p ≠ kt := by
          intro h
          rw [h, hkt1] at hbody
          simp at hbody
        have hlt : p < m1.heap.length := by
          rcases Nat.lt_or_ge p m1.heap.length with h1 | h1
          · exact h1
          · rw [List.getElem?_eq_none h1] at hbody
            simp at hbody
        have hset : ∀ q, q ≠ p → m2.heap[q]? = m1.heap[q]? := by
          intro q hq
          rw [hm2]
          simp only
          rw [List.getElem?_set_ne (fun h => hq h.symm)]
        have hsetp : m2.heap[p]? = some (.cast body
            (some { name := e.name, id := e.id, minMember := e.minMember })) := by
          rw [hm2]
          exact getElem?_set_self_of_some _ _ _ _ hbody
        have hm2kt : m2.keyTable = some kt := by
          rw [hm2]
          simp only
          rw [hext.keyTable]
          exact hkt
        have hm2cache : m2.deserializedChunks = m1.deserializedChunks := by rw [hm2]
        have hm2casts : m2.casts = m.casts := by
          rw [hm2]
          exact hext.casts
        obtain ⟨pairs, hfst, hcasts, hcache, hann, hframe, hmono⟩ :=
          ih { m2 with casts := m2.casts ++ [p] } hm2kt
            (by simp only; rw [hset kt (fun h => hpkt h.symm)]; exact hkt1) hok
        refine ⟨(e, p) :: pairs, ?_, ?_, ?_, ?_, ?_, ?_⟩
        · simp only [List.map_cons, List.filter_cons, hsec, decide_True, if_true, hfst]
        · rw [hcasts]
          simp only [List.map_cons, hm2casts, List.append_assoc, List.singleton_append]
        · intro x hx
          rcases List.mem_cons.mp hx with h | h
          · subst h
            apply hmono
            simp only [hm2cache]
            exact hcache1
          · exact hcache x h
        · intro x hx
          by_cases hmem : x.2 ∈ pairs.map Prod.snd
          · obtain ⟨y, hy, hy2⟩ := List.mem_map.mp hmem
            obtain ⟨body', hb'⟩ := hann y hy
            obtain ⟨info, hinfo⟩ := lastCastInfo_of_mem pairs x.2 hmem
            refine ⟨body', ?_⟩
            rw [lastCastInfo_cons_of_some e p pairs x.2 info hinfo, ← hinfo, ← hy2]
            exact hb'
          · rcases List.mem_cons.mp hx with h | h
            · subst h
              refine ⟨body, ?_⟩
              rw [hframe p _ hmem hsetp,
                lastCastInfo_cons_self e p pairs (lastCastInfo_of_not_mem pairs p hmem)]
            · exact absurd (List.mem_map.mpr ⟨x, h, rfl⟩) hmem
        · intro q c hq hc
          simp only [List.map_cons, List.mem_cons, not_or] at hq
          apply hframe q c hq.2
          simp only
          rw [hset q hq.1]
          exact hext.heap_of_some q c hc
        · intro id q hq
          apply hmono
          simp only [hm2cache]
          exact hext.cache id q hq
    · rw [if_neg hsec] at hok ⊢
      obtain ⟨pairs, hfst, hcasts, hcache, hann, hframe, hmono⟩ := ih m hkt hrows hok
      refine ⟨pairs, ?_, hcasts, hcache, hann, hframe, hmono⟩
      simp only [List.filter_cons, hsec, decide_False, Bool.false_eq_true, if_false, hfst]
theorem readCastsLoop_skip (E : Env) (rows : List KeyTableEntry) (kt : Nat)
    (entries : List CastListEntry) (m : Movie) (hkt : m.keyTable = some kt)
    (hrows : m.heap[kt]? = some (.keyTable rows))
    (hskip : ∀ e ∈ entries, findSectionID rows e.id ≤ 0) :
    readCastsLoop E entries m = (.ok (), m) := by
  induction entries with
  | nil => rfl
  | cons e rest ih =>
    unfold readCastsLoop
    simp only [hkt, Option.some_bind, hrows]
    have h0 : ¬ 0 < findSectionID rows e.id := by
      have := hskip e (List.mem_cons_self _ _)
      omega
    rw [if_neg h0]
    exact ih (fun e' he' => hskip e' (List.mem_cons_of_mem _ he'))

set_option maxRecDepth 1000000 in
/-- C7, counterexample. In the sample `MV93` archive with a cast list, human
version 500, whose key table gives the second cast the section id 9, which is
not in the directory, `readCasts` does not succeed: `getChunk('CAS*', 9)` throws
"could not find chunk 9" and `readCasts` with it, after the first cast has been
appended. -/
theorem readCasts_cast_list_throws :
    500 ≤ (sampleBeforeCastList 9).version
    ∧ (sampleBeforeCastList 9).idsOf (FOURCC 'M' 'C' 's' 'L') = [5]
    ∧ (readCasts sampleEnv (sampleBeforeCastList 9)).1 = .error (.chunkNotFound 9)
    ∧ (readCasts sampleEnv (sampleBeforeCastList 9)).2.casts = [5] := by
  decide

/-- C7 (amended). For human version 500 or later with an `MCsL` entry in the tag
index, `readCasts` never reports failure: it reports success or stops with an
exception (of a `getChunk` call, or on an object that is not of the expected
type). With the cast list `entries` materialised and the key table `rows`: when
no entry has a first matching row (same cast id, tag `CAS*`) with a positive
`sectionID`, `readCasts` succeeds and appends nothing; and whenever it
succeeds, it has appended exactly one cast per entry that has such a row, in
cast-list order, each the object `getChunk('CAS*', sectionID)` returned (the
one cached under `sectionID`), annotated with the name, id and `minMember` of
the entry (of the last such entry, when several resolve to the same object). -/
theorem readCasts_cast_list (E : Env) (m : Movie) (hv : 500 ≤ m.version)
    (hlist : m.idsOf (FOURCC 'M' 'C' 's' 'L') ≠ []) :
    (readCasts E m).1 ≠ .ok false
    ∧ ∀ info m1 cl entries kt rows,
        getFirstChunkInfo (FOURCC 'M' 'C' 's' 'L') m = (some info, m1) →
        (getChunk E info.fourCC info.id m1).1 = .ok cl →
        (getChunk E info.fourCC info.id m1).2.heap[cl]? = some (.castList entries) →
        m.keyTable = some kt →
        (getChunk E info.fourCC info.id m1).2.heap[kt]? = some (.keyTable rows) →
        ((∀ e ∈ entries, findSectionID rows e.id ≤ 0) →
            (readCasts E m).1 = .ok true ∧ (readCasts E m).2.casts = m.casts)
        ∧ ((readCasts E m).1 = .ok true →
            ∃ pairs : List (CastListEntry × Nat),
              pairs.map Prod.fst
                  = entries.filter (fun e => decide (0 < findSectionID rows e.id))
              ∧ (readCasts E m).2.casts = m.casts ++ pairs.map Prod.snd
              ∧ (∀ x ∈ pairs, (readCasts E m).2.deserializedChunks
                    (findSectionID rows x.1.id).toNat = some x.2)
              ∧ (∀ x ∈ pairs, ∃ body, (readCasts E m).2.heap[x.2]?
                    = some (.cast body (lastCastInfo pairs x.2)))) := by
  have hf := getFirstChunkInfo_fields (FOURCC 'M' 'C' 's' 'L') m
  have hn := getFirstChunkInfo_none_iff (FOURCC 'M' 'C' 's' 'L') m
  have hrc : readCasts E m
      = match getFirstChunkInfo (FOURCC 'M' 'C' 's' 'L') m with
        | (some info, m1) =>
          match getChunk E info.fourCC info.id m1 with
          | (.error e, m2) => (.error e, m2)
          | (.ok castList, m2) =>
            match m2.heap[castList]? with
            | some (.castList entries) =>
              match readCastsLoop E entries m2 with
              | (.error e, m3) => (.error e, m3)
              | (.ok _, m3) => (.ok true, m3)
            | _ => (.error .badPointer, m2)
        | (none, m1) => (.ok false, m1) := by
    unfold readCasts
    rw [if_pos hv]
  constructor
  · rw [hrc]
    rcases hg : getFirstChunkInfo (FOURCC 'M' 'C' 's' 'L') m with ⟨r, m1⟩
    rw [hg] at hn
    rcases r with _ | info
    · exact absurd (hn.mp rfl) hlist
    · simp only
      rcases hc : getChunk E info.fourCC info.id m1 with ⟨r2, m2⟩
      rcases r2 with e | cl
      · simp
      · simp only
        split
        · split <;> simp
        · simp
  · intro info m1 cl entries kt rows hg hcl hentries hkt hrows
    rw [hg] at hf
    simp only at hf
    have hext := getChunk_extends E info.fourCC info.id m1
    rw [hrc, hg]
    simp only
    rcases hc : getChunk E info.fourCC info.id m1 with ⟨r2, m2⟩
    rw [hc] at hcl hentries hrows hext
    simp only at hcl hentries hrows hext
    subst hcl
    simp only [hentries]
    have hkt2 : m2.keyTable = some kt := by
      rw [hext.keyTable, hf.2.2.1]
      exact hkt
    have hcasts2 : m2.casts = m.casts := by
      rw [hext.casts, hf.2.2.2.2.1]
    constructor
    · intro hskip
      rw [readCastsLoop_skip E rows kt entries m2 hkt2 hrows hskip]
      exact ⟨rfl, hcasts2⟩
    · intro htrue
      have hloop := readCastsLoop_ok E rows kt entries m2 hkt2 hrows
      rcases hl : readCastsLoop E entries m2 with ⟨r3, m3⟩
      rw [hl] at hloop htrue
      rcases r3 with e | u
      · simp at htrue
      · obtain ⟨pairs, h1, h2, h3, h4, _, _⟩ := hloop rfl
        refine ⟨pairs, h1, ?_, h3, h4⟩
        simp only at h2 ⊢
        rw [h2, hcasts2]

set_option maxRecDepth 1000000 in
/-- Witness of C7: the sample `MV93` archive with a cast list whose key table
gives the second cast the section id 0: `readCasts` succeeds and appends one
cast, for the first entry only. -/
theorem readCasts_cast_list_witness :
    500 ≤ (sampleBeforeCastList 0).version
    ∧ (sampleBeforeCastList 0).idsOf (FOURCC 'M' 'C' 's' 'L') ≠ []
    ∧ (readCasts sampleEnv (sampleBeforeCastList 0)).1 = .ok true
    ∧ ∃ pairs : List (CastListEntry × Nat),
        pairs.map Prod.fst
            = sampleCastEntries.filter (fun e => decide (0 < findSectionID (sampleKeyRows 0) e.id))
        ∧ (readCasts sampleEnv (sampleBeforeCastList 0)).2.casts
            = (sampleBeforeCastList 0).casts ++ pairs.map Prod.snd
        ∧ (∀ x ∈ pairs, (readCasts sampleEnv (sampleBeforeCastList 0)).2.deserializedChunks
              (findSectionID (sampleKeyRows 0) x.1.id).toNat = some x.2)
        ∧ (∀ x ∈ pairs, ∃ body, (readCasts sampleEnv (sampleBeforeCastList 0)).2.heap[x.2]?
              = some (.cast body (lastCastInfo pairs x.2))) :=
  ⟨by decide, by decide, by decide,
    (((readCasts_cast_list sampleEnv (sampleBeforeCastList 0) (by decide) (by decide)).2
      sampleCastListEntry
      (getFirstChunkInfo (FOURCC 'M' 'C' 's' 'L') (sampleBeforeCastList 0)).2
      4 sampleCastEntries 2 (sampleKeyRows 0)
      (Prod.ext (by decide) rfl) (by decide) (by decide) (by decide) (by decide)).2 (by decide))⟩

/-! ## Unknown chunks -/

/-- C16: for an id that is neither in the materialised-chunk cache nor in the
directory, `getChunk` fails with the unknown-chunk error whatever the tag, and
the state it leaves is the state it found: the directory (no entry has been
created for `id`), the tag index, both caches and the stream with its position. -/
theorem getChunk_unknown_is_atomic (E : Env) (fourCC id : Nat) (m : Movie)
    (hcache : m.deserializedChunks id = none) (hdir : m.chunkInfo id = none) :
    getChunk E fourCC id m = (.error (.chunkNotFound id), m) ∧
      (getChunk E fourCC id m).2.chunkInfo id = none := by
  have h : getChunk E fourCC id m = (.error (.chunkNotFound id), m) := by
    unfold getChunk
    rw [hcache, hdir]
  exact ⟨h, by rw [h]; exact hdir⟩

set_option maxRecDepth 1000000 in
/-- Witness of C16: id 99 of the movie opened from the sample archive, asked
for under the tag of the key table. -/
theorem getChunk_unknown_is_atomic_witness :
    (sampleMovie 1115).deserializedChunks 99 = none ∧ (sampleMovie 1115).chunkInfo 99 = none ∧
      getChunk sampleEnv (FOURCC 'K' 'E' 'Y' '*') 99 (sampleMovie 1115)
        = (.error (.chunkNotFound 99), sampleMovie 1115) :=
  ⟨by decide, by decide,
    (getChunk_unknown_is_atomic sampleEnv (FOURCC 'K' 'E' 'Y' '*') 99 (sampleMovie 1115)
      (by decide) (by decide)).1⟩

/-! ## The dispatch of `makeChunk` -/

theorem readConfig_eq (E : Env) (m : Movie) :
    readConfig E m =
      match getFirstChunkInfo (FOURCC 'V' 'W' 'C' 'F') m with
      | (some info, m1) => configTail E info m1
      | (none, m1) =>
        match getFirstChunkInfo (FOURCC 'D' 'R' 'C' 'F') m1 with
        | (some info, m2) => configTail E info m2
        | (none, m2) => (.ok false, m2) := by
  unfold readConfig configTail
  dsimp only
  rcases getFirstChunkInfo (FOURCC 'V' 'W' 'C' 'F') m with ⟨r, m1⟩
  rcases r with _ | info <;> rfl

theorem getFirstChunkInfo_of_cons (tag : Nat) (m : Movie) (i : Nat) (rest : List Nat)
    (h : m.idsOf tag = i :: rest) :
    getFirstChunkInfo tag m
      = (some ((m.chunkInfo i).getD ChunkInfo.zero), (getFirstChunkInfo tag m).2) := by
  have h1 := getFirstChunkInfo_fst tag m
  rw [h] at h1
  exact Prod.ext h1 rfl

theorem getFirstChunkInfo_of_nil (tag : Nat) (m : Movie) (h : m.idsOf tag = []) :
    getFirstChunkInfo tag m = (none, (getFirstChunkInfo tag m).2) :=
  Prod.ext ((getFirstChunkInfo_none_iff tag m).mpr h) rfl

theorem configTail_ok (E : Env) (info : ChunkInfo) (m1 : Movie)
    (h : (configTail E info m1).1 = .ok true) :
    ∃ p dv mm, (getChunk E info.fourCC info.id m1).1 = .ok p
      ∧ (configTail E info m1).2.config = some p
      ∧ (configTail E info m1).2.heap[p]? = some (.config dv mm)
      ∧ (configTail E info m1).2.version = E.humanVersion dv := by
  unfold configTail at h ⊢
  rcases hg : getChunk E info.fourCC info.id m1 with ⟨r, m2⟩
  rw [hg] at h
  rcases r with e | p
  · cases h
  · dsimp only at h ⊢
    rcases hh : (m2.heap[p]? : Option Chunk) with _ | c
    · rw [hh] at h
      cases h
    · rw [hh] at h
      cases c <;> first | exact ⟨p, _, _, rfl, rfl, hh, rfl⟩ | cases h

theorem configTail_ne_false (E : Env) (info : ChunkInfo) (m1 : Movie) :
    (configTail E info m1).1 ≠ .ok false := by
  unfold configTail
  rcases getChunk E info.fourCC info.id m1 with ⟨r, m2⟩
  rcases r with e | p
  · intro h
    cases h
  · dsimp only
    rcases (m2.heap[p]? : Option Chunk) with _ | c
    · intro h
      cases h
    · cases c <;> (intro h; cases h)

/-! ## `getChunk` in an afterburned archive -/

theorem makeChunk_stream_cache (E : Env) (fourCC : Nat) (cs : ReadStream) (m : Movie) :
    (makeChunk E fourCC cs m).2.stream = m.stream
    ∧ (makeChunk E fourCC cs m).2.deserializedChunks = m.deserializedChunks := by
  unfold makeChunk
  dsimp only
  repeat' split
  all_goals exact ⟨rfl, rfl⟩

/-- The tail of `getChunk`: the entry into the materialised-chunk cache. -/
theorem getChunk_afterburned_eq (E : Env) (id : Nat) (m : Movie) (info : ChunkInfo)
    (haft : m.afterburned = true) (hcache : m.deserializedChunks id = none)
    (hdir : m.chunkInfo id = some info) (hraw : m.cachedChunkData id = none) :
    getChunk E info.fourCC id m =
      match (m.stream.seek ((info.offset + m.ilsBodyOffset) % 4294967296)).readZlibBytes
          E.uncompress info.len info.uncompressedLen with
      | (.error e, s1) => (.error e, { m with stream := s1 })
      | (.ok (none, _), s1) => (.error (.uncompressFailed id), { m with stream := s1 })
      | (.ok (some cs, actualUncompLength), s1) =>
        if info.uncompressedLen ≠ actualUncompLength then
          (.error (.uncompressedLength id info.uncompressedLen actualUncompLength),
            { m with stream := s1 })
        else
          match makeChunk E info.fourCC cs { m with stream := s1 } with
          | (.error e, m1) => (.error e, m1)
          | (.ok p, m1) =>
            if info.fourCC ≠ FOURCC 'i' 'm' 'a' 'p' ∧ info.fourCC ≠ FOURCC 'm' 'm' 'a' 'p' then
              (.ok p, { m1 with deserializedChunks := mapSet m1.deserializedChunks id p })
            else (.ok p, m1) := by
  unfold getChunk
  rw [hcache]
  dsimp only
  rw [hdir]
  dsimp only
  rw [if_neg (not_not.mpr rfl), hraw]
  dsimp only
  rw [if_pos haft]
  rcases (m.stream.seek ((info.offset + m.ilsBodyOffset) % 4294967296)).readZlibBytes
    E.uncompress info.len info.uncompressedLen with ⟨r, s1⟩
  rcases r with e | ⟨o, a⟩
  · rfl
  · rcases o with _ | cs
    · rfl
    · dsimp only
      by_cases hl : info.uncompressedLen = a
      · rw [if_neg (not_not.mpr hl), if_neg (not_not.mpr hl)]
      · rw [if_pos hl, if_pos hl]

theorem getChunk_rawCached_eq (E : Env) (id : Nat) (m : Movie) (info : ChunkInfo)
    (data : List Nat) (hcache : m.deserializedChunks id = none)
    (hdir : m.chunkInfo id = some info) (hraw : m.cachedChunkData id = some data) :
    getChunk E info.fourCC id m =
      match makeChunk E info.fourCC
          { data := data, pos := 0, endianness := m.stream.endianness } m with
      | (.error e, m1) => (.error e, m1)
      | (.ok p, m1) =>
        if info.fourCC ≠ FOURCC 'i' 'm' 'a' 'p' ∧ info.fourCC ≠ FOURCC 'm' 'm' 'a' 'p' then
          (.ok p, { m1 with deserializedChunks := mapSet m1.deserializedChunks id p })
        else (.ok p, m1) := by
  unfold getChunk
  rw [hcache]
  dsimp only
  rw [hdir]
  dsimp only
  rw [if_neg (not_not.mpr rfl), hraw]

/-- C18: `getChunk` on an afterburned archive, for an id of the directory that
is not in the materialised-chunk cache, asked for under the tag of its entry.
When the id is not in the raw cache either, the stream is moved to
`offset + _ilsBodyOffset` and `len` bytes are inflated from there (the stream
ends behind them); the call succeeds only if the inflate returned data whose
length is `uncompressedLen`; a failed inflate and a length mismatch each raise
their error; and no error adds anything to the materialised-chunk cache. When
the id is in the raw cache, the chunk is made from the cached bytes and the
stream is neither moved nor read. The position `ilsTarget` is the sum
`offset + _ilsBodyOffset` whenever that sum is below `2 ^ 32`. -/
theorem getChunk_afterburned (E : Env) (id : Nat) (m : Movie) (info : ChunkInfo)
    (haft : m.afterburned = true) (hcache : m.deserializedChunks id = none)
    (hdir : m.chunkInfo id = some info) :
    (m.cachedChunkData id = none →
      (getChunk E info.fourCC id m).2.stream
          = { m.stream with pos := ilsTarget m info + info.len }
      ∧ (∀ p, (getChunk E info.fourCC id m).1 = .ok p →
          ∃ out, E.uncompress (storedBytes m info) info.uncompressedLen = some out
            ∧ out.length = info.uncompressedLen
            ∧ (makeChunk E info.fourCC
                { data := out, pos := 0, endianness := m.stream.endianness }
                { m with stream := { m.stream with pos := ilsTarget m info + info.len } }).1
              = .ok p)
      ∧ (ilsTarget m info + info.len ≤ m.stream.data.length →
          E.uncompress (storedBytes m info) info.uncompressedLen = none →
          (getChunk E info.fourCC id m).1 = .error (.uncompressFailed id))
      ∧ (∀ out, ilsTarget m info + info.len ≤ m.stream.data.length →
          E.uncompress (storedBytes m info) info.uncompressedLen = some out →
          out.length ≠ info.uncompressedLen →
          (getChunk E info.fourCC id m).1
            = .error (.uncompressedLength id info.uncompressedLen out.length))
      ∧ (∀ e, (getChunk E info.fourCC id m).1 = .error e →
          (getChunk E info.fourCC id m).2.deserializedChunks = m.deserializedChunks))
    ∧ (∀ data, m.cachedChunkData id = some data →
        (getChunk E info.fourCC id m).2.stream = m.stream
        ∧ (getChunk E info.fourCC id m).1
            = (makeChunk E info.fourCC
                { data := data, pos := 0, endianness := m.stream.endianness } m).1
        ∧ (getChunk E info.fourCC id m).2.heap
            = (makeChunk E info.fourCC
                { data := data, pos := 0, endianness := m.stream.endianness } m).2.heap)
    ∧ (info.offset + m.ilsBodyOffset < 4294967296 →
        ilsTarget m info = info.offset + m.ilsBodyOffset) := by
  refine ⟨fun hraw => ?_, fun data hraw => ?_, fun hlt => Nat.mod_eq_of_lt hlt⟩
  · have heq := getChunk_afterburned_eq E id m info haft hcache hdir hraw
    unfold ReadStream.readZlibBytes ReadStream.seek at heq
    dsimp only at heq
    unfold storedBytes ilsTarget
    by_cases hlen : m.stream.data.length < (info.offset + m.ilsBodyOffset) % 4294967296 + info.len
    · rw [if_pos hlen] at heq
      rw [heq]
      refine ⟨rfl, ?_, ?_, ?_, ?_⟩
      · intro p hp
        cases hp
      · intro h
        omega
      · intro out h
        omega
      · intro e _
        rfl
    · rw [if_neg hlen] at heq
      rcases hu : E.uncompress
          ((m.stream.data.drop ((info.offset + m.ilsBodyOffset) % 4294967296)).take info.len)
          info.uncompressedLen with _ | out
      · rw [hu] at heq
        dsimp only at heq
        rw [heq]
        refine ⟨rfl, ?_, ?_, ?_, ?_⟩
        · intro p hp
          cases hp
        · intro _ _
          rfl
        · intro out _ h
          cases h
        · intro e _
          rfl
      · rw [hu] at heq
        dsimp only at heq
        by_cases hl : info.uncompressedLen = out.length
        · rw [if_neg (not_not.mpr hl)] at heq
          have hmk := makeChunk_stream_cache E info.fourCC
            { data := out, pos := 0, endianness := m.stream.endianness }
            { m with stream := { m.stream with
                pos := (info.offset + m.ilsBodyOffset) % 4294967296 + info.len } }
          rcases hm : makeChunk E info.fourCC
            { data := out, pos := 0, endianness := m.stream.endianness }
            { m with stream := { m.stream with
                pos := (info.offset + m.ilsBodyOffset) % 4294967296 + info.len } } with ⟨r, m1⟩
          rw [hm] at heq hmk
          rcases r with e | p
          · dsimp only at heq
            rw [heq]
            refine ⟨hmk.1, ?_, ?_, ?_, ?_⟩
            · intro p hp
              cases hp
            · intro _ h
              cases h
            · intro out2 _ h hne
              cases h
              exact absurd hl.symm hne
            · intro e _
              exact hmk.2
          · dsimp only at heq
            by_cases hmap : info.fourCC ≠ FOURCC 'i' 'm' 'a' 'p'
                ∧ info.fourCC ≠ FOURCC 'm' 'm' 'a' 'p'
            · rw [if_pos hmap] at heq
              rw [heq]
              refine ⟨hmk.1, ?_, ?_, ?_, ?_⟩
              · intro q hq
                exact ⟨out, rfl, hl.symm, (congrArg Prod.fst hm).trans hq⟩
              · intro _ h
                cases h
              · intro out2 _ h hne
                cases h
                exact absurd hl.symm hne
              · intro e h
                cases h
            · rw [if_neg hmap] at heq
              rw [heq]
              refine ⟨hmk.1, ?_, ?_, ?_, ?_⟩
              · intro q hq
                exact ⟨out, rfl, hl.symm, (congrArg Prod.fst hm).trans hq⟩
              · intro _ h
                cases h
              · intro out2 _ h hne
                cases h
                exact absurd hl.symm hne
              · intro e h
                cases h
        · rw [if_pos hl] at heq
          rw [heq]
          refine ⟨rfl, ?_, ?_, ?_, ?_⟩
          · intro p hp
            cases hp
          · intro _ h
            cases h
          · intro out2 _ h _
            cases h
            rfl
          · intro e _
            rfl
  · have heq := getChunk_rawCached_eq E id m info data hcache hdir hraw
    have hmk := makeChunk_stream_cache E info.fourCC
      { data := data, pos := 0, endianness := m.stream.endianness } m
    rcases hm : makeChunk E info.fourCC
      { data := data, pos := 0, endianness := m.stream.endianness } m with ⟨r, m1⟩
    rw [hm] at heq hmk
    rcases r with e | p
    · dsimp only at heq
      rw [heq]
      exact ⟨hmk.1, rfl, rfl⟩
    · dsimp only at heq
      by_cases hmap : info.fourCC ≠ FOURCC 'i' 'm' 'a' 'p'
          ∧ info.fourCC ≠ FOURCC 'm' 'm' 'a' 'p'
      · rw [if_pos hmap] at heq
        rw [heq]
        exact ⟨hmk.1, rfl, rfl⟩
      · rw [if_neg hmap] at heq
        rw [heq]
        exact ⟨hmk.1, rfl, rfl⟩

set_option maxRecDepth 1000000 in
/-- Witness of C18: resource 5 of the sample `FGDM` archive (the config, not in
the initial load segment) is read at `13 + _ilsBodyOffset`. -/
theorem getChunk_afterburned_witness :
    sampleAfterburnedMap.afterburned = true
    ∧ sampleAfterburnedMap.deserializedChunks 5 = none
    ∧ sampleAfterburnedMap.chunkInfo 5 = some sampleConfigInfo
    ∧ sampleAfterburnedMap.cachedChunkData 5 = none
    ∧ (getChunk sampleEnv sampleConfigInfo.fourCC 5 sampleAfterburnedMap).2.stream
        = { sampleAfterburnedMap.stream with
            pos := ilsTarget sampleAfterburnedMap sampleConfigInfo + sampleConfigInfo.len } :=
  ⟨by decide, by decide, by decide, by decide,
    ((getChunk_afterburned sampleEnv 5 sampleAfterburnedMap sampleConfigInfo
      (by decide) (by decide) (by decide)).1 (by decide)).1⟩

/-! ## The `Fver` block of `readAfterburnerMap` -/

theorem readAfterburnerMap_eq_readFver (E : Env) (m : Movie) :
    readAfterburnerMap E m =
      match readFver m.stream with
      | (.error e, s) => (.error e, { m with stream := s })
      | (.ok false, s) => (.ok false, { m with stream := s })
      | (.ok true, s) => readFcdr E { m with stream := s } := by
  unfold readAfterburnerMap readFver readFcdr
  dsimp only
  rcases m.stream.readUint32 with ⟨r1, s1⟩
  rcases r1 with e | fver
  · rfl
  dsimp only
  by_cases hf : fver = FOURCC 'F' 'v' 'e' 'r'
  swap
  · rw [if_pos hf, if_pos hf]
  rw [if_neg (not_not.mpr hf), if_neg (not_not.mpr hf)]
  rcases s1.readVarInt with ⟨r2, s2⟩
  rcases r2 with e | fverLength
  · rfl
  dsimp only
  rcases s2.readVarInt with ⟨r3, s3⟩
  rcases r3 with e | v
  · rfl
  dsimp only
  by_cases hl : (s3.pos % 4294967296 + 4294967296 - s2.pos % 4294967296) % 4294967296 = fverLength
  · rw [if_neg (not_not.mpr hl), if_neg (not_not.mpr hl)]
  · rw [if_pos hl, if_pos hl]

/-- When no position passes `2 ^ 32`, the `Fcdr` marker is read at
`start + fverLength`, whatever number of bytes the version varint consumed. -/
theorem readFver_position (s s1 s2 s3 : ReadStream) (fverLength v : Nat)
    (h1 : s.readUint32 = (.ok (FOURCC 'F' 'v' 'e' 'r'), s1))
    (h2 : s1.readVarInt = (.ok fverLength, s2)) (h3 : s2.readVarInt = (.ok v, s3))
    (hend : s3.pos < 4294967296) (hsum : s2.pos + fverLength < 4294967296) :
    readFver s = (.ok true, { s3 with pos := s2.pos + fverLength })
    ∧ (s3.pos - s2.pos = fverLength → readFver s = (.ok true, s3)) := by
  have hle := (readVarInt_ok s2 s3 v h3).2
  have hs2 : s2.pos % 4294967296 = s2.pos := Nat.mod_eq_of_lt (by omega)
  have hs3 : s3.pos % 4294967296 = s3.pos := Nat.mod_eq_of_lt hend
  have hd : (s3.pos + 4294967296 - s2.pos) % 4294967296 = s3.pos - s2.pos := by omega
  have key : readFver s =
      if s3.pos - s2.pos ≠ fverLength then (.ok true, s3.seek (s2.pos + fverLength))
      else (.ok true, s3) := by
    unfold readFver
    rw [h1]
    dsimp only
    rw [if_neg (not_not.mpr rfl), h2]
    dsimp only
    rw [h3]
    dsimp only
    rw [hs2, hs3, hd, Nat.mod_eq_of_lt hsum]
  constructor
  · rw [key]
    by_cases hc : s3.pos - s2.pos = fverLength
    · rw [if_neg (not_not.mpr hc)]
      have : s3.pos = s2.pos + fverLength := by omega
      rw [← this]
    · rw [if_pos hc]
      rfl
  · intro hc
    rw [key, if_neg (not_not.mpr hc)]

set_option maxRecDepth 1000000 in
/-- C19 fails on the sample archive whose `Fver` block declares the length
`2 ^ 32 - 17`: `start` is 21 and the version varint consumes one byte, yet the
`Fcdr` marker is read at position 4, which is `start + fverLength` reduced
modulo `2 ^ 32`, and not at `start + fverLength = 4294967300`, a position far
behind the end of the 155 bytes. The bytes at 4 spell `Fcdr`, and the archive
opens: key table, config and one cast are read. -/
theorem readAfterburnerMap_fver_seek_wraps :
    sampleFverWrap.length = 155
    ∧ ((streamOf sampleFverWrap).seek 16).readVarInt
        = (.ok 4294967279, (streamOf sampleFverWrap).seek 21)
    ∧ readFver ((streamOf sampleFverWrap).seek 12) = (.ok true, (streamOf sampleFverWrap).seek 4)
    ∧ (read sampleEnv (streamOf sampleFverWrap) (Movie.fresh (streamOf []))).1 = .ok ()
    ∧ (read sampleEnv (streamOf sampleFverWrap) (Movie.fresh (streamOf []))).2.casts.length = 1 := by
  refine ⟨by decide, by decide, by decide, by decide, by decide⟩

/-! ## Declared and inflated lengths in `readAfterburnerMap` -/

/-- What `readAbmp` does once the inflate of the `ABMP` block has returned the
stream `abmpStream`, whatever length `actual` it reported. -/
theorem readAbmp_of_inflated (E : Env) (m : Movie) (s1 s2 s3 s4 s5 abmpStream : ReadStream)
    (abmpLength compressionType declared actual : Nat)
    (h1 : m.stream.readUint32 = (.ok (FOURCC 'A' 'B' 'M' 'P'), s1))
    (h2 : s1.readVarInt = (.ok abmpLength, s2))
    (h3 : s2.readVarInt = (.ok compressionType, s3))
    (h4 : s3.readVarInt = (.ok declared, s4))
    (h5 : s4.readZlibBytes E.uncompress
        (((s2.pos + abmpLength) % 4294967296 + 18446744073709551616
            - s4.pos % 18446744073709551616) % 18446744073709551616) declared
      = (.ok (some abmpStream, actual), s5)) :
    readAbmp E m = afterAbmpInflate E abmpStream { m with stream := s5 } := by
  unfold readAbmp
  rw [h1]
  dsimp only
  rw [if_neg (not_not.mpr rfl), h2]
  dsimp only
  rw [h3]
  dsimp only
  rw [h4]
  dsimp only
  rw [h5]
  rfl

/-- What `readInitialLoadSegment` does once the inflate of the segment has
returned the stream `ilsStream`, whatever length `actual` it reported. -/
theorem readInitialLoadSegment_of_inflated (E : Env) (m : Movie) (ilsInfo : ChunkInfo)
    (s1 s2 s3 ilsStream : ReadStream) (unk actual : Nat)
    (h0 : m.chunkInfo 2 = some ilsInfo)
    (h1 : m.stream.readUint32 = (.ok (FOURCC 'F' 'G' 'E' 'I'), s1))
    (h2 : s1.readVarInt = (.ok unk, s2))
    (h3 : s2.readZlibBytes E.uncompress ilsInfo.len ilsInfo.uncompressedLen
      = (.ok (some ilsStream, actual), s3)) :
    readInitialLoadSegment E m
      = afterIlsInflate ilsStream { m with stream := s3, ilsBodyOffset := s2.pos % 4294967296 } := by
  unfold readInitialLoadSegment
  rw [h0]
  dsimp only
  rw [h1]
  dsimp only
  rw [if_neg (not_not.mpr rfl), h2]
  dsimp only
  rw [h3]
  rfl

/-- C15: in `readAfterburnerMap` the length an inflate reports is never
compared with the declared length to any effect. Whenever the inflate of the
`ABMP` block returns a stream, the run continues on that stream with the
resource loop and the initial load segment, and whenever the inflate of the
initial load segment returns a stream, the run continues with the segment
loop: the directory, the raw cache and the result are those of the
continuation, for every reported length `actual`, equal to the declared one
or not. -/
theorem readAfterburnerMap_ignores_inflated_length (E : Env) (m : Movie) :
    (∀ (s1 s2 s3 s4 s5 abmpStream : ReadStream)
        (abmpLength compressionType declared actual : Nat),
        m.stream.readUint32 = (.ok (FOURCC 'A' 'B' 'M' 'P'), s1) →
        s1.readVarInt = (.ok abmpLength, s2) →
        s2.readVarInt = (.ok compressionType, s3) →
        s3.readVarInt = (.ok declared, s4) →
        s4.readZlibBytes E.uncompress
            (((s2.pos + abmpLength) % 4294967296 + 18446744073709551616
                - s4.pos % 18446744073709551616) % 18446744073709551616) declared
          = (.ok (some abmpStream, actual), s5) →
        readAbmp E m = afterAbmpInflate E abmpStream { m with stream := s5 })
    ∧ (∀ (ilsInfo : ChunkInfo) (s1 s2 s3 ilsStream : ReadStream) (unk actual : Nat),
        m.chunkInfo 2 = some ilsInfo →
        m.stream.readUint32 = (.ok (FOURCC 'F' 'G' 'E' 'I'), s1) →
        s1.readVarInt = (.ok unk, s2) →
        s2.readZlibBytes E.uncompress ilsInfo.len ilsInfo.uncompressedLen
          = (.ok (some ilsStream, actual), s3) →
        readInitialLoadSegment E m
          = afterIlsInflate ilsStream
              { m with stream := s3, ilsBodyOffset := s2.pos % 4294967296 }) :=
  ⟨fun s1 s2 s3 s4 s5 abmpStream abmpLength compressionType declared actual h1 h2 h3 h4 h5 =>
      readAbmp_of_inflated E m s1 s2 s3 s4 s5 abmpStream abmpLength compressionType declared
        actual h1 h2 h3 h4 h5,
    fun ilsInfo s1 s2 s3 ilsStream unk actual h0 h1 h2 h3 =>
      readInitialLoadSegment_of_inflated E m ilsInfo s1 s2 s3 ilsStream unk actual h0 h1 h2 h3⟩

set_option maxRecDepth 1000000 in
/-- Witness of C15: an `ABMP` block that declares 100 bytes and inflates to 39,
with an initial load segment that declares 20 bytes and inflates to 13. The
map parser succeeds and the directory and the raw cache are filled. -/
theorem readAfterburnerMap_ignores_inflated_length_witness :
    sampleAtAbmp.stream.readUint32
        = (.ok (FOURCC 'A' 'B' 'M' 'P'), sampleAtAbmp.stream.seek 27)
    ∧ (sampleAtAbmp.stream.seek 27).readVarInt = (.ok 41, sampleAtAbmp.stream.seek 28)
    ∧ (sampleAtAbmp.stream.seek 28).readVarInt = (.ok 0, sampleAtAbmp.stream.seek 29)
    ∧ (sampleAtAbmp.stream.seek 29).readVarInt = (.ok 100, sampleAtAbmp.stream.seek 30)
    ∧ (sampleAtAbmp.stream.seek 30).readZlibBytes sampleEnv.uncompress
          (((28 + 41) % 4294967296 + 18446744073709551616
              - 30 % 18446744073709551616) % 18446744073709551616) 100
        = (.ok (some (streamOf (((sampleFGDMDeclared 100 20).drop 30).take 39)), 39),
            sampleAtAbmp.stream.seek 69)
    ∧ readAbmp sampleEnv sampleAtAbmp
        = afterAbmpInflate sampleEnv (streamOf (((sampleFGDMDeclared 100 20).drop 30).take 39))
            { sampleAtAbmp with stream := sampleAtAbmp.stream.seek 69 }
    ∧ (readAbmp sampleEnv sampleAtAbmp).1 = .ok true
    ∧ (readAbmp sampleEnv sampleAtAbmp).2.chunkInfo 5 = some sampleConfigInfo
    ∧ ((readAbmp sampleEnv sampleAtAbmp).2.cachedChunkData 3).isSome = true :=
  ⟨by decide, by decide, by decide, by decide, by decide,
    (readAfterburnerMap_ignores_inflated_length sampleEnv sampleAtAbmp).1
      (sampleAtAbmp.stream.seek 27) (sampleAtAbmp.stream.seek 28) (sampleAtAbmp.stream.seek 29)
      (sampleAtAbmp.stream.seek 30) (sampleAtAbmp.stream.seek 69)
      (streamOf (((sampleFGDMDeclared 100 20).drop 30).take 39)) 41 0 100 39
      (by decide) (by decide) (by decide) (by decide) (by decide),
    by decide, by decide, by decide⟩

/-! ## Frame properties of the afterburner map parser -/

theorem Movie.SameTables.unchanged (m : Movie) : m.SameTables m :=
  ⟨rfl, rfl, rfl, rfl, rfl, rfl, rfl, rfl, rfl⟩

theorem Movie.SameTables.step {m m1 m2 : Movie} (h1 : m.SameTables m1) (h2 : m1.SameTables m2) :
    m.SameTables m2 :=
  ⟨h2.codec.trans h1.codec, h2.afterburned.trans h1.afterburned, h2.version.trans h1.version,
    h2.capitalX.trans h1.capitalX, h2.keyTable.trans h1.keyTable, h2.config.trans h1.config,
    h2.casts.trans h1.casts, h2.deserializedChunks.trans h1.deserializedChunks,
    h2.heap.trans h1.heap⟩

theorem Movie.SameTables.after {m m1 m2 : Movie} (h2 : m1.SameTables m2)
    (h1 : m.SameTables m1) : m.SameTables m2 :=
  Movie.SameTables.step h1 h2

theorem abmpLoop_sameTables (n : Nat) :
    ∀ (s : ReadStream) (m : Movie), m.SameTables (abmpLoop n s m).2 := by
  induction n with
  | zero => intro s m; exact Movie.SameTables.unchanged m
  | succ n ih =>
    intro s m
    unfold abmpLoop
    split
    · exact Movie.SameTables.unchanged m
    · exact Movie.SameTables.after (ih _ _) ⟨rfl, rfl, rfl, rfl, rfl, rfl, rfl, rfl, rfl⟩

theorem ilsStep_sameTables (resId : Nat) (s : ReadStream) (m : Movie) :
    m.SameTables (ilsStep resId s m).2 := by
  unfold ilsStep
  dsimp only
  split <;> exact ⟨rfl, rfl, rfl, rfl, rfl, rfl, rfl, rfl, rfl⟩

theorem ilsLoop_sameTables (fuel : Nat) :
    ∀ (s : ReadStream) (m : Movie), m.SameTables (ilsLoop fuel s m).2 := by
  induction fuel with
  | zero => intro s m; exact Movie.SameTables.unchanged m
  | succ f ih =>
    intro s m
    unfold ilsLoop
    split
    · exact Movie.SameTables.unchanged m
    · split
      · exact Movie.SameTables.unchanged m
      · exact Movie.SameTables.after (ih _ _) (ilsStep_sameTables _ _ _)

theorem readInitialLoadSegment_sameTables (E : Env) (m : Movie) :
    m.SameTables (readInitialLoadSegment E m).2 := by
  dsimp only [readInitialLoadSegment]
  repeat' split
  all_goals first
    | exact ⟨rfl, rfl, rfl, rfl, rfl, rfl, rfl, rfl, rfl⟩
    | (rename_i heq
       have h3 := congrArg Prod.snd heq
       simp only at h3
       rw [← h3]
       exact Movie.SameTables.after (ilsLoop_sameTables _ _ _) ⟨rfl, rfl, rfl, rfl, rfl, rfl, rfl, rfl, rfl⟩)

theorem afterAbmpInflate_sameTables (E : Env) (abmpStream : ReadStream) (m : Movie) :
    m.SameTables (afterAbmpInflate E abmpStream m).2 := by
  dsimp only [afterAbmpInflate]
  repeat' split
  all_goals first
    | exact Movie.SameTables.unchanged m
    | (rename_i heq
       have h3 := congrArg Prod.snd heq
       simp only at h3
       rw [← h3]
       first
         | exact abmpLoop_sameTables _ _ _
         | exact Movie.SameTables.after (readInitialLoadSegment_sameTables E _)
             (abmpLoop_sameTables _ _ _))

theorem readAbmp_sameTables (E : Env) (m : Movie) : m.SameTables (readAbmp E m).2 := by
  dsimp only [readAbmp]
  repeat' split
  all_goals first
    | exact ⟨rfl, rfl, rfl, rfl, rfl, rfl, rfl, rfl, rfl⟩
    | (rename_i heq
       have h3 := congrArg Prod.snd heq
       simp only at h3
       rw [← h3]
       first
         | exact Movie.SameTables.after (abmpLoop_sameTables _ _ _) ⟨rfl, rfl, rfl, rfl, rfl, rfl, rfl, rfl, rfl⟩
         | exact Movie.SameTables.after (readInitialLoadSegment_sameTables E _)
             (Movie.SameTables.after (abmpLoop_sameTables _ _ _) ⟨rfl, rfl, rfl, rfl, rfl, rfl, rfl, rfl, rfl⟩))

theorem readAfterburnerMap_sameTables (E : Env) (m : Movie) :
    m.SameTables (readAfterburnerMap E m).2 := by
  dsimp only [readAfterburnerMap]
  repeat' split
  all_goals first
    | exact ⟨rfl, rfl, rfl, rfl, rfl, rfl, rfl, rfl, rfl⟩
    | exact Movie.SameTables.after (readAbmp_sameTables E _) ⟨rfl, rfl, rfl, rfl, rfl, rfl, rfl, rfl, rfl⟩

/-! ## The header of `read` -/

theorem read_eq_readHeader (E : Env) (s : ReadStream) (m : Movie) :
    read E s m =
      match readHeader s with
      | (.error e, s1) => (.error e, { m with stream := s1 })
      | (.ok codec, s4) =>
        if codec = FOURCC 'M' 'V' '9' '3' then
          match readMemoryMap E (m.withHeader s4 codec) with
          | (.error e, m2) => (.error e, m2)
          | (.ok _, m2) => readTables E m2
        else if codec = FOURCC 'F' 'G' 'D' 'M' then
          match readAfterburnerMap E (m.withAfterburner s4 codec) with
          | (.error e, m2) => (.error e, m2)
          | (.ok false, m2) => (.ok (), m2)
          | (.ok true, m2) => readTables E m2
        else (.error (.codecUnsupported codec), m.withHeader s4 codec) := by
  unfold read readHeader Movie.withAfterburner Movie.withHeader
  dsimp only
  rcases ({ s with endianness := Endianness.kBigEndian } : ReadStream).readUint32 with ⟨r1, s1⟩
  rcases r1 with e | metaFourCC
  · rfl
  dsimp only
  rcases (if metaFourCC = FOURCC 'X' 'F' 'I' 'R' then
      ({ s1 with endianness := Endianness.kLittleEndian } : ReadStream) else s1).readInt32
    with ⟨r2, s3⟩
  rcases r2 with e | v
  · rfl
  · rfl

/-! ## An afterburner map without resource 2 -/

theorem readInitialLoadSegment_of_no_ils (E : Env) (m : Movie) (h : m.chunkInfo 2 = none) :
    readInitialLoadSegment E m = (.ok false, m) := by
  unfold readInitialLoadSegment
  rw [h]

theorem abmpLoop_ok_iff (n : Nat) :
    ∀ (s : ReadStream) (m : Movie),
      (abmpLoop n s m).1 = .ok () ↔ (abmpRecords n s).length = n := by
  induction n with
  | zero => intro s m; simp [abmpLoop, abmpRecords]
  | succ n ih =>
    intro s m
    unfold abmpLoop abmpRecords
    rcases readAbmpRecord s with ⟨r, s1⟩
    rcases r with e | r
    · simp
    · simp [ih]

theorem abmpLoop_of_complete (n : Nat) (s : ReadStream) (m : Movie)
    (h : (abmpRecords n s).length = n) :
    abmpLoop n s m = (.ok (), (abmpRecords n s).foldl (fun acc r => addResource r acc) m) :=
  Prod.ext ((abmpLoop_ok_iff n s m).mpr h) (abmpLoop_snd n s m)

theorem afterAbmpInflate_of_map (E : Env) (abmpStream : ReadStream) (m : Movie)
    (recs : List AbmpRecord) (h : inflatedMap abmpStream = some recs) :
    afterAbmpInflate E abmpStream m
      = readInitialLoadSegment E (recs.foldl (fun acc r => addResource r acc) m) := by
  unfold inflatedMap at h
  unfold afterAbmpInflate
  rcases h1 : abmpStream.readVarInt with ⟨r1, a1⟩
  rw [h1] at h
  rcases r1 with e | u1
  · cases h
  dsimp only at h ⊢
  rcases h2 : a1.readVarInt with ⟨r2, a2⟩
  rw [h2] at h
  rcases r2 with e | u2
  · cases h
  dsimp only at h ⊢
  rcases h3 : a2.readVarInt with ⟨r3, a3⟩
  rw [h3] at h
  rcases r3 with e | resCount
  · cases h
  dsimp only at h ⊢
  by_cases hl : (abmpRecords resCount a3).length = resCount
  · rw [if_pos hl] at h
    cases h
    rw [abmpLoop_of_complete resCount a3 m hl]
  · rw [if_neg hl] at h
    cases h

theorem readTables_of_no_keyTable (E : Env) (m : Movie)
    (h : m.idsOf (FOURCC 'K' 'E' 'Y' '*') = []) :
    readTables E m = (.ok (), (getFirstChunkInfo (FOURCC 'K' 'E' 'Y' '*') m).2)
    ∧ (getFirstChunkInfo (FOURCC 'K' 'E' 'Y' '*') m).2.chunkInfo = m.chunkInfo := by
  constructor
  · unfold readTables readKeyTable
    rw [getFirstChunkInfo_of_nil _ m h]
  · unfold getFirstChunkInfo
    rw [h]

theorem read_of_unsupported (E : Env) (s s4 : ReadStream) (m : Movie) (codec : Nat)
    (hh : readHeader s = (.ok codec, s4)) (h1 : codec ≠ FOURCC 'M' 'V' '9' '3')
    (h2 : codec ≠ FOURCC 'F' 'G' 'D' 'M') :
    read E s m = (.error (.codecUnsupported codec), m.withHeader s4 codec) := by
  rw [read_eq_readHeader, hh]
  dsimp only
  rw [if_neg h1, if_neg h2]

theorem read_of_afterburner_failure (E : Env) (s s4 : ReadStream) (m : Movie)
    (hh : readHeader s = (.ok (FOURCC 'F' 'G' 'D' 'M'), s4))
    (hne : (readAfterburnerMap E (m.withAfterburner s4 (FOURCC 'F' 'G' 'D' 'M'))).1 ≠ .ok true) :
    (read E s m).2 = (readAfterburnerMap E (m.withAfterburner s4 (FOURCC 'F' 'G' 'D' 'M'))).2 := by
  rw [read_eq_readHeader, hh]
  dsimp only
  rw [if_neg (by decide), if_pos rfl]
  rcases hr : readAfterburnerMap E (m.withAfterburner s4 (FOURCC 'F' 'G' 'D' 'M')) with ⟨r, m2⟩
  rw [hr] at hne
  rcases r with e | b
  · rfl
  · cases b
    · rfl
    · exact absurd rfl hne

set_option maxRecDepth 1000000 in
/-- C14 fails on the sample archive without resource 2: the map parser
reports failure, `read` returns, and the directory and the tag index hold the
resources of the `ABMP` map, while a fresh archive has neither. -/
theorem read_keeps_directory_after_failure :
    (readAfterburnerMap sampleEnv
        ((Movie.fresh (streamOf [])).withAfterburner ((streamOf (sampleFGDMFirst 9)).seek 12)
          (FOURCC 'F' 'G' 'D' 'M'))).1 = .ok false
    ∧ (read sampleEnv (streamOf (sampleFGDMFirst 9)) (Movie.fresh (streamOf []))).1 = .ok ()
    ∧ ((read sampleEnv (streamOf (sampleFGDMFirst 9)) (Movie.fresh (streamOf []))).2.chunkInfo 3
        = some { id := 3, fourCC := FOURCC 'K' 'E' 'Y' '*', len := 12, uncompressedLen := 12,
                 offset := 0, compressionType := 0 })
    ∧ (Movie.fresh (streamOf (sampleFGDMFirst 9))).chunkInfo 3 = none
    ∧ (read sampleEnv (streamOf (sampleFGDMFirst 9)) (Movie.fresh (streamOf []))).2.idsOf
        (FOURCC 'K' 'E' 'Y' '*') = [3]
    ∧ (Movie.fresh (streamOf (sampleFGDMFirst 9))).idsOf (FOURCC 'K' 'E' 'Y' '*') = [] := by
  refine ⟨by decide, by decide, by decide, by decide, by decide, by decide⟩

/-! ## The stream and the errors of the readers -/

theorem ReadStream.Moved.here (s : ReadStream) : s.Moved s := ⟨rfl, rfl⟩

theorem ReadStream.Moved.next {s s1 s2 : ReadStream} (h1 : s.Moved s1) (h2 : s1.Moved s2) :
    s.Moved s2 :=
  ⟨h2.1.trans h1.1, h2.2.trans h1.2⟩

theorem noCodecError_ok {α : Type} (a : α) : NoCodecError (.ok a : Except MovieError α) :=
  fun _ h => (by cases h)

theorem noCodecError_cast {α β : Type} {e : MovieError}
    (h : NoCodecError (.error e : Except MovieError α)) :
    NoCodecError (.error e : Except MovieError β) :=
  fun c hc => h c (by cases hc; rfl)

theorem Movie.Runs.of_step {α : Type} {m m1 : Movie} {r : Except MovieError α × Movie}
    (h1 : m.stream.Moved m1.stream) (h2 : m1.Runs r) : m.Runs r :=
  ⟨h1.next h2.1, h2.2⟩

theorem readUint32_runs (s s1 : ReadStream) (r : Except MovieError Nat)
    (h : s.readUint32 = (r, s1)) : s.Moved s1 ∧ NoCodecError r := by
  unfold ReadStream.readUint32 at h
  dsimp only at h
  split at h
  · cases h
    exact ⟨⟨rfl, rfl⟩, fun c hc => (by cases hc)⟩
  · split at h <;> (cases h; exact ⟨⟨rfl, rfl⟩, fun c hc => (by cases hc)⟩)

theorem readInt32_runs (s s1 : ReadStream) (r : Except MovieError Int)
    (h : s.readInt32 = (r, s1)) : s.Moved s1 ∧ NoCodecError r := by
  unfold ReadStream.readInt32 at h
  rcases h0 : s.readUint32 with ⟨r0, s0⟩
  obtain ⟨hm, hn⟩ := readUint32_runs _ _ _ h0
  rw [h0] at h
  rcases r0 with e | v
  · cases h
    exact ⟨hm, noCodecError_cast hn⟩
  · cases h
    exact ⟨hm, noCodecError_ok _⟩

theorem readVarInt_runs (s s1 : ReadStream) (r : Except MovieError Nat)
    (h : s.readVarInt = (r, s1)) : s.Moved s1 ∧ NoCodecError r := by
  unfold ReadStream.readVarInt at h
  split at h <;> (cases h; exact ⟨⟨rfl, rfl⟩, fun c hc => (by cases hc)⟩)

theorem readBytes_runs (s s1 : ReadStream) (n : Nat) (r : Except MovieError ReadStream)
    (h : s.readBytes n = (r, s1)) : s.Moved s1 ∧ NoCodecError r := by
  unfold ReadStream.readBytes at h
  dsimp only at h
  split at h <;> (cases h; exact ⟨⟨rfl, rfl⟩, fun c hc => (by cases hc)⟩)

theorem readZlibBytes_runs (unz : List Nat → Nat → Option (List Nat)) (s s1 : ReadStream)
    (n expected : Nat) (r : Except MovieError (Option ReadStream × Nat))
    (h : s.readZlibBytes unz n expected = (r, s1)) : s.Moved s1 ∧ NoCodecError r := by
  unfold ReadStream.readZlibBytes at h
  dsimp only at h
  split at h
  · cases h
    exact ⟨⟨rfl, rfl⟩, fun c hc => (by cases hc)⟩
  · split at h <;> (cases h; exact ⟨⟨rfl, rfl⟩, fun c hc => (by cases hc)⟩)

theorem makeChunk_runs (E : Env) (fourCC : Nat) (cs : ReadStream) (m : Movie) :
    m.Runs (makeChunk E fourCC cs m) := by
  refine ⟨?_, ?_⟩
  · rw [(makeChunk_stream_cache E fourCC cs m).1]
    exact ReadStream.Moved.here _
  · rcases makeChunk_fst_cases E fourCC cs m with h | ⟨p, h⟩
    · rw [h]
      exact fun c hc => (by cases hc)
    · rw [h]
      exact noCodecError_ok _

theorem readChunk_runs (E : Env) (fourCC len : Nat) (m : Movie) :
    m.Runs (readChunk E fourCC len m) := by
  unfold readChunk
  dsimp only
  rcases h1 : m.stream.readUint32 with ⟨r1, s1⟩
  obtain ⟨hm1, hn1⟩ := readUint32_runs _ _ _ h1
  rcases r1 with e | vt
  · exact ⟨hm1, hn1⟩
  dsimp only
  rcases h2 : s1.readUint32 with ⟨r2, s2⟩
  obtain ⟨hm2, hn2⟩ := readUint32_runs _ _ _ h2
  rcases r2 with e | vl
  · exact ⟨hm1.next hm2, hn2⟩
  dsimp only
  by_cases hfr : fourCC ≠ vt ∨ (if len = UINT32_MAX then vl else len) ≠ vl
  · rw [if_pos hfr]
    exact ⟨hm1.next hm2, fun c hc => (by cases hc)⟩
  · rw [if_neg hfr]
    rcases h3 : s2.readBytes (if len = UINT32_MAX then vl else len) with ⟨r3, s3⟩
    obtain ⟨hm3, hn3⟩ := readBytes_runs _ _ _ _ h3
    rcases r3 with e | cs
    · exact ⟨(hm1.next hm2).next hm3, noCodecError_cast hn3⟩
    · exact Movie.Runs.of_step ((hm1.next hm2).next hm3) (makeChunk_runs E fourCC cs _)

theorem getChunk_runs (E : Env) (fourCC id : Nat) (m : Movie) :
    m.Runs (getChunk E fourCC id m) := by
  unfold getChunk
  split
  · exact ⟨ReadStream.Moved.here _, noCodecError_ok _⟩
  · split
    · exact ⟨ReadStream.Moved.here _, fun c hc => (by cases hc)⟩
    · split
      · exact ⟨ReadStream.Moved.here _, fun c hc => (by cases hc)⟩
      · have hmade : ∀ (r : Except MovieError Nat × Movie), m.Runs r →
            m.Runs (match r with
              | (.error e, m1) => (Except.error e, m1)
              | (.ok p, m1) =>
                if fourCC ≠ FOURCC 'i' 'm' 'a' 'p' ∧ fourCC ≠ FOURCC 'm' 'm' 'a' 'p' then
                  (Except.ok p,
                    { m1 with deserializedChunks := mapSet m1.deserializedChunks id p })
                else (Except.ok p, m1)) := by
          rintro ⟨r, m1⟩ hr
          rcases r with e | p
          · exact hr
          · simp only
            split
            · exact ⟨hr.1, noCodecError_ok _⟩
            · exact hr
        apply hmade
        split
        · exact makeChunk_runs E fourCC _ m
        · split
          · dsimp only
            generalize hz : ReadStream.readZlibBytes E.uncompress _ _ _ = z
            rcases z with ⟨rz, s1⟩
            obtain ⟨hmz, hnz⟩ := readZlibBytes_runs _ _ _ _ _ _ hz
            have hm1 : m.stream.Moved s1 := hmz
            rcases rz with e | ⟨o, a⟩
            · exact ⟨hm1, noCodecError_cast hnz⟩
            · rcases o with _ | cs
              · exact ⟨hm1, fun c hc => (by cases hc)⟩
              · dsimp only
                split
                · exact ⟨hm1, fun c hc => (by cases hc)⟩
                · exact Movie.Runs.of_step hm1 (makeChunk_runs E fourCC cs _)
          · exact @Movie.Runs.of_step _ m { m with stream := m.stream.seek _ } _
              ⟨rfl, rfl⟩ (readChunk_runs E fourCC _ _)

theorem Movie.Runs.behind {α : Type} {m m1 : Movie} {r : Except MovieError α × Movie}
    (h2 : m1.Runs r) (h1 : m.stream.Moved m1.stream) : m.Runs r :=
  Movie.Runs.of_step h1 h2

theorem Movie.Runs.of_eq {α : Type} {m : Movie} {x z : Except MovieError α × Movie}
    (hx : m.Runs x) (h : x = z) : m.Runs z :=
  h ▸ hx

theorem readMemoryMapLoop_stream (arr : List MemoryMapEntry) :
    ∀ (i : Nat) (m : Movie), (readMemoryMapLoop arr i m).stream = m.stream := by
  induction arr with
  | nil => intro i m; rfl
  | cons e rest ih =>
    intro i m
    simp only [readMemoryMapLoop]
    rw [ih]
    unfold addMapEntry
    split <;> rfl

theorem readMemoryMap_runs (E : Env) (m : Movie) : m.Runs (readMemoryMap E m) := by
  unfold readMemoryMap
  generalize hc1 : readChunk E (FOURCC 'i' 'm' 'a' 'p') UINT32_MAX m = z1
  have h1 := (readChunk_runs E _ _ _).of_eq hc1
  rcases z1 with ⟨r1, m1⟩
  rcases r1 with e | p
  · exact ⟨h1.1, noCodecError_cast h1.2⟩
  dsimp only
  split
  · generalize hc2 : readChunk E (FOURCC 'm' 'm' 'a' 'p') UINT32_MAX _ = z2
    have h2 := (readChunk_runs E _ _ _).of_eq hc2
    rcases z2 with ⟨r2, m2⟩
    have hm2 : m.stream.Moved m2.stream := h1.1.next h2.1
    rcases r2 with e | q
    · exact ⟨hm2, noCodecError_cast h2.2⟩
    dsimp only
    split
    · refine ⟨?_, noCodecError_ok _⟩
      dsimp only
      rw [readMemoryMapLoop_stream]
      exact hm2
    · exact ⟨hm2, fun c hc => (by cases hc)⟩
  · exact ⟨h1.1, fun c hc => (by cases hc)⟩

theorem readAbmpRecord_noCodec (s : ReadStream) : NoCodecError (readAbmpRecord s).1 := by
  unfold readAbmpRecord
  generalize h1 : s.readVarInt = z1
  rcases z1 with ⟨r1, s1⟩
  rcases r1 with e | v1
  · exact noCodecError_cast (readVarInt_runs _ _ _ h1).2
  dsimp only
  generalize h2 : s1.readVarInt = z2
  rcases z2 with ⟨r2, s2⟩
  rcases r2 with e | v2
  · exact noCodecError_cast (readVarInt_runs _ _ _ h2).2
  dsimp only
  generalize h3 : s2.readVarInt = z3
  rcases z3 with ⟨r3, s3⟩
  rcases r3 with e | v3
  · exact noCodecError_cast (readVarInt_runs _ _ _ h3).2
  dsimp only
  generalize h4 : s3.readVarInt = z4
  rcases z4 with ⟨r4, s4⟩
  rcases r4 with e | v4
  · exact noCodecError_cast (readVarInt_runs _ _ _ h4).2
  dsimp only
  generalize h5 : s4.readVarInt = z5
  rcases z5 with ⟨r5, s5⟩
  rcases r5 with e | v5
  · exact noCodecError_cast (readVarInt_runs _ _ _ h5).2
  dsimp only
  generalize h6 : s5.readUint32 = z6
  rcases z6 with ⟨r6, s6⟩
  rcases r6 with e | v6
  · exact noCodecError_cast (readUint32_runs _ _ _ h6).2
  · exact noCodecError_ok _

theorem abmpLoop_runs (n : Nat) :
    ∀ (s : ReadStream) (m : Movie), m.Runs (abmpLoop n s m) := by
  induction n with
  | zero => intro s m; exact ⟨ReadStream.Moved.here _, noCodecError_ok _⟩
  | succ n ih =>
    intro s m
    unfold abmpLoop
    have hn := readAbmpRecord_noCodec s
    generalize hr : readAbmpRecord s = z at hn
    rcases z with ⟨r, s1⟩
    rcases r with e | rec
    · exact ⟨ReadStream.Moved.here _, noCodecError_cast hn⟩
    · exact Movie.Runs.behind (ih s1 (addResource rec m)) ⟨rfl, rfl⟩

theorem ilsStep_movie_stream (resId : Nat) (s : ReadStream) (m : Movie) :
    (ilsStep resId s m).2.stream = m.stream := by
  unfold ilsStep
  dsimp only
  split <;> rfl

theorem ilsLoop_runs (fuel : Nat) :
    ∀ (s : ReadStream) (m : Movie), m.Runs (ilsLoop fuel s m) := by
  induction fuel with
  | zero => intro s m; exact ⟨ReadStream.Moved.here _, noCodecError_ok _⟩
  | succ f ih =>
    intro s m
    unfold ilsLoop
    split
    · exact ⟨ReadStream.Moved.here _, noCodecError_ok _⟩
    · generalize h1 : s.readVarInt = z1
      rcases z1 with ⟨r1, s1⟩
      rcases r1 with e | resId
      · exact ⟨ReadStream.Moved.here _, noCodecError_cast (readVarInt_runs _ _ _ h1).2⟩
      · refine Movie.Runs.behind (ih _ _) ?_
        rw [ilsStep_movie_stream]
        exact ReadStream.Moved.here _

theorem readInitialLoadSegment_runs (E : Env) (m : Movie) :
    m.Runs (readInitialLoadSegment E m) := by
  unfold readInitialLoadSegment
  split
  · exact ⟨ReadStream.Moved.here _, noCodecError_ok _⟩
  generalize h1 : m.stream.readUint32 = z1
  rcases z1 with ⟨r1, s1⟩
  obtain ⟨hm1, hn1⟩ := readUint32_runs _ _ _ h1
  rcases r1 with e | fgei
  · exact ⟨hm1, noCodecError_cast hn1⟩
  dsimp only
  split
  · exact ⟨hm1, noCodecError_ok _⟩
  generalize h2 : s1.readVarInt = z2
  rcases z2 with ⟨r2, s2⟩
  obtain ⟨hm2, hn2⟩ := readVarInt_runs _ _ _ h2
  rcases r2 with e | unk
  · exact ⟨hm1.next hm2, noCodecError_cast hn2⟩
  dsimp only
  generalize h3 : ReadStream.readZlibBytes E.uncompress s2 _ _ = z3
  rcases z3 with ⟨r3, s3⟩
  obtain ⟨hm3, hn3⟩ := readZlibBytes_runs _ _ _ _ _ _ h3
  have hm : m.stream.Moved s3 := (hm1.next hm2).next hm3
  rcases r3 with e | ⟨o, a⟩
  · exact ⟨hm, noCodecError_cast hn3⟩
  rcases o with _ | ilsStream
  · exact ⟨hm, noCodecError_ok _⟩
  dsimp only
  generalize h4 : ilsLoop _ ilsStream _ = z4
  have hl := (ilsLoop_runs _ _ _).of_eq h4
  rcases z4 with ⟨r4, m4⟩
  have hm4 : m.stream.Moved m4.stream := hm.next hl.1
  rcases r4 with e | u
  · exact ⟨hm4, noCodecError_cast hl.2⟩
  · exact ⟨hm4, noCodecError_ok _⟩

theorem afterAbmpInflate_runs (E : Env) (abmpStream : ReadStream) (m : Movie) :
    m.Runs (afterAbmpInflate E abmpStream m) := by
  unfold afterAbmpInflate
  generalize h1 : abmpStream.readVarInt = z1
  rcases z1 with ⟨r1, a1⟩
  rcases r1 with e | u1
  · exact ⟨ReadStream.Moved.here _, noCodecError_cast (readVarInt_runs _ _ _ h1).2⟩
  dsimp only
  generalize h2 : a1.readVarInt = z2
  rcases z2 with ⟨r2, a2⟩
  rcases r2 with e | u2
  · exact ⟨ReadStream.Moved.here _, noCodecError_cast (readVarInt_runs _ _ _ h2).2⟩
  dsimp only
  generalize h3 : a2.readVarInt = z3
  rcases z3 with ⟨r3, a3⟩
  rcases r3 with e | resCount
  · exact ⟨ReadStream.Moved.here _, noCodecError_cast (readVarInt_runs _ _ _ h3).2⟩
  dsimp only
  generalize h4 : abmpLoop resCount a3 m = z4
  have hl := (abmpLoop_runs _ _ _).of_eq h4
  rcases z4 with ⟨r4, m4⟩
  rcases r4 with e | u
  · exact ⟨hl.1, noCodecError_cast hl.2⟩
  · exact Movie.Runs.behind (readInitialLoadSegment_runs E m4) hl.1

theorem readAbmp_runs (E : Env) (m : Movie) : m.Runs (readAbmp E m) := by
  unfold readAbmp
  generalize h1 : m.stream.readUint32 = z1
  rcases z1 with ⟨r1, s1⟩
  obtain ⟨hm1, hn1⟩ := readUint32_runs _ _ _ h1
  rcases r1 with e | abmp
  · exact ⟨hm1, noCodecError_cast hn1⟩
  dsimp only
  split
  · exact ⟨hm1, noCodecError_ok _⟩
  generalize h2 : s1.readVarInt = z2
  rcases z2 with ⟨r2, s2⟩
  obtain ⟨hm2, hn2⟩ := readVarInt_runs _ _ _ h2
  rcases r2 with e | abmpLength
  · exact ⟨hm1.next hm2, noCodecError_cast hn2⟩
  dsimp only
  generalize h3 : s2.readVarInt = z3
  rcases z3 with ⟨r3, s3⟩
  obtain ⟨hm3, hn3⟩ := readVarInt_runs _ _ _ h3
  rcases r3 with e | compressionType
  · exact ⟨(hm1.next hm2).next hm3, noCodecError_cast hn3⟩
  dsimp only
  generalize h4 : s3.readVarInt = z4
  rcases z4 with ⟨r4, s4⟩
  obtain ⟨hm4, hn4⟩ := readVarInt_runs _ _ _ h4
  rcases r4 with e | declared
  · exact ⟨((hm1.next hm2).next hm3).next hm4, noCodecError_cast hn4⟩
  dsimp only
  generalize h5 : ReadStream.readZlibBytes E.uncompress s4 _ _ = z5
  rcases z5 with ⟨r5, s5⟩
  obtain ⟨hm5, hn5⟩ := readZlibBytes_runs _ _ _ _ _ _ h5
  have hm : m.stream.Moved s5 := (((hm1.next hm2).next hm3).next hm4).next hm5
  rcases r5 with e | ⟨o, a⟩
  · exact ⟨hm, noCodecError_cast hn5⟩
  rcases o with _ | abmpStream
  · exact ⟨hm, noCodecError_ok _⟩
  · exact Movie.Runs.behind (afterAbmpInflate_runs E abmpStream { m with stream := s5 }) hm

theorem readAfterburnerMap_runs (E : Env) (m : Movie) : m.Runs (readAfterburnerMap E m) := by
  unfold readAfterburnerMap
  generalize h1 : m.stream.readUint32 = z1
  rcases z1 with ⟨r1, s1⟩
  obtain ⟨hm1, hn1⟩ := readUint32_runs _ _ _ h1
  rcases r1 with e | fver
  · exact ⟨hm1, noCodecError_cast hn1⟩
  dsimp only
  split
  · exact ⟨hm1, noCodecError_ok _⟩
  generalize h2 : s1.readVarInt = z2
  rcases z2 with ⟨r2, s2⟩
  obtain ⟨hm2, hn2⟩ := readVarInt_runs _ _ _ h2
  rcases r2 with e | fverLength
  · exact ⟨hm1.next hm2, noCodecError_cast hn2⟩
  dsimp only
  generalize h3 : s2.readVarInt = z3
  rcases z3 with ⟨r3, s3⟩
  obtain ⟨hm3, hn3⟩ := readVarInt_runs _ _ _ h3
  rcases r3 with e | v
  · exact ⟨(hm1.next hm2).next hm3, noCodecError_cast hn3⟩
  dsimp only
  have hseek : s3.Moved (if (s3.pos % 4294967296 + 4294967296 - s2.pos % 4294967296) % 4294967296
      ≠ fverLength then s3.seek ((s2.pos % 4294967296 + fverLength) % 4294967296) else s3) := by
    split
    · exact ⟨rfl, rfl⟩
    · exact ⟨rfl, rfl⟩
  generalize h4 : ReadStream.readUint32 _ = z4
  rcases z4 with ⟨r4, s5⟩
  obtain ⟨hm4, hn4⟩ := readUint32_runs _ _ _ h4
  have hm5 : m.stream.Moved s5 := (((hm1.next hm2).next hm3).next hseek).next hm4
  rcases r4 with e | fcdr
  · exact ⟨hm5, noCodecError_cast hn4⟩
  dsimp only
  split
  · exact ⟨hm5, noCodecError_ok _⟩
  generalize h6 : s5.readVarInt = z6
  rcases z6 with ⟨r6, s6⟩
  obtain ⟨hm6, hn6⟩ := readVarInt_runs _ _ _ h6
  rcases r6 with e | fcdrLength
  · exact ⟨hm5.next hm6, noCodecError_cast hn6⟩
  · exact Movie.Runs.behind (readAbmp_runs E { m with stream := s6.skip fcdrLength })
      (hm5.next hm6)

theorem readKeyTable_runs (E : Env) (m : Movie) : m.Runs (readKeyTable E m) := by
  unfold readKeyTable
  have hf := (getFirstChunkInfo_fields (FOURCC 'K' 'E' 'Y' '*') m).1
  generalize hg : getFirstChunkInfo (FOURCC 'K' 'E' 'Y' '*') m = z at hf
  rcases z with ⟨r, m1⟩
  have hm1 : m.stream.Moved m1.stream := by
    dsimp only at hf
    rw [hf]
    exact ReadStream.Moved.here _
  rcases r with _ | info
  · exact ⟨hm1, noCodecError_ok _⟩
  dsimp only
  generalize hc : getChunk E info.fourCC info.id m1 = z2
  have h2 := (getChunk_runs E _ _ _).of_eq hc
  rcases z2 with ⟨r2, m2⟩
  rcases r2 with e | p
  · exact ⟨hm1.next h2.1, noCodecError_cast h2.2⟩
  · exact ⟨hm1.next h2.1, noCodecError_ok _⟩

theorem configTail_runs (E : Env) (info : ChunkInfo) (m : Movie) :
    m.Runs (configTail E info m) := by
  unfold configTail
  generalize hc : getChunk E info.fourCC info.id m = z2
  have h2 := (getChunk_runs E _ _ _).of_eq hc
  rcases z2 with ⟨r2, m2⟩
  rcases r2 with e | p
  · exact ⟨h2.1, noCodecError_cast h2.2⟩
  dsimp only
  split
  · exact ⟨h2.1, noCodecError_ok _⟩
  · exact ⟨h2.1, fun c hc => (by cases hc)⟩

theorem getFirstChunkInfo_moved (tag : Nat) (m : Movie) :
    m.stream.Moved (getFirstChunkInfo tag m).2.stream := by
  rw [(getFirstChunkInfo_fields tag m).1]
  exact ReadStream.Moved.here _

theorem readConfig_runs (E : Env) (m : Movie) : m.Runs (readConfig E m) := by
  rw [readConfig_eq]
  have hm1 := getFirstChunkInfo_moved (FOURCC 'V' 'W' 'C' 'F') m
  generalize hg : getFirstChunkInfo (FOURCC 'V' 'W' 'C' 'F') m = z at hm1
  rcases z with ⟨r, m1⟩
  rcases r with _ | info
  · dsimp only
    have hm2 := getFirstChunkInfo_moved (FOURCC 'D' 'R' 'C' 'F') m1
    generalize hg2 : getFirstChunkInfo (FOURCC 'D' 'R' 'C' 'F') m1 = z2 at hm2
    rcases z2 with ⟨r2, m2⟩
    rcases r2 with _ | info2
    · exact ⟨hm1.next hm2, noCodecError_ok _⟩
    · exact Movie.Runs.behind (configTail_runs E info2 m2) (hm1.next hm2)
  · exact Movie.Runs.behind (configTail_runs E info m1) hm1

theorem populate_stream (p : Nat) (name : String) (id : Int) (minMember : Nat) (m m1 : Movie)
    (h : populate p name id minMember m = some m1) : m1.stream = m.stream := by
  obtain ⟨body, a, _, hm⟩ := populate_some _ _ _ _ _ _ h
  subst hm
  rfl

theorem readCastsLoop_runs (E : Env) (entries : List CastListEntry) :
    ∀ m : Movie, m.Runs (readCastsLoop E entries m) := by
  induction entries with
  | nil => intro m; exact ⟨ReadStream.Moved.here _, noCodecError_ok _⟩
  | cons e rest ih =>
    intro m
    unfold readCastsLoop
    split
    · dsimp only
      split
      · generalize hc : getChunk E (FOURCC 'C' 'A' 'S' '*') _ m = z2
        have h2 := (getChunk_runs E _ _ _).of_eq hc
        rcases z2 with ⟨r2, m1⟩
        rcases r2 with err | p
        · exact ⟨h2.1, noCodecError_cast h2.2⟩
        · dsimp only
          cases hpop : populate p e.name e.id e.minMember m1 with
          | none => exact ⟨h2.1, fun c hc => (by cases hc)⟩
          | some m2 =>
            have hs := populate_stream _ _ _ _ _ _ hpop
            refine Movie.Runs.behind (ih { m2 with casts := m2.casts ++ [p] }) ?_
            have : m1.stream.Moved m2.stream := by
              rw [hs]
              exact ReadStream.Moved.here _
            exact h2.1.next this
      · exact ih m
    · exact ⟨ReadStream.Moved.here _, fun c hc => (by cases hc)⟩

theorem readCasts_runs (E : Env) (m : Movie) : m.Runs (readCasts E m) := by
  unfold readCasts
  split
  · have hm1 := getFirstChunkInfo_moved (FOURCC 'M' 'C' 's' 'L') m
    generalize hg : getFirstChunkInfo (FOURCC 'M' 'C' 's' 'L') m = z at hm1
    rcases z with ⟨r, m1⟩
    rcases r with _ | info
    · exact ⟨hm1, noCodecError_ok _⟩
    dsimp only
    generalize hc : getChunk E info.fourCC info.id m1 = z2
    have h2 := (getChunk_runs E _ _ _).of_eq hc
    rcases z2 with ⟨r2, m2⟩
    rcases r2 with e | p
    · exact ⟨hm1.next h2.1, noCodecError_cast h2.2⟩
    dsimp only
    split
    · rename_i entries _
      generalize hl : readCastsLoop E entries m2 = z3
      have h3 := (readCastsLoop_runs E _ _).of_eq hl
      rcases z3 with ⟨r3, m3⟩
      rcases r3 with e | u
      · exact ⟨(hm1.next h2.1).next h3.1, noCodecError_cast h3.2⟩
      · exact ⟨(hm1.next h2.1).next h3.1, noCodecError_ok _⟩
    · exact ⟨hm1.next h2.1, fun c hc => (by cases hc)⟩
  · have hm1 := getFirstChunkInfo_moved (FOURCC 'C' 'A' 'S' '*') m
    generalize hg : getFirstChunkInfo (FOURCC 'C' 'A' 'S' '*') m = z at hm1
    rcases z with ⟨r, m1⟩
    rcases r with _ | info
    · exact ⟨hm1, noCodecError_ok _⟩
    dsimp only
    generalize hc : getChunk E info.fourCC info.id m1 = z2
    have h2 := (getChunk_runs E _ _ _).of_eq hc
    rcases z2 with ⟨r2, m2⟩
    rcases r2 with e | p
    · exact ⟨hm1.next h2.1, noCodecError_cast h2.2⟩
    dsimp only
    split
    · split
      · exact ⟨hm1.next h2.1, fun c hc => (by cases hc)⟩
      · rename_i m3 hpop
        have hs := populate_stream _ _ _ _ _ _ hpop
        refine ⟨?_, noCodecError_ok _⟩
        have : m2.stream.Moved m3.stream := by
          rw [hs]
          exact ReadStream.Moved.here _
        exact (hm1.next h2.1).next this
    · exact ⟨hm1.next h2.1, fun c hc => (by cases hc)⟩

theorem readTables_runs (E : Env) (m : Movie) : m.Runs (readTables E m) := by
  unfold readTables
  generalize hk : readKeyTable E m = z1
  have h1 := (readKeyTable_runs E _).of_eq hk
  rcases z1 with ⟨r1, m1⟩
  rcases r1 with e | b
  · exact ⟨h1.1, noCodecError_cast h1.2⟩
  cases b
  · exact ⟨h1.1, noCodecError_ok _⟩
  dsimp only
  generalize hc : readConfig E m1 = z2
  have h2 := (readConfig_runs E _).of_eq hc
  rcases z2 with ⟨r2, m2⟩
  rcases r2 with e | b
  · exact ⟨h1.1.next h2.1, noCodecError_cast h2.2⟩
  cases b
  · exact ⟨h1.1.next h2.1, noCodecError_ok _⟩
  dsimp only
  generalize hcs : readCasts E m2 = z3
  have h3 := (readCasts_runs E _).of_eq hcs
  rcases z3 with ⟨r3, m3⟩
  rcases r3 with e | b
  · exact ⟨(h1.1.next h2.1).next h3.1, noCodecError_cast h3.2⟩
  · exact ⟨(h1.1.next h2.1).next h3.1, noCodecError_ok _⟩

/-! ## Endianness detection and the codec tag -/

theorem readUint32_pos (s s1 : ReadStream) (r : Except MovieError Nat)
    (h : s.readUint32 = (r, s1)) : s1.pos = s.pos + 4 := by
  unfold ReadStream.readUint32 at h
  dsimp only at h
  split at h
  · cases h
    rfl
  · split at h <;> (cases h; rfl)

theorem readInt32_pos (s s1 : ReadStream) (r : Except MovieError Int)
    (h : s.readInt32 = (r, s1)) : s1.pos = s.pos + 4 := by
  unfold ReadStream.readInt32 at h
  rcases h0 : s.readUint32 with ⟨r0, s0⟩
  have hp := readUint32_pos _ _ _ h0
  rw [h0] at h
  rcases r0 with e | v <;> (cases h; exact hp)

theorem readUint32_big (s : ReadStream) :
    ({ s with endianness := Endianness.kBigEndian } : ReadStream).readUint32
      = if s.data.length < s.pos + 4 then
          (.error .pastEnd, { s with pos := s.pos + 4, endianness := Endianness.kBigEndian })
        else
          (.ok (firstFour s), { s with pos := s.pos + 4, endianness := Endianness.kBigEndian }) := by
  unfold ReadStream.readUint32 firstFour ReadStream.byteAt
  dsimp only

theorem readHeader_spec (s : ReadStream) :
    (readHeader s).2.data = s.data
    ∧ (readHeader s).2.endianness = detectedEndianness s
    ∧ NoCodecError (readHeader s).1
    ∧ ∀ codec s4, readHeader s = (.ok codec, s4) →
        ({ data := s.data, pos := s.pos + 8, endianness := detectedEndianness s }
          : ReadStream).readUint32 = (.ok codec, s4) := by
  unfold readHeader
  dsimp only
  rw [readUint32_big]
  by_cases hlen : s.data.length < s.pos + 4
  · rw [if_pos hlen]
    have hd : detectedEndianness s = Endianness.kBigEndian := by
      unfold detectedEndianness
      rw [if_neg]
      intro h
      omega
    exact ⟨rfl, hd.symm, fun c hc => (by cases hc), fun codec s4 h => (by cases h)⟩
  · rw [if_neg hlen]
    dsimp only
    have hs2 : (if firstFour s = FOURCC 'X' 'F' 'I' 'R' then
          ({ data := s.data, pos := s.pos + 4, endianness := Endianness.kLittleEndian }
            : ReadStream)
        else { data := s.data, pos := s.pos + 4, endianness := Endianness.kBigEndian })
        = { data := s.data, pos := s.pos + 4, endianness := detectedEndianness s } := by
      unfold detectedEndianness
      by_cases hx : firstFour s = FOURCC 'X' 'F' 'I' 'R'
      · rw [if_pos hx, if_pos ⟨by omega, hx⟩]
      · rw [if_neg hx, if_neg (fun h => hx h.2)]
    rw [hs2]
    generalize h2 : ReadStream.readInt32 _ = z2
    rcases z2 with ⟨r2, s3⟩
    obtain ⟨hm2, hn2⟩ := readInt32_runs _ _ _ h2
    have hp2 := readInt32_pos _ _ _ h2
    rcases r2 with e | v
    · exact ⟨hm2.1, hm2.2, noCodecError_cast hn2, fun codec s4 h => (by cases h)⟩
    · dsimp only
      have hs3 : s3 = { data := s.data, pos := s.pos + 8, endianness := detectedEndianness s } := by
        rcases s3 with ⟨d, p, en⟩
        obtain ⟨hd1, hd2⟩ := hm2
        dsimp only at hd1 hd2 hp2
        subst hd1 hd2 hp2
        rfl
      subst hs3
      generalize h3 : ReadStream.readUint32 _ = z3
      rcases z3 with ⟨r3, s4⟩
      obtain ⟨hm3, hn3⟩ := readUint32_runs _ _ _ h3
      exact ⟨hm3.1, hm3.2, hn3, fun codec s4 h => h⟩

theorem read_mv93_runs (E : Env) (m1 : Movie) :
    m1.Runs (match readMemoryMap E m1 with
      | (.error e, m2) => ((.error e : Except MovieError Unit), m2)
      | (.ok _, m2) => readTables E m2) := by
  generalize hr : readMemoryMap E m1 = z
  have h := (readMemoryMap_runs E _).of_eq hr
  rcases z with ⟨r, m2⟩
  rcases r with e | u
  · exact h
  · exact Movie.Runs.behind (readTables_runs E m2) h.1

theorem read_fgdm_runs (E : Env) (m1 : Movie) :
    m1.Runs (match readAfterburnerMap E m1 with
      | (.error e, m2) => ((.error e : Except MovieError Unit), m2)
      | (.ok false, m2) => (.ok (), m2)
      | (.ok true, m2) => readTables E m2) := by
  generalize hr : readAfterburnerMap E m1 = z
  have h := (readAfterburnerMap_runs E _).of_eq hr
  rcases z with ⟨r, m2⟩
  rcases r with e | b
  · exact ⟨h.1, noCodecError_cast h.2⟩
  · cases b
    · exact ⟨h.1, noCodecError_ok _⟩
    · exact Movie.Runs.behind (readTables_runs E m2) h.1

theorem read_mv93_codec (E : Env) (m1 : Movie) :
    (match readMemoryMap E m1 with
      | (.error e, m2) => ((.error e : Except MovieError Unit), m2)
      | (.ok _, m2) => readTables E m2).2.codec = m1.codec := by
  have h := (readMemoryMap_fields E m1).1
  generalize readMemoryMap E m1 = z at h
  rcases z with ⟨r, m2⟩
  rcases r with e | u
  · exact h
  · exact (readTables_keeps E m2).codec.trans h

theorem read_fgdm_codec (E : Env) (m1 : Movie) :
    (match readAfterburnerMap E m1 with
      | (.error e, m2) => ((.error e : Except MovieError Unit), m2)
      | (.ok false, m2) => (.ok (), m2)
      | (.ok true, m2) => readTables E m2).2.codec = m1.codec := by
  have h := readAfterburnerMap_codec E m1
  generalize readAfterburnerMap E m1 = z at h
  rcases z with ⟨r, m2⟩
  rcases r with e | b
  · exact h
  · cases b
    · exact h
    · exact (readTables_keeps E m2).codec.trans h

/-- The stream, the codec and the error of `read` in terms of its header. -/
theorem read_of_header (E : Env) (s : ReadStream) (m : Movie) :
    (readHeader s).2.Moved (read E s m).2.stream
    ∧ (∀ codec s4, readHeader s = (.ok codec, s4) → (read E s m).2.codec = codec)
    ∧ ∀ c, (read E s m).1 = .error (.codecUnsupported c) →
        (readHeader s).1 = .ok c ∧ c ≠ FOURCC 'M' 'V' '9' '3' ∧ c ≠ FOURCC 'F' 'G' 'D' 'M' := by
  rw [read_eq_readHeader]
  have hn := (readHeader_spec s).2.2.1
  generalize readHeader s = z at hn
  rcases z with ⟨r, s4⟩
  rcases r with e | codec
  · exact ⟨⟨rfl, rfl⟩, fun codec s5 h => (by cases h),
      fun c hc => absurd hc (noCodecError_cast hn c)⟩
  dsimp only
  by_cases h1 : codec = FOURCC 'M' 'V' '9' '3'
  · rw [if_pos h1]
    have hr := read_mv93_runs E (m.withHeader s4 codec)
    refine ⟨hr.1, ?_, fun c hc => absurd hc (hr.2 c)⟩
    intro codec2 s5 h
    cases h
    exact read_mv93_codec E (m.withHeader s4 codec)
  rw [if_neg h1]
  by_cases h2 : codec = FOURCC 'F' 'G' 'D' 'M'
  · rw [if_pos h2]
    have hr := read_fgdm_runs E (m.withAfterburner s4 codec)
    refine ⟨hr.1, ?_, fun c hc => absurd hc (hr.2 c)⟩
    intro codec2 s5 h
    cases h
    exact read_fgdm_codec E (m.withAfterburner s4 codec)
  rw [if_neg h2]
  refine ⟨⟨rfl, rfl⟩, ?_, ?_⟩
  · intro codec2 s5 h
    cases h
    rfl
  · intro c hc
    cases hc
    exact ⟨rfl, h1, h2⟩

theorem detectedEndianness_eq (t : ReadStream) :
    detectedEndianness t
      = if ((t.data.drop t.pos).take 4).length = 4
            ∧ ((t.data.drop t.pos).take 4).getD 0 0 % 256 * 16777216
                + ((t.data.drop t.pos).take 4).getD 1 0 % 256 * 65536
                + ((t.data.drop t.pos).take 4).getD 2 0 % 256 * 256
                + ((t.data.drop t.pos).take 4).getD 3 0 % 256 = FOURCC 'X' 'F' 'I' 'R' then
          Endianness.kLittleEndian
        else Endianness.kBigEndian := by
  have key : ∀ k, k < 4 →
      t.data.getD (t.pos + k) 0 = ((t.data.drop t.pos).take 4).getD k 0 := by
    intro k hk
    simp [List.getD_eq_getElem?_getD, List.getElem?_take, List.getElem?_drop, hk]
  have klen : (t.pos + 4 ≤ t.data.length) ↔ ((t.data.drop t.pos).take 4).length = 4 := by
    rw [List.length_take, List.length_drop]
    omega
  have k0 := key 0 (by decide)
  rw [Nat.add_zero] at k0
  unfold detectedEndianness firstFour ReadStream.byteAt
  rw [k0, key 1 (by decide), key 2 (by decide), key 3 (by decide)]
  simp only [klen]

/-- C11: the endianness of the stream when `read` ends, however it ends, is
the one detected on the first four bytes: little-endian when they read `XFIR`
as a big-endian `u32`, big-endian for every other value (and when fewer than
four bytes are there). Two inputs with the same first four bytes end with the
same endianness, whatever the stream was set to before. The codec tag is the
`u32` behind the meta length read under the detected endianness, and no reader
behind the header changes the endianness or the bytes of the stream. -/
theorem read_endianness (E : Env) (s : ReadStream) (m : Movie) :
    (read E s m).2.stream.endianness = detectedEndianness s
    ∧ (read E s m).2.stream.data = s.data
    ∧ (∀ s1 : ReadStream, (s1.data.drop s1.pos).take 4 = (s.data.drop s.pos).take 4 →
        (read E s1 m).2.stream.endianness = (read E s m).2.stream.endianness)
    ∧ (∀ codec s4, readHeader s = (.ok codec, s4) →
        ({ data := s.data, pos := s.pos + 8, endianness := detectedEndianness s }
            : ReadStream).readUint32 = (.ok codec, s4)
          ∧ (read E s m).2.codec = codec) := by
  have hend : ∀ t : ReadStream, (read E t m).2.stream.endianness = detectedEndianness t :=
    fun t => (read_of_header E t m).1.2.trans (readHeader_spec t).2.1
  refine ⟨hend s, (read_of_header E s m).1.1.trans (readHeader_spec s).1, ?_, ?_⟩
  · intro s1 h
    rw [hend s1, hend s, detectedEndianness_eq s1, detectedEndianness_eq s, h]
  · intro codec s4 h
    exact ⟨(readHeader_spec s).2.2.2 codec s4 h, (read_of_header E s m).2.1 codec s4 h⟩

set_option maxRecDepth 1000000 in
/-- Witness of C11: a header that starts with `XFIR`; the codec tag `MV93` is
read from its bytes in reverse order. -/
theorem read_endianness_witness :
    readHeader (streamOf sampleXFIRHeader)
        = (.ok (FOURCC 'M' 'V' '9' '3'),
            { data := sampleXFIRHeader, pos := 12, endianness := Endianness.kLittleEndian })
    ∧ detectedEndianness (streamOf sampleXFIRHeader) = Endianness.kLittleEndian
    ∧ (({ data := (streamOf sampleXFIRHeader).data, pos := (streamOf sampleXFIRHeader).pos + 8,
          endianness := detectedEndianness (streamOf sampleXFIRHeader) } : ReadStream).readUint32
        = (.ok (FOURCC 'M' 'V' '9' '3'),
            { data := sampleXFIRHeader, pos := 12, endianness := Endianness.kLittleEndian })
      ∧ (read sampleEnv (streamOf sampleXFIRHeader) (Movie.fresh (streamOf []))).2.codec
          = FOURCC 'M' 'V' '9' '3') :=
  ⟨by decide, by decide,
    (read_endianness sampleEnv (streamOf sampleXFIRHeader) (Movie.fresh (streamOf []))).2.2.2
      _ _ (by decide)⟩

/-- C12: when the header yields a codec tag that is neither `MV93` nor `FGDM`,
`read` fails with the unsupported-codec error carrying that tag, in the state
it was given but for the stream, which stands behind the tag, and the codec:
no map has been parsed and neither the key table nor the config nor the casts
have been read. `read` raises that error in no other case; with the codec tag
`MV93` or `FGDM` it never does. -/
theorem read_unsupported_codec (E : Env) (s : ReadStream) (m : Movie) :
    (∀ codec s4, readHeader s = (.ok codec, s4) → codec ≠ FOURCC 'M' 'V' '9' '3' →
        codec ≠ FOURCC 'F' 'G' 'D' 'M' →
        read E s m = (.error (.codecUnsupported codec), { m with stream := s4, codec := codec }))
    ∧ (∀ c, (read E s m).1 = .error (.codecUnsupported c)
        ↔ ((readHeader s).1 = .ok c ∧ c ≠ FOURCC 'M' 'V' '9' '3' ∧ c ≠ FOURCC 'F' 'G' 'D' 'M'))
    ∧ (∀ codec s4, readHeader s = (.ok codec, s4) →
        (codec = FOURCC 'M' 'V' '9' '3' ∨ codec = FOURCC 'F' 'G' 'D' 'M') →
        ∀ c, (read E s m).1 ≠ .error (.codecUnsupported c)) := by
  refine ⟨fun codec s4 hh h1 h2 => read_of_unsupported E s s4 m codec hh h1 h2, ?_, ?_⟩
  · intro c
    constructor
    · exact (read_of_header E s m).2.2 c
    · rintro ⟨hh, h1, h2⟩
      have hpair : readHeader s = (.ok c, (readHeader s).2) := Prod.ext hh rfl
      rw [read_of_unsupported E s _ m c hpair h1 h2]
  · intro codec s4 hh hor c hc
    obtain ⟨h0, h1, h2⟩ := (read_of_header E s m).2.2 c hc
    rw [hh] at h0
    cases h0
    rcases hor with h | h
    · exact h1 h
    · exact h2 h

set_option maxRecDepth 1000000 in
/-- Witness of C12: the codec tag `XXXX`. -/
theorem read_unsupported_codec_witness :
    readHeader (streamOf sampleUnknownCodec)
        = (.ok (FOURCC 'X' 'X' 'X' 'X'), (streamOf sampleUnknownCodec).seek 12)
    ∧ FOURCC 'X' 'X' 'X' 'X' ≠ FOURCC 'M' 'V' '9' '3'
    ∧ FOURCC 'X' 'X' 'X' 'X' ≠ FOURCC 'F' 'G' 'D' 'M'
    ∧ read sampleEnv (streamOf sampleUnknownCodec) (Movie.fresh (streamOf []))
        = (.error (.codecUnsupported (FOURCC 'X' 'X' 'X' 'X')),
            { Movie.fresh (streamOf []) with
              stream := (streamOf sampleUnknownCodec).seek 12
              codec := FOURCC 'X' 'X' 'X' 'X' }) :=
  ⟨by decide, by decide, by decide,
    (read_unsupported_codec sampleEnv (streamOf sampleUnknownCodec)
      (Movie.fresh (streamOf []))).1 _ _ (by decide) (by decide) (by decide)⟩

/-! ## `readConfig`: the selected entry -/

theorem readConfig_of_entry (E : Env) (m : Movie) :
    readConfig E m =
      match configEntry m with
      | (some info, m1) => configTail E info m1
      | (none, m1) => (.ok false, m1) := by
  rw [readConfig_eq]
  unfold configEntry
  rcases getFirstChunkInfo (FOURCC 'V' 'W' 'C' 'F') m with ⟨r, m1⟩
  rcases r with _ | info <;> rfl

theorem configEntry_fields (m : Movie) :
    (configEntry m).2.config = m.config ∧ (configEntry m).2.version = m.version := by
  unfold configEntry
  have hV := getFirstChunkInfo_fields (FOURCC 'V' 'W' 'C' 'F') m
  generalize getFirstChunkInfo (FOURCC 'V' 'W' 'C' 'F') m = z at hV
  rcases z with ⟨r, m1⟩
  rcases r with _ | info
  · dsimp only at hV ⊢
    have hD := getFirstChunkInfo_fields (FOURCC 'D' 'R' 'C' 'F') m1
    exact ⟨hD.2.2.2.1.trans hV.2.2.2.1, hD.2.1.trans hV.2.1⟩
  · exact ⟨hV.2.2.2.1, hV.2.1⟩

theorem configEntry_fst (m : Movie) :
    (configEntry m).1
      = match m.idsOf (FOURCC 'V' 'W' 'C' 'F') with
        | i :: _ => some ((m.chunkInfo i).getD ChunkInfo.zero)
        | [] =>
          match m.idsOf (FOURCC 'D' 'R' 'C' 'F') with
          | j :: _ => some ((m.chunkInfo j).getD ChunkInfo.zero)
          | [] => none := by
  unfold configEntry
  rcases hV : m.idsOf (FOURCC 'V' 'W' 'C' 'F') with _ | ⟨i, rest⟩
  · rw [getFirstChunkInfo_of_nil _ m hV]
    dsimp only
    have hids : (getFirstChunkInfo (FOURCC 'V' 'W' 'C' 'F') m).2.idsOf (FOURCC 'D' 'R' 'C' 'F')
        = m.idsOf (FOURCC 'D' 'R' 'C' 'F') := getFirstChunkInfo_idsOf _ m _
    have hci : (getFirstChunkInfo (FOURCC 'V' 'W' 'C' 'F') m).2.chunkInfo = m.chunkInfo := by
      unfold getFirstChunkInfo
      rw [hV]
    rw [getFirstChunkInfo_fst, hids, hci]
    rcases m.idsOf (FOURCC 'D' 'R' 'C' 'F') with _ | ⟨j, rest⟩ <;> rfl
  · rw [getFirstChunkInfo_of_cons _ m i rest hV]

theorem configTail_of_error (E : Env) (info : ChunkInfo) (m1 : Movie) (e : MovieError)
    (h : (getChunk E info.fourCC info.id m1).1 = .error e) :
    (configTail E info m1).1 = .error e
    ∧ (configTail E info m1).2.config = m1.config
    ∧ (configTail E info m1).2.version = m1.version := by
  have hext := getChunk_extends E info.fourCC info.id m1
  unfold configTail
  generalize getChunk E info.fourCC info.id m1 = z at h hext
  rcases z with ⟨r, m2⟩
  rcases r with e2 | p
  · cases h
    exact ⟨rfl, hext.config, hext.version⟩
  · cases h

theorem configTail_of_config (E : Env) (info : ChunkInfo) (m1 : Movie) (p dv mm : Nat)
    (h : (getChunk E info.fourCC info.id m1).1 = .ok p)
    (hc : (getChunk E info.fourCC info.id m1).2.heap[p]? = some (.config dv mm)) :
    (configTail E info m1).1 = .ok true
    ∧ (configTail E info m1).2.config = some p
    ∧ (configTail E info m1).2.version = E.humanVersion dv
    ∧ (configTail E info m1).2.heap[p]? = some (.config dv mm) := by
  unfold configTail
  generalize getChunk E info.fourCC info.id m1 = z at h hc
  rcases z with ⟨r, m2⟩
  rcases r with e2 | q
  · cases h
  · cases h
    dsimp only at hc ⊢
    rw [hc]
    exact ⟨rfl, rfl, rfl, hc⟩

theorem configTail_ok_iff (E : Env) (info : ChunkInfo) (m1 : Movie)
    (h : (configTail E info m1).1 = .ok true) :
    ∃ p dv mm, (getChunk E info.fourCC info.id m1).1 = .ok p
      ∧ (getChunk E info.fourCC info.id m1).2.heap[p]? = some (.config dv mm) := by
  unfold configTail at h
  generalize getChunk E info.fourCC info.id m1 = z at h ⊢
  rcases z with ⟨r, m2⟩
  rcases r with e | p
  · cases h
  · dsimp only at h ⊢
    rcases hh : (m2.heap[p]? : Option Chunk) with _ | c
    · rw [hh] at h
      cases h
    · rw [hh] at h
      cases c <;> first | exact ⟨p, _, _, rfl, hh⟩ | cases h

set_option maxRecDepth 1000000 in
/-- C17 fails on two sample archives. In the `MV93` archive whose `mmap` entry
gives the config chunk the length 9 against the 8 of its framing, the
directory has a `VWCF` entry, yet no config is materialised: `readConfig`
throws the framing error and `config` stays unset. In the `FGDM` archive whose
map lists resource 5 as `VWCF` and then as `XXXX`, the directory entry of 5 has
the tag `XXXX` and the tag index lists no `DRCF`, yet `readConfig` does not
report failure: it makes a chunk of the tag `XXXX` and reads it as a config. -/
theorem readConfig_throws_with_config_entry :
    ((sampleBeforeConfig 9).chunkInfo 5
        = some { id := 5, fourCC := FOURCC 'V' 'W' 'C' 'F', len := 9, uncompressedLen := 9,
                 offset := 136, compressionType := 0 }
      ∧ (sampleBeforeConfig 9).idsOf (FOURCC 'V' 'W' 'C' 'F') = [5]
      ∧ (readConfig sampleEnv (sampleBeforeConfig 9)).1
          = .error (.framing 136 (FOURCC 'V' 'W' 'C' 'F') 9 (FOURCC 'V' 'W' 'C' 'F') 8)
      ∧ (readConfig sampleEnv (sampleBeforeConfig 9)).2.config = none)
    ∧ (sampleRelistedBeforeConfig.chunkInfo 5
        = some { id := 5, fourCC := FOURCC 'X' 'X' 'X' 'X', len := 8, uncompressedLen := 8,
                 offset := 13, compressionType := 0 }
      ∧ sampleRelistedBeforeConfig.idsOf (FOURCC 'V' 'W' 'C' 'F') = [5]
      ∧ sampleRelistedBeforeConfig.idsOf (FOURCC 'D' 'R' 'C' 'F') = []
      ∧ (sampleRelistedBeforeConfig.chunkInfo 2).map ChunkInfo.fourCC
          = some (FOURCC 'I' 'L' 'S' ' ')
      ∧ (sampleRelistedBeforeConfig.chunkInfo 3).map ChunkInfo.fourCC
          = some (FOURCC 'K' 'E' 'Y' '*')
      ∧ (sampleRelistedBeforeConfig.chunkInfo 6).map ChunkInfo.fourCC
          = some (FOURCC 'C' 'A' 'S' '*')
      ∧ (readConfig sampleEnv sampleRelistedBeforeConfig).1 = .error .badPointer) := by
  refine ⟨⟨by decide, by decide, by decide, by decide⟩,
    ⟨by decide, by decide, by decide, by decide, by decide, by decide, by decide⟩⟩

/-- C17, amended: `readConfig` looks the directory up through the tag index.
It selects the entry of the first id listed under `VWCF`, whether or not
`DRCF` ids are listed, and otherwise the entry of the first id listed under
`DRCF`. It reports failure exactly when the index lists neither tag (with an
index consistent with the directory: exactly when no directory entry has
either tag), and then `config` and `version` are unchanged. Otherwise it calls
`getChunk` on the selected entry: when that call fails, `readConfig` fails
with the same error and `config` and `version` are unchanged; when it returns
a config chunk, `readConfig` succeeds with `config` set to that chunk and
`version` to `humanVersion` of its `directorVersion`; and it succeeds in no
other case. -/
theorem readConfig_tag_priority (E : Env) (m : Movie) :
    (∀ i rest, m.idsOf (FOURCC 'V' 'W' 'C' 'F') = i :: rest →
        (configEntry m).1 = some ((m.chunkInfo i).getD ChunkInfo.zero))
    ∧ (∀ j rest, m.idsOf (FOURCC 'V' 'W' 'C' 'F') = [] →
        m.idsOf (FOURCC 'D' 'R' 'C' 'F') = j :: rest →
        (configEntry m).1 = some ((m.chunkInfo j).getD ChunkInfo.zero))
    ∧ ((readConfig E m).1 = .ok false
        ↔ m.idsOf (FOURCC 'V' 'W' 'C' 'F') = [] ∧ m.idsOf (FOURCC 'D' 'R' 'C' 'F') = [])
    ∧ (IndexConsistent m →
        ((readConfig E m).1 = .ok false
          ↔ ∀ i info, m.chunkInfo i = some info →
              info.fourCC ≠ FOURCC 'V' 'W' 'C' 'F' ∧ info.fourCC ≠ FOURCC 'D' 'R' 'C' 'F'))
    ∧ ((readConfig E m).1 = .ok false →
        (readConfig E m).2.config = m.config ∧ (readConfig E m).2.version = m.version)
    ∧ (∀ info m1, configEntry m = (some info, m1) →
        (∀ e, (getChunk E info.fourCC info.id m1).1 = .error e →
            (readConfig E m).1 = .error e
            ∧ (readConfig E m).2.config = m.config
            ∧ (readConfig E m).2.version = m.version)
        ∧ (∀ p dv mm, (getChunk E info.fourCC info.id m1).1 = .ok p →
            (getChunk E info.fourCC info.id m1).2.heap[p]? = some (.config dv mm) →
            (readConfig E m).1 = .ok true
            ∧ (readConfig E m).2.config = some p
            ∧ (readConfig E m).2.version = E.humanVersion dv
            ∧ (readConfig E m).2.heap[p]? = some (.config dv mm))
        ∧ ((readConfig E m).1 = .ok true →
            ∃ p dv mm, (getChunk E info.fourCC info.id m1).1 = .ok p
              ∧ (getChunk E info.fourCC info.id m1).2.heap[p]? = some (.config dv mm))) := by
  have hfst := configEntry_fst m
  have hfield := configEntry_fields m
  have hiff : (readConfig E m).1 = .ok false
      ↔ m.idsOf (FOURCC 'V' 'W' 'C' 'F') = [] ∧ m.idsOf (FOURCC 'D' 'R' 'C' 'F') = [] := by
    constructor
    · exact (readConfig_keeps E m).2.2
    · rintro ⟨hV, hD⟩
      rw [readConfig_of_entry]
      rw [hV, hD] at hfst
      generalize configEntry m = z at hfst
      rcases z with ⟨r, m1⟩
      dsimp only at hfst
      subst hfst
      rfl
  refine ⟨?_, ?_, hiff, ?_, ?_, ?_⟩
  · intro i rest hV
    rw [hfst, hV]
  · intro j rest hV hD
    rw [hfst, hV, hD]
  · intro hcons
    rw [hiff]
    have hempty : ∀ t, m.idsOf t = [] ↔ ∀ i info, m.chunkInfo i = some info → info.fourCC ≠ t := by
      intro t
      rw [List.eq_nil_iff_forall_not_mem]
      constructor
      · intro h i info hi ht
        exact h i (((hcons t i).1).mpr ⟨info, hi, ht⟩)
      · intro h i hmem
        obtain ⟨info, hi, ht⟩ := ((hcons t i).1).mp hmem
        exact h i info hi ht
    rw [hempty, hempty]
    constructor
    · rintro ⟨h1, h2⟩ i info hi
      exact ⟨h1 i info hi, h2 i info hi⟩
    · intro h
      exact ⟨fun i info hi => (h i info hi).1, fun i info hi => (h i info hi).2⟩
  · intro h
    obtain ⟨hV, hD⟩ := hiff.mp h
    rw [readConfig_of_entry]
    rw [hV, hD] at hfst
    generalize configEntry m = z at hfst hfield
    rcases z with ⟨r, m1⟩
    dsimp only at hfst
    subst hfst
    exact hfield
  · intro info m1 hent
    rw [readConfig_of_entry, hent]
    rw [hent] at hfield
    dsimp only at hfield ⊢
    refine ⟨?_, ?_, ?_⟩
    · intro e he
      obtain ⟨h1, h2, h3⟩ := configTail_of_error E info m1 e he
      exact ⟨h1, h2.trans hfield.1, h3.trans hfield.2⟩
    · intro p dv mm hp hc
      exact configTail_of_config E info m1 p dv mm hp hc
    · intro hok
      exact configTail_ok_iff E info m1 hok

set_option maxRecDepth 1000000 in
/-- Witness of C17 (amended): with `VWCF` under id 5 and `DRCF` under id 7,
entry 5 is selected and the config is read from it. -/
theorem readConfig_tag_priority_witness :
    sampleBothConfigs.idsOf (FOURCC 'V' 'W' 'C' 'F') = [5]
    ∧ sampleBothConfigs.idsOf (FOURCC 'D' 'R' 'C' 'F') = [7]
    ∧ (configEntry sampleBothConfigs).1
        = some ((sampleBothConfigs.chunkInfo 5).getD ChunkInfo.zero)
    ∧ configEntry sampleBothConfigs
        = (some ((sampleBothConfigs.chunkInfo 5).getD ChunkInfo.zero),
            (configEntry sampleBothConfigs).2)
    ∧ ((readConfig sampleEnv sampleBothConfigs).1 = .ok true
      ∧ (readConfig sampleEnv sampleBothConfigs).2.config = some 2
      ∧ (readConfig sampleEnv sampleBothConfigs).2.version = sampleEnv.humanVersion 1116
      ∧ (readConfig sampleEnv sampleBothConfigs).2.heap[2]? = some (.config 1116 1)) :=
  ⟨by decide, by decide,
    (readConfig_tag_priority sampleEnv sampleBothConfigs).1 5 [] (by decide),
    Prod.ext (by decide) rfl,
    ((readConfig_tag_priority sampleEnv sampleBothConfigs).2.2.2.2.2
      ((sampleBothConfigs.chunkInfo 5).getD ChunkInfo.zero) (configEntry sampleBothConfigs).2
      (Prod.ext (by decide) rfl)).2.1 2 1116 1 (by decide) (by decide)⟩

/-! ## Where `readAfterburnerMap` stops, and in which state -/

theorem readAfterburnerMap_of_no_fver (E : Env) (m : Movie) (v : Nat) (s1 : ReadStream)
    (h1 : m.stream.readUint32 = (.ok v, s1)) (hv : v ≠ FOURCC 'F' 'v' 'e' 'r') :
    readAfterburnerMap E m = (.ok false, { m with stream := s1 }) := by
  unfold readAfterburnerMap
  rw [h1]
  dsimp only
  rw [if_pos hv]

theorem readAfterburnerMap_of_no_fcdr (E : Env) (m : Movie) (v : Nat) (s4 s5 : ReadStream)
    (h1 : readFver m.stream = (.ok true, s4)) (h2 : s4.readUint32 = (.ok v, s5))
    (hv : v ≠ FOURCC 'F' 'c' 'd' 'r') :
    readAfterburnerMap E m = (.ok false, { m with stream := s5 }) := by
  rw [readAfterburnerMap_eq_readFver, h1]
  dsimp only
  unfold readFcdr
  dsimp only
  rw [h2]
  dsimp only
  rw [if_pos hv]

theorem readAfterburnerMap_of_atAbmp (E : Env) (m : Movie) (s : ReadStream) (h : AtAbmp m s) :
    readAfterburnerMap E m = readAbmp E { m with stream := s } := by
  obtain ⟨s4, s5, s6, fcdrLength, h1, h2, h3, rfl⟩ := h
  rw [readAfterburnerMap_eq_readFver, h1]
  dsimp only
  unfold readFcdr
  dsimp only
  rw [h2]
  dsimp only
  rw [if_neg (not_not.mpr rfl), h3]

theorem readAbmp_of_no_abmp (E : Env) (m : Movie) (v : Nat) (s1 : ReadStream)
    (h1 : m.stream.readUint32 = (.ok v, s1)) (hv : v ≠ FOURCC 'A' 'B' 'M' 'P') :
    readAbmp E m = (.ok false, { m with stream := s1 }) := by
  unfold readAbmp
  rw [h1]
  dsimp only
  rw [if_pos hv]

theorem readAbmp_of_inflate_failed (E : Env) (m : Movie) (s5 : ReadStream)
    (h : AbmpInflate E m.stream none s5) :
    readAbmp E m = (.ok false, { m with stream := s5 }) := by
  obtain ⟨s1, s2, s3, s4, abmpLength, compressionType, declared, actual, h1, h2, h3, h4, h5⟩ := h
  unfold readAbmp
  rw [h1]
  dsimp only
  rw [if_neg (not_not.mpr rfl), h2]
  dsimp only
  rw [h3]
  dsimp only
  rw [h4]
  dsimp only
  rw [h5]

theorem readAbmp_of_map (E : Env) (m : Movie) (abmpStream s5 : ReadStream)
    (recs : List AbmpRecord) (h : AbmpInflate E m.stream (some abmpStream) s5)
    (hmap : inflatedMap abmpStream = some recs) :
    readAbmp E m
      = readInitialLoadSegment E
          (recs.foldl (fun acc r => addResource r acc) { m with stream := s5 }) := by
  obtain ⟨s1, s2, s3, s4, abmpLength, compressionType, declared, actual, h1, h2, h3, h4, h5⟩ := h
  rw [readAbmp_of_inflated E m s1 s2 s3 s4 s5 abmpStream abmpLength compressionType declared
    actual h1 h2 h3 h4 h5, afterAbmpInflate_of_map E abmpStream _ recs hmap]

theorem readInitialLoadSegment_of_no_fgei (E : Env) (m : Movie) (ilsInfo : ChunkInfo) (v : Nat)
    (s1 : ReadStream) (h0 : m.chunkInfo 2 = some ilsInfo)
    (h1 : m.stream.readUint32 = (.ok v, s1)) (hv : v ≠ FOURCC 'F' 'G' 'E' 'I') :
    readInitialLoadSegment E m = (.ok false, { m with stream := s1 }) := by
  unfold readInitialLoadSegment
  rw [h0]
  dsimp only
  rw [h1]
  dsimp only
  rw [if_pos hv]

theorem readInitialLoadSegment_of_inflate_failed (E : Env) (m : Movie) (ilsInfo : ChunkInfo)
    (s1 s2 s3 : ReadStream) (unk actual : Nat) (h0 : m.chunkInfo 2 = some ilsInfo)
    (h1 : m.stream.readUint32 = (.ok (FOURCC 'F' 'G' 'E' 'I'), s1))
    (h2 : s1.readVarInt = (.ok unk, s2))
    (h3 : s2.readZlibBytes E.uncompress ilsInfo.len ilsInfo.uncompressedLen
      = (.ok (none, actual), s3)) :
    readInitialLoadSegment E m
      = (.ok false, { m with stream := s3, ilsBodyOffset := s2.pos % 4294967296 }) := by
  unfold readInitialLoadSegment
  rw [h0]
  dsimp only
  rw [h1]
  dsimp only
  rw [if_neg (not_not.mpr rfl), h2]
  dsimp only
  rw [h3]

/-- C14, amended: `read` has no rollback; what it leaves behind depends on
where it stops. At an unsupported codec the archive is as it was but for the
stream and the codec. When `readAfterburnerMap` stops at a missing `Fver`,
`Fcdr` or `ABMP` marker or at a failed inflate of the `ABMP` block, it returns
false and only the stream has changed. Once a well-formed map `recs` has been
inflated, the run continues from the state in which the resource loop has
entered every record into the directory and the tag index; a missing resource
2, a missing `FGEI` marker and a failed inflate of the initial load segment
each return false in that state (but for the stream and `_ilsBodyOffset`), so
the directory and the tag index keep the resources of the map.
`readAfterburnerMap` never changes the key table, the config, the casts, the
materialised-chunk cache or the chunk objects, and when it has not succeeded
`read` ends in the state it left. With no `KEY*` id in the tag index the table
readers return at once, leaving the directory, the ids listed per tag, both
caches, the key table, the config and the casts as they were. -/
theorem read_failure_states (E : Env) (s : ReadStream) (m : Movie) :
    (∀ codec s4, readHeader s = (.ok codec, s4) → codec ≠ FOURCC 'M' 'V' '9' '3' →
        codec ≠ FOURCC 'F' 'G' 'D' 'M' →
        read E s m = (.error (.codecUnsupported codec), { m with stream := s4, codec := codec }))
    ∧ (∀ (m1 : Movie) (v : Nat) (s1 : ReadStream),
        m1.stream.readUint32 = (.ok v, s1) → v ≠ FOURCC 'F' 'v' 'e' 'r' →
        readAfterburnerMap E m1 = (.ok false, { m1 with stream := s1 }))
    ∧ (∀ (m1 : Movie) (v : Nat) (s4 s5 : ReadStream),
        readFver m1.stream = (.ok true, s4) → s4.readUint32 = (.ok v, s5) →
        v ≠ FOURCC 'F' 'c' 'd' 'r' →
        readAfterburnerMap E m1 = (.ok false, { m1 with stream := s5 }))
    ∧ (∀ (m1 : Movie) (v : Nat) (sA s1 : ReadStream),
        AtAbmp m1 sA → sA.readUint32 = (.ok v, s1) → v ≠ FOURCC 'A' 'B' 'M' 'P' →
        readAfterburnerMap E m1 = (.ok false, { m1 with stream := s1 }))
    ∧ (∀ (m1 : Movie) (sA s5 : ReadStream),
        AtAbmp m1 sA → AbmpInflate E sA none s5 →
        readAfterburnerMap E m1 = (.ok false, { m1 with stream := s5 }))
    ∧ (∀ (m1 : Movie) (sA abmpStream s5 : ReadStream) (recs : List AbmpRecord),
        AtAbmp m1 sA → AbmpInflate E sA (some abmpStream) s5 →
        inflatedMap abmpStream = some recs →
        readAfterburnerMap E m1
            = readInitialLoadSegment E
                (recs.foldl (fun acc r => addResource r acc) { m1 with stream := s5 })
          ∧ (∀ r ∈ recs,
              ((recs.foldl (fun acc r => addResource r acc)
                  { m1 with stream := s5 }).chunkInfo r.resId).isSome)
          ∧ (∀ t, (recs.foldl (fun acc r => addResource r acc) { m1 with stream := s5 }).idsOf t
              = m1.idsOf t ++ (recs.filter (fun r => decide (r.tag = t))).map AbmpRecord.resId))
    ∧ (∀ m3 : Movie, m3.chunkInfo 2 = none → readInitialLoadSegment E m3 = (.ok false, m3))
    ∧ (∀ (m3 : Movie) (ilsInfo : ChunkInfo) (v : Nat) (s1 : ReadStream),
        m3.chunkInfo 2 = some ilsInfo → m3.stream.readUint32 = (.ok v, s1) →
        v ≠ FOURCC 'F' 'G' 'E' 'I' →
        readInitialLoadSegment E m3 = (.ok false, { m3 with stream := s1 }))
    ∧ (∀ (m3 : Movie) (ilsInfo : ChunkInfo) (s1 s2 s3 : ReadStream) (unk actual : Nat),
        m3.chunkInfo 2 = some ilsInfo →
        m3.stream.readUint32 = (.ok (FOURCC 'F' 'G' 'E' 'I'), s1) →
        s1.readVarInt = (.ok unk, s2) →
        s2.readZlibBytes E.uncompress ilsInfo.len ilsInfo.uncompressedLen
          = (.ok (none, actual), s3) →
        readInitialLoadSegment E m3
          = (.ok false, { m3 with stream := s3, ilsBodyOffset := s2.pos % 4294967296 }))
    ∧ (∀ m1 : Movie, m1.SameTables (readAfterburnerMap E m1).2)
    ∧ (∀ s4, readHeader s = (.ok (FOURCC 'F' 'G' 'D' 'M'), s4) →
        (readAfterburnerMap E (m.withAfterburner s4 (FOURCC 'F' 'G' 'D' 'M'))).1 ≠ .ok true →
        (read E s m).2
            = (readAfterburnerMap E (m.withAfterburner s4 (FOURCC 'F' 'G' 'D' 'M'))).2
          ∧ (read E s m).2.keyTable = m.keyTable ∧ (read E s m).2.config = m.config
          ∧ (read E s m).2.casts = m.casts
          ∧ (read E s m).2.deserializedChunks = m.deserializedChunks)
    ∧ (∀ m1 : Movie, m1.idsOf (FOURCC 'K' 'E' 'Y' '*') = [] →
        (readTables E m1).1 = .ok ()
          ∧ (readTables E m1).2.chunkInfo = m1.chunkInfo
          ∧ (∀ t, (readTables E m1).2.idsOf t = m1.idsOf t)
          ∧ (readTables E m1).2.keyTable = m1.keyTable
          ∧ (readTables E m1).2.config = m1.config
          ∧ (readTables E m1).2.casts = m1.casts
          ∧ (readTables E m1).2.deserializedChunks = m1.deserializedChunks
          ∧ (readTables E m1).2.cachedChunkData = m1.cachedChunkData) := by
  refine ⟨fun codec s4 hh h1 h2 => read_of_unsupported E s s4 m codec hh h1 h2,
    fun m1 v s1 h1 hv => readAfterburnerMap_of_no_fver E m1 v s1 h1 hv,
    fun m1 v s4 s5 h1 h2 hv => readAfterburnerMap_of_no_fcdr E m1 v s4 s5 h1 h2 hv,
    ?_, ?_, ?_,
    fun m3 h0 => readInitialLoadSegment_of_no_ils E m3 h0,
    fun m3 ilsInfo v s1 h0 h1 hv => readInitialLoadSegment_of_no_fgei E m3 ilsInfo v s1 h0 h1 hv,
    fun m3 ilsInfo s1 s2 s3 unk actual h0 h1 h2 h3 =>
      readInitialLoadSegment_of_inflate_failed E m3 ilsInfo s1 s2 s3 unk actual h0 h1 h2 h3,
    readAfterburnerMap_sameTables E, ?_, ?_⟩
  · intro m1 v sA s1 hA h1 hv
    rw [readAfterburnerMap_of_atAbmp E m1 sA hA]
    exact readAbmp_of_no_abmp E { m1 with stream := sA } v s1 h1 hv
  · intro m1 sA s5 hA hI
    rw [readAfterburnerMap_of_atAbmp E m1 sA hA]
    exact readAbmp_of_inflate_failed E { m1 with stream := sA } s5 hI
  · intro m1 sA abmpStream s5 recs hA hI hmap
    refine ⟨?_, ?_, ?_⟩
    · rw [readAfterburnerMap_of_atAbmp E m1 sA hA]
      exact readAbmp_of_map E { m1 with stream := sA } abmpStream s5 recs hI hmap
    · intro r hr
      exact foldl_addResource_chunkInfo_isSome recs _ r.resId (Or.inr ⟨r, hr, rfl⟩)
    · intro t
      rw [foldl_addResource_idsOf]
      rfl
  · intro s4 hh hne
    have hst := readAfterburnerMap_sameTables E (m.withAfterburner s4 (FOURCC 'F' 'G' 'D' 'M'))
    rw [read_of_afterburner_failure E s s4 m hh hne]
    exact ⟨rfl, hst.keyTable, hst.config, hst.casts, hst.deserializedChunks⟩
  · intro m1 hk
    obtain ⟨h1, h2⟩ := readTables_of_no_keyTable E m1 hk
    have hf := getFirstChunkInfo_fields (FOURCC 'K' 'E' 'Y' '*') m1
    rw [h1]
    exact ⟨rfl, h2, getFirstChunkInfo_idsOf _ m1, hf.2.2.1, hf.2.2.2.1, hf.2.2.2.2.1,
      hf.2.2.2.2.2.2.1, hf.2.2.2.2.2.2.2.1⟩

set_option maxRecDepth 1000000 in
/-- Witness of C14 (amended): the sample archive whose map lists the resources
9, 3, 5 and 6. The map parser continues from the state that holds the four
records, finds no resource 2 there and returns false in that state. -/
theorem read_failure_states_witness :
    AtAbmp sampleNoIlsAtFver ((streamOf (sampleFGDMFirst 9)).seek 23)
    ∧ AbmpInflate sampleEnv ((streamOf (sampleFGDMFirst 9)).seek 23)
        (some (streamOf (((sampleFGDMFirst 9).drop 30).take 39)))
        ((streamOf (sampleFGDMFirst 9)).seek 69)
    ∧ inflatedMap (streamOf (((sampleFGDMFirst 9).drop 30).take 39))
        = some (abmpRecords 4 ((streamOf (((sampleFGDMFirst 9).drop 30).take 39)).seek 3))
    ∧ (readAfterburnerMap sampleEnv sampleNoIlsAtFver
          = readInitialLoadSegment sampleEnv
              ((abmpRecords 4 ((streamOf (((sampleFGDMFirst 9).drop 30).take 39)).seek 3)).foldl
                (fun acc r => addResource r acc)
                { sampleNoIlsAtFver with stream := (streamOf (sampleFGDMFirst 9)).seek 69 })
        ∧ (∀ r ∈ abmpRecords 4 ((streamOf (((sampleFGDMFirst 9).drop 30).take 39)).seek 3),
            (((abmpRecords 4
                ((streamOf (((sampleFGDMFirst 9).drop 30).take 39)).seek 3)).foldl
                (fun acc r => addResource r acc)
                { sampleNoIlsAtFver with
                  stream := (streamOf (sampleFGDMFirst 9)).seek 69 }).chunkInfo r.resId).isSome)
        ∧ (∀ t,
            ((abmpRecords 4 ((streamOf (((sampleFGDMFirst 9).drop 30).take 39)).seek 3)).foldl
                (fun acc r => addResource r acc)
                { sampleNoIlsAtFver with
                  stream := (streamOf (sampleFGDMFirst 9)).seek 69 }).idsOf t
              = sampleNoIlsAtFver.idsOf t
                ++ ((abmpRecords 4
                      ((streamOf (((sampleFGDMFirst 9).drop 30).take 39)).seek 3)).filter
                    (fun r => decide (r.tag = t))).map AbmpRecord.resId))
    ∧ readInitialLoadSegment sampleEnv
          ((abmpRecords 4 ((streamOf (((sampleFGDMFirst 9).drop 30).take 39)).seek 3)).foldl
            (fun acc r => addResource r acc)
            { sampleNoIlsAtFver with stream := (streamOf (sampleFGDMFirst 9)).seek 69 })
        = (.ok false,
            (abmpRecords 4 ((streamOf (((sampleFGDMFirst 9).drop 30).take 39)).seek 3)).foldl
              (fun acc r => addResource r acc)
              { sampleNoIlsAtFver with stream := (streamOf (sampleFGDMFirst 9)).seek 69 }) := by
  have hA : AtAbmp sampleNoIlsAtFver ((streamOf (sampleFGDMFirst 9)).seek 23) :=
    ⟨(streamOf (sampleFGDMFirst 9)).seek 18, (streamOf (sampleFGDMFirst 9)).seek 22,
      (streamOf (sampleFGDMFirst 9)).seek 23, 0, by decide, by decide, by decide, rfl⟩
  have hI : AbmpInflate sampleEnv ((streamOf (sampleFGDMFirst 9)).seek 23)
      (some (streamOf (((sampleFGDMFirst 9).drop 30).take 39)))
      ((streamOf (sampleFGDMFirst 9)).seek 69) :=
    ⟨(streamOf (sampleFGDMFirst 9)).seek 27, (streamOf (sampleFGDMFirst 9)).seek 28,
      (streamOf (sampleFGDMFirst 9)).seek 29, (streamOf (sampleFGDMFirst 9)).seek 30,
      41, 0, 39, 39, by decide, by decide, by decide, by decide, by decide⟩
  exact ⟨hA, hI, by decide,
    (read_failure_states sampleEnv (streamOf (sampleFGDMFirst 9))
      (Movie.fresh (streamOf []))).2.2.2.2.2.1 _ _ _ _ _ hA hI (by decide),
    (read_failure_states sampleEnv (streamOf (sampleFGDMFirst 9))
      (Movie.fresh (streamOf []))).2.2.2.2.2.2.1 _ (by decide)⟩

end ProjectorRays
